import Mathlib

/-!
# immutableVet: a verification development

A shallow embedding of `cmd/immutableVet/immutableVet.go`: the memoised type
classifier `isImmType`, the syntax walker `immutableVetter.Visit`, the
per-package driver `vetPackages`, the cross-package interface check of `vet`
and the sorted report `vet` returns.

The Go type checker (`go/types`), the parser (`go/ast`) and the template
recogniser (`immutable.IsImmType`) are libraries outside the program; what the
program reads from them is data of the model (the declaration table, the syntax
tree, the selection table) or an explicit oracle carried by `Universe`.
-/

namespace ImmutableVet

/-! ## Types of the checked program (`go/types`) -/

/-- The basic types of `go/types`: the kinds of `types.Basic`, and the aliases
`byte` and `rune`, which are basic types of their own with their own names. -/
inductive BasicKind where
  | invalid | bool | int | int8 | int16 | int32 | int64
  | uint | uint8 | uint16 | uint32 | uint64 | uintptr
  | float32 | float64 | complex64 | complex128 | string | unsafePointer
  | untypedBool | untypedInt | untypedRune | untypedFloat | untypedComplex
  | untypedString | untypedNil | byte | rune
deriving DecidableEq, Repr

/-- The name `go/types` prints for a basic type. -/
def BasicKind.name : BasicKind → String
  | .invalid => "invalid type"
  | .bool => "bool"
  | .int => "int"
  | .int8 => "int8"
  | .int16 => "int16"
  | .int32 => "int32"
  | .int64 => "int64"
  | .uint => "uint"
  | .uint8 => "uint8"
  | .uint16 => "uint16"
  | .uint32 => "uint32"
  | .uint64 => "uint64"
  | .uintptr => "uintptr"
  | .float32 => "float32"
  | .float64 => "float64"
  | .complex64 => "complex64"
  | .complex128 => "complex128"
  | .string => "string"
  | .unsafePointer => "unsafe.Pointer"
  | .untypedBool => "untyped bool"
  | .untypedInt => "untyped int"
  | .untypedRune => "untyped rune"
  | .untypedFloat => "untyped float"
  | .untypedComplex => "untyped complex"
  | .untypedString => "untyped string"
  | .untypedNil => "untyped nil"
  | .byte => "byte"
  | .rune => "rune"

/-- Every basic kind, in declaration order. -/
def BasicKind.all : List BasicKind :=
  [.invalid, .bool, .int, .int8, .int16, .int32, .int64,
   .uint, .uint8, .uint16, .uint32, .uint64, .uintptr,
   .float32, .float64, .complex64, .complex128, .string, .unsafePointer,
   .untypedBool, .untypedInt, .untypedRune, .untypedFloat, .untypedComplex,
   .untypedString, .untypedNil, .byte, .rune]

/-- A `types.Type`.  A named type is the index of its declaration in the
declaration table of the `Universe` (the identity of the `*types.Named`
object); an interface carries the identity of its `*types.Interface` object
and its printed methods.  `array`, `chan` and `tuple` are the shapes the
classifier has no case for. -/
inductive Ty where
  | named (id : Nat)
  | basic (kind : BasicKind)
  | map (key elem : Ty)
  | slice (elem : Ty)
  | pointer (elem : Ty)
  | struct (fields : List (String × Ty))
  | interface (id : Nat) (methods : List String)
  | signature (params results : List Ty)
  | array (len : Nat) (elem : Ty)
  | chan (elem : Ty)
  | tuple (elems : List Ty)
deriving Repr

/-- A `token.Position`: file name, line and column. -/
structure Position where
  filename : String
  line : Nat
  column : Nat
deriving DecidableEq, Repr

/-- The declaration of a named type: the qualified name `String()` prints for
it (package path, a dot, the type name), its underlying type and the position
of the declaring identifier. -/
structure Decl where
  qualName : String
  underlying : Ty
  pos : Position

/-- The three flavours `immutable.IsImmType` answers with. -/
inductive ImmType where
  | ImmTypeMap | ImmTypeSlice | ImmTypeStruct
deriving DecidableEq, Repr

/-- What the program gets from its libraries about the types of one run: the
declarations of the named types, the template recogniser
`immutable.IsImmType` (`none` is its `nil`) and `types.Implements` (the
interface is given by the identity of its object). -/
structure Universe where
  decls : List Decl
  IsImmType : Ty → Option ImmType
  Implements : Ty → Nat → Bool

/-- The qualified name of the named type `i`. -/
def Universe.qualName (U : Universe) (i : Nat) : String :=
  match U.decls.get? i with
  | some d => d.qualName
  | none => ""

/-- The `Underlying()` of the named type `i`; an index that names no
declaration has the invalid type. -/
def Universe.underlying (U : Universe) (i : Nat) : Ty :=
  match U.decls.get? i with
  | some d => d.underlying
  | none => .basic .invalid

/-- The position `n.Obj().Pos()` of the named type `i`. -/
def Universe.declPos (U : Universe) (i : Nat) : Position :=
  match U.decls.get? i with
  | some d => d.pos
  | none => ⟨"", 0, 0⟩

mutual
/-- The `String()` of a type, after `types.TypeString` without a qualifier.
The fields of a struct of the model have a name and no tag, the parameters and
results of a signature no name, and a channel both directions. -/
def typeString (U : Universe) : Ty → String
  | .named i => U.qualName i
  | .basic k => k.name
  | .map k e => "map[" ++ typeString U k ++ "]" ++ typeString U e
  | .slice e => "[]" ++ typeString U e
  | .pointer e => "*" ++ typeString U e
  | .struct fs => "struct\x7b" ++ fieldsString U fs ++ "\x7d"
  | .interface _ ms => "interface\x7b" ++ "; ".intercalate ms ++ "\x7d"
  | .signature ps rs => "func(" ++ tupleString U ps ++ ")" ++ resultsString U rs
  | .array n e => "[" ++ toString n ++ "]" ++ typeString U e
  | .chan e => "chan " ++ typeString U e
  | .tuple es => "(" ++ tupleString U es ++ ")"
/-- The fields of a struct, separated by semicolons. -/
def fieldsString (U : Universe) : List (String × Ty) → String
  | [] => ""
  | [f] => f.1 ++ " " ++ typeString U f.2
  | f :: g :: fs => f.1 ++ " " ++ typeString U f.2 ++ "; " ++ fieldsString U (g :: fs)
/-- The elements of a tuple, separated by commas. -/
def tupleString (U : Universe) : List Ty → String
  | [] => ""
  | [t] => typeString U t
  | t :: u :: ts => typeString U t ++ ", " ++ tupleString U (u :: ts)
/-- The results of a signature: nothing for none, the type for one, the tuple
in parentheses for more. -/
def resultsString (U : Universe) : List Ty → String
  | [] => ""
  | [t] => " " ++ typeString U t
  | t :: u :: ts => " (" ++ typeString U t ++ ", " ++ tupleString U (u :: ts) ++ ")"
end

/-! ## The classifier `isImmType` and its global maps -/

/-- The map `typesCache`, as an association list: the entry nearest the head
is the one a key maps to. -/
abbrev Cache := List (String × Bool)

/-- The lookup `typesCache[k]`: `none` when the key is absent. -/
def Cache.find : Cache → String → Option Bool
  | [], _ => none
  | (k', v) :: c, k => if k' = k then some v else Cache.find c k

/-- The assignment `typesCache[k] = v`. -/
def Cache.store (c : Cache) (k : String) (v : Bool) : Cache := (k, v) :: c

/-- The pre-seeded `typesCache`. -/
def typesCache : Cache := [("time.Time", true), ("*time.Time", true)]

/-- The assignment `m[k] = true` of a set of object identities. -/
def setInsert (s : List Nat) (k : Nat) : List Nat :=
  if k ∈ s then s else s ++ [k]

/-- The package-level variables: `typesCache`, `seenTypes` and `ifaces`. -/
structure State where
  typesCache : Cache
  seenTypes : List Nat
  ifaces : List Nat
deriving DecidableEq, Repr

/-- The package-level variables at program start. -/
def State.init : State := ⟨ImmutableVet.typesCache, [], []⟩

/-- How a call ends: it returns a value, it panics through `fatalf`, or the
model ran out of fuel. -/
inductive Res (α : Type) where
  | ok (a : α)
  | fault (msg : String)
  | outOfFuel
deriving DecidableEq, Repr

/-- The loop over the fields of a struct in `isImmType`, given the classifier
for a field type: it returns `false` at the first field that is not immutable. -/
def fieldLoop (classify : State → Ty → Res Bool × State) :
    State → List (String × Ty) → Res Bool × State
  | st, [] => (.ok true, st)
  | st, f :: fs =>
    match classify st f.2 with
    | (.ok true, st') => fieldLoop classify st' fs
    | r => r

/-- The dynamic type of a `types.Type`, as the verb `%T` prints it. -/
def Ty.goType : Ty → String
  | .named _ => "*types.Named"
  | .basic _ => "*types.Basic"
  | .map _ _ => "*types.Map"
  | .slice _ => "*types.Slice"
  | .pointer _ => "*types.Pointer"
  | .struct _ => "*types.Struct"
  | .interface _ _ => "*types.Interface"
  | .signature _ _ => "*types.Signature"
  | .array _ _ => "*types.Array"
  | .chan _ => "*types.Chan"
  | .tuple _ => "*types.Tuple"

/-- The message of `fatalf("unable to handle type %T %v", t, t)`. -/
def unableToHandle (U : Universe) (t : Ty) : String :=
  "unable to handle type " ++ (t.goType ++ " " ++ typeString U t)

/-- The body of the function `isImmType`; its recursive calls go to `recur`.
The state is returned in every case: at a fault it is the state at the time of
the panic. -/
def isImmTypeBody (U : Universe) (recur : State → Ty → Res Bool × State)
    (st : State) (t : Ty) : Res Bool × State :=
  match st.typesCache.find (typeString U t) with
  | some v => (.ok v, st)
  | none =>
    match t with
    | .named i =>
      let st1 : State :=
        { st with
          typesCache := st.typesCache.store (typeString U t) true
          seenTypes := setInsert st.seenTypes i }
      match recur st1 (U.underlying i) with
      | (.ok v, st2) =>
        (.ok v, { st2 with typesCache := st2.typesCache.store (typeString U t) v })
      | r => r
    | .basic _ => (.ok true, st)
    | .map _ _ => (.ok false, st)
    | .slice _ => (.ok false, st)
    | .pointer _ => (.ok (U.IsImmType t).isSome, st)
    | .struct fs => fieldLoop recur st fs
    | .interface id _ => (.ok true, { st with ifaces := setInsert st.ifaces id })
    | .signature _ _ => (.ok false, st)
    | _ => (.fault (unableToHandle U t), st)

/-- The function `isImmType`, with the depth of the recursion bounded by
`fuel`. -/
def isImmTypeFuel (U : Universe) : Nat → State → Ty → Res Bool × State
  | 0 => fun st _ => (.outOfFuel, st)
  | fuel + 1 => isImmTypeBody U (isImmTypeFuel U fuel)

/-- The depth of struct nesting of a type: the number of nested calls the
field loop of `isImmType` makes below it, the named types left aside. -/
def Ty.depth : Ty → Nat
  | .struct fs => fieldsDepth fs + 1
  | .named _ => 2
  | _ => 1
where
  /-- The largest depth among the fields. -/
  fieldsDepth : List (String × Ty) → Nat
    | [] => 0
    | f :: fs => max (Ty.depth f.2) (fieldsDepth fs)

/-- The largest depth of an underlying type in the declaration table. -/
def Universe.maxDepth (U : Universe) : Nat :=
  (U.decls.map fun d => d.underlying.depth).foldr max 1

/-- The number of declarations whose qualified name has no entry in the cache. -/
def Universe.uncached (U : Universe) (c : Cache) : Nat :=
  (U.decls.filter fun d => (c.find d.qualName).isNone).length

/-- A recursion depth that `isImmType` does not exceed from the state `st`
on the type `t`: every named type it enters gets a cache entry first, and is
not entered again. -/
def fuelFor (U : Universe) (st : State) (t : Ty) : Nat :=
  U.uncached st.typesCache * (U.maxDepth + 2) + t.depth

/-- The function `isImmType`: the verdict and the package-level variables
after the call. -/
def isImmType (U : Universe) (st : State) (t : Ty) : Res Bool × State :=
  isImmTypeFuel U (fuelFor U st t) st t

/-- The shapes `isImmType` has a case for, checked along the types it visits:
a struct is supported when the types of its fields are. -/
def Ty.supported : Ty → Bool
  | .struct fs => fieldsSupported fs
  | .array _ _ => false
  | .chan _ => false
  | .tuple _ => false
  | _ => true
where
  /-- Every field type is supported. -/
  fieldsSupported : List (String × Ty) → Bool
    | [] => true
    | f :: fs => Ty.supported f.2 && fieldsSupported fs

/-- Every underlying type of the declaration table is supported. -/
def Universe.supported (U : Universe) : Bool :=
  U.decls.all fun d => d.underlying.supported

/-! ## Syntax trees (`go/ast`) and type-checker tables (`types.Info`) -/

/-- An `*ast.Ident`: the identity of the object, the name and `NamePos`. -/
structure Ident where
  id : Nat
  name : String
  namePos : Nat
deriving DecidableEq, Repr

/-- The operators of an `*ast.UnaryExpr`. -/
inductive Token where
  | ADD | SUB | NOT | XOR | AND | ARROW
deriving DecidableEq, Repr

/-- The `token.NoPos`. -/
def NoPos : Nat := 0

/-- An `ast.Node`.  The kinds `Visit` has a case for carry what `Visit` reads
of them and their children in the order `ast.Walk` walks them; every other
kind is `other`, with its children in that order.  `id` is the identity of the
node object (the key of `types.Info` maps and of `vcls`), `pos` its `Pos()`.
Identifiers that only name a declaration, the selected identifier of a selector
expression and comments are left out of the children: `Visit` has no case for
them and `ast.Walk` walks nothing below them. -/
inductive Node where
  | file (pos : Nat) (comments : List (List String)) (decls : List Node)
  | genDecl (pos : Nat) (isType : Bool) (specs : List Node)
  | valueSpec (pos : Nat) (type : Option Node) (values : List Node)
  | arrayType (id pos : Nat) (len : Option Node) (elt : Node)
  | mapType (id pos : Nat) (key value : Node)
  | field (pos : Nat) (type : Node)
  | unaryExpr (id pos : Nat) (op : Token) (x : Node)
  | compositeLit (id pos : Nat) (type : Option Node) (elts : List Node)
  | typeSpec (pos : Nat) (name : Ident) (type : Node)
  | selectorExpr (id : Nat) (x : Node) (sel : Ident)
  | rangeStmt (pos : Nat) (key value : Option Node) (x body : Node)
  | callExpr (id : Nat) (fn : Node) (args : List Node) (ellipsis rparen : Nat)
  | ident (i : Ident)
  | other (id pos : Nat) (children : List Node)
deriving Repr

/-- The identity of a node as a key of the `types.Info` maps; statements and
declarations, which are no such key, have the identity 0. -/
def Node.id : Node → Nat
  | .arrayType id _ _ _ => id
  | .mapType id _ _ _ => id
  | .unaryExpr id _ _ _ => id
  | .compositeLit id _ _ _ => id
  | .selectorExpr id _ _ => id
  | .callExpr id _ _ _ _ => id
  | .ident i => i.id
  | .other id _ _ => id
  | _ => 0

/-- The `Pos()` of a node. -/
def Node.pos : Node → Nat
  | .file pos _ _ => pos
  | .genDecl pos _ _ => pos
  | .valueSpec pos _ _ => pos
  | .arrayType _ pos _ _ => pos
  | .mapType _ pos _ _ => pos
  | .field pos _ => pos
  | .unaryExpr _ pos _ _ => pos
  | .compositeLit _ pos _ _ => pos
  | .typeSpec pos _ _ => pos
  | .selectorExpr _ x _ => x.pos
  | .rangeStmt pos _ _ _ _ => pos
  | .callExpr _ fn _ _ _ => fn.pos
  | .ident i => i.namePos
  | .other _ pos _ => pos

/-- The `types.SelectionKind`. -/
inductive SelectionKind where
  | FieldVal | MethodVal | MethodExpr
deriving DecidableEq, Repr

/-- A `*types.Selection`, as far as the program reads it: `Kind()`, `Recv()`
and `Obj().Name()`. -/
structure Selection where
  kind : SelectionKind
  recv : Ty
  objName : String

/-- An entry of `info.Selections`: the key is the selector expression `expr`
(the identity of the `*ast.SelectorExpr`), of which the program reads
`exp.X.Pos()`. -/
structure SelEntry where
  expr : Nat
  xPos : Nat
  sel : Selection

/-- An entry of `info.Types`: the key is the expression `expr`, of which the
program reads `exp.Pos()`; the value is a `types.TypeAndValue`, of which it
reads `IsType()` and `Type`. -/
structure TypesEntry where
  expr : Nat
  pos : Nat
  isType : Bool
  type : Ty

/-- The `types.Info` the type checker fills for one package.  The entries of a
map are listed in the order a `range` over the map meets them. -/
structure Info where
  Types : List TypesEntry
  Selections : List SelEntry
  /-- The type `info.ObjectOf(name).Type()` of a declared type name. -/
  ObjectOf : Ident → Ty
  /-- The position `st.Field(i).Pos()` of the field `i` of the underlying
  struct of the named type `n`. -/
  FieldPos : Nat → Nat → Nat

/-- The lookup `info.Types[typ].Type`; `none` is the nil type of the zero
`TypeAndValue`, which the lookup gives for a nil or an unrecorded
expression. -/
def Info.typeOf (info : Info) : Option Node → Option Ty
  | none => none
  | some e =>
    match info.Types.find? fun en => en.expr = e.id with
    | some en => some en.type
    | none => none

/-- The lookup `info.Selections[node]`. -/
def Info.selection (info : Info) (expr : Nat) : Option Selection :=
  match info.Selections.find? fun en => en.expr = expr with
  | some en => some en.sel
  | none => none

/-- What the vetter of one run is given besides the type universe: the file
set (`fset.Position`), the constant `immutable.CmdImmutableVet`, the answer
of `immutable.IsImmType` for a pointer to the nil type, the recogniser
`immutable.IsImmTmpl` of a type declaration (given by the declared name),
`gogenerate.FileGeneratedBy(fn, immutable.CmdImmutableGen)`, the `String()`
of an interface object, and what `fmt.Sprintf` without operands prints for a
format that begins with the character `%`. -/
structure Env where
  U : Universe
  Position : Nat → Position
  CmdImmutableVet : String
  IsImmTypeNilPointer : Option ImmType
  IsImmTmpl : Ident → Bool
  FileGeneratedBy : String → Bool
  InterfaceString : Nat → String
  FormatVerbs : String → String

/-- The call `fmt.Sprintf(format)` without operands: a format without the
character `%` is printed as it is; of another format the text before the
first `%` is printed as it is, and the rest as `FormatVerbs` says. -/
def Env.Sprintf (E : Env) (format : String) : String :=
  match format.data.dropWhile fun c => c != '%' with
  | [] => format
  | rest =>
    String.mk (format.data.takeWhile fun c => c != '%') ++ E.FormatVerbs (String.mk rest)

/-- The constant `skipFileComment`. -/
def skipFileComment (E : Env) : String :=
  "//" ++ E.CmdImmutableVet ++ ":skipFile"

/-- An `immErr`. -/
structure immErr where
  pos : Position
  msg : String
deriving DecidableEq, Repr

/-- The mutable fields of an `immutableVetter`.  A map is the list of its
entries, one per key, in the order a `range` over it meets them. -/
structure Vetter where
  skipFiles : List String
  immTmpls : List Nat
  rngs : List (Ident × Bool)
  vcls : List Nat
  errlist : List immErr
deriving DecidableEq, Repr

/-- The method `errorf`, with the message `fmt.Sprintf(format, args...)`
already formatted. -/
def Vetter.errorf (E : Env) (iv : Vetter) (pos : Nat) (msg : String) : Vetter :=
  { iv with errlist := iv.errlist ++ [⟨E.Position pos, msg⟩] }

/-- The lookup `iv.rngs[k]`. -/
def rngsFind : List (Ident × Bool) → Ident → Option Bool
  | [], _ => none
  | (k', v) :: m, k => if k' = k then some v else rngsFind m k

/-- The assignment `iv.rngs[k] = v`. -/
def rngsSet : List (Ident × Bool) → Ident → Bool → List (Ident × Bool)
  | [], k, v => [(k, v)]
  | (k', v') :: m, k, v => if k' = k then (k', v) :: m else (k', v') :: rngsSet m k v

/-- The call `immutable.IsImmType(types.NewPointer(t))`, where `t` may be the
nil type. -/
def Env.IsImmTypeOfPointerTo (E : Env) : Option Ty → Option ImmType
  | some t => E.U.IsImmType (.pointer t)
  | none => E.IsImmTypeNilPointer

/-- The `String()` of `types.NewPointer(t)`. -/
def pointerString (U : Universe) : Option Ty → String
  | some t => typeString U (.pointer t)
  | none => "*<nil>"

/-- The method `ensurePointerTyp`. -/
def ensurePointerTyp (E : Env) (info : Info) (iv : Vetter) (n : Node)
    (typ : Option Node) : Vetter :=
  match E.IsImmTypeOfPointerTo (info.typeOf typ) with
  | some .ImmTypeMap => iv.errorf E n.pos ("type should be " ++ pointerString E.U (info.typeOf typ))
  | some .ImmTypeSlice => iv.errorf E n.pos ("type should be " ++ pointerString E.U (info.typeOf typ))
  | some .ImmTypeStruct => iv.errorf E n.pos ("type should be " ++ pointerString E.U (info.typeOf typ))
  | none => iv

/-- The function `isImmListOrMap`. -/
def isImmListOrMap (U : Universe) (t : Ty) : Bool :=
  match U.IsImmType t with
  | some .ImmTypeMap => true
  | some .ImmTypeSlice => true
  | _ => false

/-- The message of the construction rule. -/
def constructMsg : String := "construct using new() or generated constructors"

/-- The message of the once-only iteration rule. -/
def rangeMsg : String :=
  "Range() of immutable type must appear in a range statement or used with an ellipsis as the second argument to append"

/-- The `*ast.File` case of `Visit`: does a comment of the file equal
`skipFileComment`? -/
def hasSkipFileComment (E : Env) (comments : List (List String)) : Bool :=
  comments.any fun cg => cg.any fun c => c = skipFileComment E

/-- The `*ast.UnaryExpr` case of `Visit`. -/
def visitUnaryExpr (E : Env) (info : Info) (iv : Vetter) (node : Node)
    (op : Token) (x : Node) : Vetter :=
  if op ≠ Token.AND then iv
  else
    match x with
    | .compositeLit cl _ clType _ =>
      match E.IsImmTypeOfPointerTo (info.typeOf clType) with
      | some .ImmTypeMap =>
        { iv.errorf E node.pos constructMsg with vcls := setInsert iv.vcls cl }
      | some .ImmTypeSlice =>
        { iv.errorf E node.pos constructMsg with vcls := setInsert iv.vcls cl }
      | some .ImmTypeStruct =>
        { iv.errorf E node.pos constructMsg with vcls := setInsert iv.vcls cl }
      | none => iv
    | _ => iv

/-- The `*ast.SelectorExpr` case of `Visit`. -/
def visitSelectorExpr (E : Env) (info : Info) (iv : Vetter) (id : Nat) (sel : Ident) :
    Vetter :=
  match info.selection id with
  | none => iv
  | some s =>
    if !isImmListOrMap E.U s.recv then iv
    else if sel.name = "Range" then
      match rngsFind iv.rngs sel with
      | none => { iv with rngs := rngsSet iv.rngs sel false }
      | some _ => iv
    else iv

/-- The `*ast.RangeStmt` case of `Visit`; it is the one case that can end in
`fatalf`.  The fault carries the text of the format; the code prints the
selector expression after it. -/
def visitRangeStmt (E : Env) (info : Info) (iv : Vetter) (x : Node) : Res Vetter :=
  match x with
  | .callExpr _ e _ _ _ =>
    match e with
    | .selectorExpr se _ ri =>
      match info.selection se with
      | none => .fault "unable to type selection"
      | some sel =>
        if !isImmListOrMap E.U sel.recv then .ok iv
        else if sel.kind ≠ SelectionKind.MethodVal then .ok iv
        else if ri.name ≠ "Range" then .ok iv
        else .ok { iv with rngs := rngsSet iv.rngs ri true }
    | _ => .ok iv
  | _ => .ok iv

/-- The `*ast.CallExpr` case of `Visit` when `node.Fun` is the identifier
`fn`. -/
def visitCallIdent (E : Env) (info : Info) (iv : Vetter) (fn : Ident)
    (args : List Node) (ellipsis : Nat) : Vetter :=
  if fn.name ≠ "append" then iv
  else if args.length ≠ 2 then iv
  else
    match args.get? 1 with
    | some (.callExpr _ ceFun _ _ ceRparen) =>
      match ceFun with
      | .selectorExpr se _ ri =>
        match info.selection se with
        | none => iv
        | some sel =>
          if !isImmListOrMap E.U sel.recv then iv
          else if ri.name ≠ "Range" then iv
          else if ellipsis = ceRparen + 1 then { iv with rngs := rngsSet iv.rngs ri true }
          else iv
      | _ => iv
    | _ => iv

/-- The `*ast.CallExpr` case of `Visit` when `node.Fun` is the selector
expression `fn` with the selected identifier `funSel`. -/
def visitCallSelector (E : Env) (info : Info) (iv : Vetter) (fn : Nat) (funSel : Ident)
    (args : List Node) (ellipsis : Nat) : Vetter :=
  match info.selection fn with
  | none => iv
  | some sel =>
    if !isImmListOrMap E.U sel.recv then iv
    else if sel.kind ≠ SelectionKind.MethodVal then iv
    else if funSel.name ≠ "Append" then iv
    else if args.length ≠ 1 then iv
    else if ellipsis = NoPos then iv
    else
      match args.get? 0 with
      | some (.callExpr _ aceFun _ _ _) =>
        match aceFun with
        | .selectorExpr se _ ri =>
          match info.selection se with
          | none => iv
          | some sel' =>
            if !isImmListOrMap E.U sel'.recv then iv
            else if sel'.kind ≠ SelectionKind.MethodVal then iv
            else if ri.name = "Range" then { iv with rngs := rngsSet iv.rngs ri true }
            else iv
        | _ => iv
      | _ => iv

/-- The method `Visit`.  It returns the vetter after the visit and whether the
visitor it returns is non-nil (whether `ast.Walk` goes on below the node). -/
def Visit (E : Env) (info : Info) (iv : Vetter) (node : Node) : Res (Vetter × Bool) :=
  match node with
  | .file pos comments _ =>
    if hasSkipFileComment E comments then
      .ok ({ iv with skipFiles := iv.skipFiles ++ [(E.Position pos).filename] }, false)
    else .ok (iv, true)
  | .valueSpec _ type _ => .ok (ensurePointerTyp E info iv node type, true)
  | .arrayType _ _ _ elt => .ok (ensurePointerTyp E info iv node (some elt), true)
  | .mapType _ _ key value =>
    .ok (ensurePointerTyp E info (ensurePointerTyp E info iv node (some key)) node (some value),
      true)
  | .field _ type => .ok (ensurePointerTyp E info iv node (some type), true)
  | .unaryExpr _ _ op x => .ok (visitUnaryExpr E info iv node op x, true)
  | .compositeLit id _ type _ =>
    if id ∈ iv.vcls then .ok (iv, true)
    else .ok (ensurePointerTyp E info iv node type, true)
  | .typeSpec _ _ type => .ok (ensurePointerTyp E info iv node (some type), true)
  | .selectorExpr id _ sel => .ok (visitSelectorExpr E info iv id sel, true)
  | .rangeStmt _ _ _ x _ =>
    match visitRangeStmt E info iv x with
    | .ok iv' => .ok (iv', true)
    | .fault m => .fault m
    | .outOfFuel => .outOfFuel
  | .callExpr _ fn args ellipsis _ =>
    match fn with
    | .ident f => .ok (visitCallIdent E info iv f args ellipsis, true)
    | .selectorExpr f _ funSel => .ok (visitCallSelector E info iv f funSel args ellipsis, true)
    | _ => .ok (iv, true)
  | _ => .ok (iv, true)

/-- Sequencing of calls that can fault. -/
def Res.bind {α β : Type} : Res α → (α → Res β) → Res β
  | .ok a, f => f a
  | .fault m, _ => .fault m
  | .outOfFuel, _ => .outOfFuel

mutual
/-- The function `ast.Walk(iv, node)`: the visit of the node, then, when the
visit returned a visitor, the walk of the children in order. -/
def Walk (E : Env) (info : Info) (iv : Vetter) (node : Node) : Res Vetter :=
  match Visit E info iv node with
  | .fault m => .fault m
  | .outOfFuel => .outOfFuel
  | .ok (iv', false) => .ok iv'
  | .ok (iv', true) =>
    match node with
    | .file _ _ decls => WalkList E info iv' decls
    | .genDecl _ _ specs => WalkList E info iv' specs
    | .valueSpec _ type values =>
      (WalkOpt E info iv' type).bind fun iv₁ => WalkList E info iv₁ values
    | .arrayType _ _ len elt =>
      (WalkOpt E info iv' len).bind fun iv₁ => Walk E info iv₁ elt
    | .mapType _ _ key value =>
      (Walk E info iv' key).bind fun iv₁ => Walk E info iv₁ value
    | .field _ type => Walk E info iv' type
    | .unaryExpr _ _ _ x => Walk E info iv' x
    | .compositeLit _ _ type elts =>
      (WalkOpt E info iv' type).bind fun iv₁ => WalkList E info iv₁ elts
    | .typeSpec _ _ type => Walk E info iv' type
    | .selectorExpr _ x _ => Walk E info iv' x
    | .rangeStmt _ key value x body =>
      (WalkOpt E info iv' key).bind fun iv₁ =>
        (WalkOpt E info iv₁ value).bind fun iv₂ =>
          (Walk E info iv₂ x).bind fun iv₃ => Walk E info iv₃ body
    | .callExpr _ fn args _ _ =>
      (Walk E info iv' fn).bind fun iv₁ => WalkList E info iv₁ args
    | .ident _ => .ok iv'
    | .other _ _ children => WalkList E info iv' children
/-- The walk of a child that may be nil. -/
def WalkOpt (E : Env) (info : Info) (iv : Vetter) : Option Node → Res Vetter
  | none => .ok iv
  | some n => Walk E info iv n
/-- The walk of a list of children. -/
def WalkList (E : Env) (info : Info) (iv : Vetter) : List Node → Res Vetter
  | [] => .ok iv
  | n :: ns => (Walk E info iv n).bind fun iv' => WalkList E info iv' ns
end

/-! ## The driver `vetPackages` -/

/-- One entry of `iv.pkgs`: the files of the package in the order `ast.Walk`
meets them, and what `conf.Check` returned (`none` when it returned an
error). -/
structure Package where
  files : List Node
  check : Option Info

/-- The loop over the fields of a template struct in `vetPackages`: a
violation for every field whose type `isImmType` does not classify as
immutable.  `i` is the index of the first field of `fs` in the struct.  The
message is formatted with the type and then handed to `errorf` as a format,
which formats it once more, without operands. -/
def checkTemplateFields (E : Env) (info : Info) (n : Nat) :
    Nat → List (String × Ty) → State × Vetter → Res (State × Vetter)
  | _, [], s => .ok s
  | i, f :: fs, (st, iv) =>
    match isImmType E.U st f.2 with
    | (.ok true, st') => checkTemplateFields E info n (i + 1) fs (st', iv)
    | (.ok false, st') =>
      checkTemplateFields E info n (i + 1) fs
        (st', iv.errorf E (info.FieldPos n i)
          (E.Sprintf
            ("immutable struct field must be immutable type; " ++ typeString E.U f.2
              ++ " is not")))
    | (.fault m, _) => .fault m
    | (.outOfFuel, _) => .outOfFuel

/-- The body of the loop over `gd.Specs` in `vetPackages`. -/
def registerSpec (E : Env) (info : Info) (s : State × Vetter) (spec : Node) :
    Res (State × Vetter) :=
  match spec with
  | .typeSpec _ name _ =>
    if !E.IsImmTmpl name then .ok s
    else
      match info.ObjectOf name with
      | .named n =>
        let iv : Vetter := { s.2 with immTmpls := setInsert s.2.immTmpls n }
        match E.U.underlying n with
        | .struct fs => checkTemplateFields E info n 0 fs (s.1, iv)
        | _ => .ok (s.1, iv)
      | _ => .fault "interface conversion: types.Type is not *types.Named"
  | _ => .fault "interface conversion: ast.Spec is not *ast.TypeSpec"

/-- A loop whose body can fault. -/
def forM {σ α : Type} (body : σ → α → Res σ) : σ → List α → Res σ
  | s, [] => .ok s
  | s, a :: as => (body s a).bind fun s' => forM body s' as

/-- The body of the loop over `f.Decls` in `vetPackages`. -/
def registerDecl (E : Env) (info : Info) (s : State × Vetter) (d : Node) :
    Res (State × Vetter) :=
  match d with
  | .genDecl _ true specs => forM (registerSpec E info) s specs
  | _ => .ok s

/-- The body of the loop over `pkg.Files` that fills `iv.immTmpls`. -/
def registerFile (E : Env) (info : Info) (s : State × Vetter) (f : Node) :
    Res (State × Vetter) :=
  match f with
  | .file _ _ decls => forM (registerDecl E info) s decls
  | _ => .ok s

/-- The method `isImmTmpl`: the keys of `iv.immTmpls` are named types. -/
def Vetter.isImmTmpl (iv : Vetter) : Ty → Bool
  | .pointer e => Vetter.isImmTmpl iv e
  | .named n => decide (n ∈ iv.immTmpls)
  | _ => false

/-- The body of the loop over `info.Types` in `vetPackages`. -/
def checkTemplateUse (E : Env) (iv : Vetter) (en : TypesEntry) : Vetter :=
  if !en.isType then iv
  else if !iv.isImmTmpl en.type then iv
  else if !E.FileGeneratedBy (E.Position en.pos).filename then
    iv.errorf E en.pos ("template type " ++ typeString E.U en.type ++ " should never get used")
  else iv

/-- The body of the loop over `info.Selections` in `vetPackages`. -/
def checkFieldAccess (E : Env) (iv : Vetter) (en : SelEntry) : Vetter :=
  if en.sel.kind ≠ SelectionKind.FieldVal then iv
  else if (E.U.IsImmType en.sel.recv).isNone then iv
  else if (E.Position en.xPos).filename ∈ iv.skipFiles then iv
  else
    iv.errorf E en.xPos
      ("should not be using " ++ en.sel.objName ++ " of " ++ typeString E.U en.sel.recv
        ++ " immutable type")

/-- The body of the loop over `iv.rngs` in `vetPackages`. -/
def checkRange (E : Env) (iv : Vetter) (kv : Ident × Bool) : Vetter :=
  if kv.2 = false then iv.errorf E kv.1.namePos rangeMsg else iv

/-- The body of the loop over `iv.pkgs` in `vetPackages`. -/
def vetPackage (E : Env) (s : State × Vetter) (pkg : Package) : Res (State × Vetter) :=
  match pkg.check with
  | none => .fault "type checking failed"
  | some info =>
    let iv₀ : Vetter := { s.2 with rngs := [], immTmpls := [] }
    (forM (registerFile E info) (s.1, iv₀) pkg.files).bind fun s₁ =>
      (WalkList E info s₁.2 pkg.files).bind fun iv₁ =>
        let iv₂ := info.Types.foldl (checkTemplateUse E) iv₁
        let iv₃ := info.Selections.foldl (checkFieldAccess E) iv₂
        .ok (s₁.1, iv₃.rngs.foldl (checkRange E) iv₃)

/-- The vetter `newImmutableVetter` returns. -/
def newImmutableVetter : Vetter := ⟨[], [], [], [], []⟩

/-- The method `vetPackages` on a new vetter: the package-level variables and
`iv.errlist` after the loop over `iv.pkgs`. -/
def vetPackages (E : Env) (st : State) (pkgs : List Package) : Res (State × List immErr) :=
  (forM (vetPackage E) (st, newImmutableVetter) pkgs).bind fun s => .ok (s.1, s.2.errlist)

/-! ## The cross-package interface check of `vet` -/

/-- The message of the cross-package check for the type printed `n`. -/
def implementsMsg (E : Env) (n : String) (i : Nat) : String :=
  "type " ++ n ++ " which implements " ++ E.InterfaceString i ++ " is not immutable"

/-- The body of the inner loop of the cross-package check in `vet`, for the
interface `i` and the named type `n`. -/
def crossCheckPair (E : Env) (i : Nat) (s : State × List immErr) (n : Nat) :
    Res (State × List immErr) :=
  if E.U.Implements (.named n) i then
    match isImmType E.U s.1 (.named n) with
    | (.ok false, st') =>
      .ok (st', s.2 ++ [⟨E.U.declPos n, implementsMsg E (typeString E.U (.named n)) i⟩])
    | (.ok true, st') => crossCheckPointer st'
    | (.fault m, _) => .fault m
    | (.outOfFuel, _) => .outOfFuel
  else crossCheckPointer s.1
where
  /-- The second test of the loop body, on the pointer form. -/
  crossCheckPointer (st : State) : Res (State × List immErr) :=
    if E.U.Implements (.pointer (.named n)) i then
      match isImmType E.U st (.pointer (.named n)) with
      | (.ok false, st') =>
        .ok (st', s.2 ++ [⟨E.U.declPos n,
          implementsMsg E (typeString E.U (.pointer (.named n))) i⟩])
      | (.ok true, st') => .ok (st', s.2)
      | (.fault m, _) => .fault m
      | (.outOfFuel, _) => .outOfFuel
    else .ok (st, s.2)

/-- The cross-package check of `vet`: the loop over `ifaces` and, inside,
over `seenTypes`, which appends to `emsgs`.  The loops go over the entries
the maps have when the check starts. -/
def crossCheck (E : Env) (st : State) (emsgs : List immErr) : Res (State × List immErr) :=
  forM (fun s i => forM (crossCheckPair E i) s st.seenTypes) (st, emsgs) st.ifaces

/-! ## The report of `vet`: relative file names, sorted by position -/

/-- The code points of a string.  The builtin `<` of Go compares two strings
byte by byte; on UTF-8 that is the order of their code points. -/
def codePoints (s : String) : List Nat := s.data.map Char.toNat

/-- The builtin comparison `a < b` of two strings, on their code points. -/
def stringLess : List Nat → List Nat → Bool
  | _, [] => false
  | [], _ :: _ => true
  | a :: as, b :: bs => decide (a < b) || (decide (a = b) && stringLess as bs)

/-- The function `strings.Compare`. -/
def stringsCompare (a b : String) : Int :=
  if a = b then 0
  else if stringLess (codePoints a) (codePoints b) then -1
  else 1

/-- The type `errors`. -/
abbrev errors := List immErr

/-- The method `Less` of `errors`, on the records `e[i]` and `e[j]`. -/
def errors.Less (ei ej : immErr) : Bool :=
  let l := ei.pos
  let r := ej.pos
  if stringsCompare l.filename r.filename ≠ 0 then
    decide (stringsCompare l.filename r.filename < 0)
  else if l.line ≠ r.line then decide (l.line < r.line)
  else decide (l.column < r.column)

/-- The method `String` of `immErr`: the line `main` prints for a record. -/
def immErr.String (r : immErr) : String :=
  r.pos.filename ++ ":" ++ toString r.pos.line ++ ":" ++ toString r.pos.column ++ ": " ++ r.msg

/-- The inner loop of the insertion sort of `sort.Sort`: the record `x` moves
left while `Less` puts it before its left neighbour.  `before` holds the
records to its left, the nearest first. -/
def moveLeft (x : immErr) : List immErr → List immErr
  | [] => [x]
  | y :: before => if errors.Less x y then y :: moveLeft x before else x :: y :: before

/-- The call `sort.Sort(errors(emsgs))` as the insertion sort that `sort.Sort`
is on a slice of fewer than seven records.  On a longer slice `sort.Sort` adds
a pass of shell sort or is a quicksort that ends in insertion sorts; it
promises a permutation in which `Less` puts no record before an earlier one,
and no stability. -/
def sortErrors (e : errors) : errors :=
  (e.foldl (fun before x => moveLeft x before) []).reverse

/-- What `build.Import` and `newImmutableVetter` give for one package spec:
an import error, a parse error of `parser.ParseDir`, or the parsed packages of
the directory. -/
inductive Spec where
  | importError
  | parseError
  | parsed (pkgs : List Package)

/-- The body of the loop over `specs` in `vet`. -/
def vetSpec (E : Env) (s : State × List immErr) (spec : Spec) : Res (State × List immErr) :=
  match spec with
  | .importError => .fault "unable to import"
  | .parseError => .fault "could not parse package directory"
  | .parsed pkgs => (vetPackages E s.1 pkgs).bind fun r => .ok (r.1, s.2 ++ r.2)

/-- The body of the loop of `vet` that makes the file names relative; `Rel`
is `filepath.Rel(wd, ·)`, `none` when it returns an error. -/
def relativize (Rel : String → Option String) (es : List immErr) (e : immErr) :
    Res (List immErr) :=
  match Rel e.pos.filename with
  | some rel => .ok (es ++ [{ e with pos := { e.pos with filename := rel } }])
  | none => .fault "relative path error"

/-- The function `vet`. -/
def vet (E : Env) (Rel : String → Option String) (specs : List Spec) : Res (List immErr) :=
  (forM (vetSpec E) (State.init, []) specs).bind fun s =>
    (crossCheck E s.1 s.2).bind fun r =>
      (forM (relativize Rel) [] r.2).bind fun es => .ok (sortErrors es)

/-! ## Auxiliary definitions for the statements -/

/-- One cache extends another when it keeps every entry of it. -/
def Cache.Extends (c c' : Cache) : Prop :=
  ∀ k v, c.find k = some v → c'.find k = some v

/-- The state in which `isImmType` classifies the underlying type of the named
type `i`: the entry of `i` is tentatively `true` and `i` is in `seenTypes`. -/
def State.pending (U : Universe) (st : State) (i : Nat) : State :=
  { st with
    typesCache := st.typesCache.store (U.qualName i) true
    seenTypes := setInsert st.seenTypes i }

/-- The state after the entry of the named type `i` is corrected to `v`. -/
def State.resolve (U : Universe) (st : State) (i : Nat) (v : Bool) : State :=
  { st with typesCache := st.typesCache.store (U.qualName i) v }

/-- What `isImmType` returns for a named type, from what the call on its
underlying type returned. -/
def namedResult (U : Universe) (i : Nat) (r : Res Bool × State) : Res Bool × State :=
  match r.1 with
  | .ok v => (.ok v, r.2.resolve U i v)
  | _ => r

/-- The types `isImmType` answers for without a recursive call. -/
def Ty.isLeaf : Ty → Bool
  | .named _ => false
  | .struct _ => false
  | _ => true

/-- The answer of `isImmType` for a leaf type that has no cache entry. -/
def leafAnswer (U : Universe) (st : State) : Ty → Res Bool × State
  | .basic _ => (.ok true, st)
  | .map _ _ => (.ok false, st)
  | .slice _ => (.ok false, st)
  | .pointer e => (.ok (U.IsImmType (.pointer e)).isSome, st)
  | .interface id _ => (.ok true, { st with ifaces := setInsert st.ifaces id })
  | .signature _ _ => (.ok false, st)
  | t => (.fault (unableToHandle U t), st)

/-- A call ended by returning a value. -/
def Res.isOk {α : Type} : Res α → Bool
  | .ok _ => true
  | _ => false

/-- The values assigned to the key `k` in a list of assignments, the latest
first.  `Cache.store` puts an assignment at the head of the cache, so the
entries a call added in front of the cache it started from are the assignments
it made, in reverse order. -/
def Cache.writesTo (w : Cache) (k : String) : List Bool :=
  (w.filter fun e => e.1 = k).map Prod.snd

/-- The cache `c'` is `c` after assignments that follow the two-phase
discipline: every assigned key is the qualified name of a named type and had no
entry in `c`; it was assigned `true` first and then at most once more.  With
`strict`, every assigned key got its second assignment. -/
def Cache.Logged (U : Universe) (strict : Bool) (c c' : Cache) : Prop :=
  ∃ w : Cache, c' = w ++ c ∧
    ∀ k, w.writesTo k = [] ∨
      (c.find k = none ∧ (∃ i, k = U.qualName i) ∧
        ((strict = false ∧ w.writesTo k = [true]) ∨ ∃ v, w.writesTo k = [v, true]))

/-- The characters that occur in the `String()` of every composite type and
in no qualified type name. -/
def isCompositeChar (c : Char) : Bool :=
  c = '*' || c = '[' || c = '{' || c = '(' || c = ' '

/-- A string without a character of composite types. -/
def plainName (s : String) : Bool :=
  s.data.all fun c => !isCompositeChar c

/-- A string that can be the qualified name of a named type: it has no
character of composite types and it is not the name of a basic type. -/
def goodName (s : String) : Bool :=
  plainName s && BasicKind.all.all fun b => b.name != s

/-- Every declaration has a name that can be a qualified type name, so no
type other than a named type prints as one of them. -/
def Universe.goodNames (U : Universe) : Bool :=
  U.decls.all fun d => goodName d.qualName

/-- The state `s'` keeps every cache entry and every tracked interface of `s`. -/
def State.Le (s s' : State) : Prop :=
  Cache.Extends s.typesCache s'.typesCache ∧ s.ifaces ⊆ s'.ifaces

/-- The caches of `s` and `s'` agree on every key that is not the qualified
name of a named type. -/
def State.AgreeOff (U : Universe) (s s' : State) : Prop :=
  ∀ k, (∀ i, k ≠ U.qualName i) → s'.typesCache.find k = s.typesCache.find k

/-- The field loop of `isImmType` without the package-level variables: the
first result that is not `true`, or `true`. -/
def fieldVerdict (classify : Ty → Res Bool) : List (String × Ty) → Res Bool
  | [] => .ok true
  | f :: fs =>
    match classify f.2 with
    | .ok true => fieldVerdict classify fs
    | r => r

/-- The verdict of a type by structure alone: `isImmType` with no cache but
the pre-seeded one, which it never assigns to.  The depth of the recursion is
bounded by the first argument. -/
def pureVerdict (U : Universe) : Nat → Ty → Res Bool
  | 0 => fun _ => .outOfFuel
  | n + 1 => fun t =>
    match typesCache.find (typeString U t) with
    | some v => .ok v
    | none =>
      match t with
      | .named i => pureVerdict U n (U.underlying i)
      | .struct fs => fieldVerdict (pureVerdict U n) fs
      | t => (leafAnswer U State.init t).1

/-- The type `t` has the structural verdict `o`. -/
def PureV (U : Universe) (t : Ty) (o : Res Bool) : Prop :=
  ∃ n, pureVerdict U n t = o ∧ o ≠ .outOfFuel

/-- The fields `fs` have the structural verdict `o`. -/
def PureFields (U : Universe) (fs : List (String × Ty)) (o : Res Bool) : Prop :=
  ∃ n, fieldVerdict (pureVerdict U n) fs = o ∧ o ≠ .outOfFuel

/-- The rank of a type, given the ranks of the named types: what `isImmType`
reaches from the type without passing through a pointer, a container, an
interface or a function type has a rank that is not larger. -/
def Ty.rank (rk : Nat → Nat) : Ty → Nat
  | .named i => rk i + 1
  | .struct fs => fieldsRank fs
  | _ => 0
where
  /-- The largest rank among the fields. -/
  fieldsRank : List (String × Ty) → Nat
    | [] => 0
    | f :: fs => max (Ty.rank rk f.2) (fieldsRank fs)

/-- No named type contains itself by value: the ranks `rk` decrease from every
named type to the named types its underlying type holds by value.  The Go type
checker rejects a declaration table without such ranks (invalid recursive
type). -/
def Universe.acyclic (U : Universe) (rk : Nat → Nat) : Bool :=
  (List.range U.decls.length).all fun i => decide ((U.underlying i).rank rk ≤ rk i)

/-- No two declarations print the same qualified name, and none prints the
empty string. -/
def Universe.distinctNames (U : Universe) : Bool :=
  decide ((U.decls.map Decl.qualName).Nodup) && decide ("" ∉ U.decls.map Decl.qualName)

/-- The states of the package-level variables that a run can be in between two
calls of `isImmType`: the state at program start, and the state a call that
returned a verdict left. -/
inductive Reachable (U : Universe) : State → Prop where
  | init : Reachable U State.init
  | call (st : State) (t : Ty) (b : Bool) (st' : State) :
      Reachable U st → isImmType U st t = (.ok b, st') → Reachable U st'

/-- Every entry of the cache for a key outside `P` is the structural verdict of
every type that prints as the key. -/
def Cache.SoundOff (U : Universe) (P : String → Prop) (c : Cache) : Prop :=
  ∀ t v, ¬ P (typeString U t) → c.find (typeString U t) = some v → PureV U t (.ok v)

/-- The invariant of the cache between and during calls: it keeps the
pre-seeded entries, and its entries for keys outside `P` (the keys of the named
types that are pending) are structural verdicts. -/
def State.Inv (U : Universe) (P : String → Prop) (st : State) : Prop :=
  Cache.Extends ImmutableVet.typesCache st.typesCache ∧ Cache.SoundOff U P st.typesCache

/-- A file node whose comments hold the skip-file comment: the one kind of
node below which `ast.Walk` does not go. -/
def Node.isSkipFile (E : Env) : Node → Bool
  | .file _ comments _ => hasSkipFileComment E comments
  | _ => false

mutual
/-- The nodes `ast.Walk` visits from a node, in the order of the visits. -/
def Node.preorder (E : Env) : Node → List Node
  | .file pos comments decls =>
    if hasSkipFileComment E comments then [.file pos comments decls]
    else .file pos comments decls :: preorderList E decls
  | .genDecl pos isType specs => .genDecl pos isType specs :: preorderList E specs
  | .valueSpec pos type values =>
    .valueSpec pos type values :: (preorderOpt E type ++ preorderList E values)
  | .arrayType id pos len elt =>
    .arrayType id pos len elt :: (preorderOpt E len ++ Node.preorder E elt)
  | .mapType id pos key value =>
    .mapType id pos key value :: (Node.preorder E key ++ Node.preorder E value)
  | .field pos type => .field pos type :: Node.preorder E type
  | .unaryExpr id pos op x => .unaryExpr id pos op x :: Node.preorder E x
  | .compositeLit id pos type elts =>
    .compositeLit id pos type elts :: (preorderOpt E type ++ preorderList E elts)
  | .typeSpec pos name type => .typeSpec pos name type :: Node.preorder E type
  | .selectorExpr id x sel => .selectorExpr id x sel :: Node.preorder E x
  | .rangeStmt pos key value x body =>
    .rangeStmt pos key value x body ::
      (preorderOpt E key ++ (preorderOpt E value ++ (Node.preorder E x ++ Node.preorder E body)))
  | .callExpr id fn args ellipsis rparen =>
    .callExpr id fn args ellipsis rparen :: (Node.preorder E fn ++ preorderList E args)
  | .ident i => [.ident i]
  | .other id pos children => .other id pos children :: preorderList E children
/-- The nodes visited from a child that may be nil. -/
def preorderOpt (E : Env) : Option Node → List Node
  | none => []
  | some n => Node.preorder E n
/-- The nodes visited from a list of children. -/
def preorderList (E : Env) : List Node → List Node
  | [] => []
  | n :: ns => Node.preorder E n ++ preorderList E ns
end

/-- The visit of a node for its effect on the vetter alone. -/
def visitNode (E : Env) (info : Info) (iv : Vetter) (n : Node) : Res Vetter :=
  (Visit E info iv n).bind fun r => .ok r.1

/-- The visits of a list of nodes, one after the other. -/
def visitAll (E : Env) (info : Info) (iv : Vetter) (ns : List Node) : Res Vetter :=
  forM (visitNode E info) iv ns

/-- The message of the field-access rule for a selection. -/
def fieldAccessMsg (E : Env) (en : SelEntry) : String :=
  "should not be using " ++ en.sel.objName ++ " of " ++ typeString E.U en.sel.recv
    ++ " immutable type"

/-- The field-access rule for one selection, in the words of the rule: a
selection of a data field off a receiver whose type is an immutable template is
a violation, at the position of the receiver expression, unless the file of
that position is in the set of skipped files. -/
def fieldAccessViolation (E : Env) (skipFiles : List String) (en : SelEntry) :
    Option immErr :=
  if en.sel.kind = SelectionKind.FieldVal ∧ (E.U.IsImmType en.sel.recv).isSome = true ∧
      (E.Position en.xPos).filename ∉ skipFiles then
    some ⟨E.Position en.xPos, fieldAccessMsg E en⟩
  else none

/-- The violations of the once-only iteration rule: one for every entry of
`rngs` that is still `false`, at the position of the identifier. -/
def rangeViolations (E : Env) (rngs : List (Ident × Bool)) : List immErr :=
  (rngs.filter fun kv => kv.2 = false).map fun kv => ⟨E.Position kv.1.namePos, rangeMsg⟩

/-- The identifier a visit of the node records in `rngs`: the selected
identifier of a selection named `Range` on an immutable template list or
map. -/
def Node.records (E : Env) (info : Info) : Node → Option Ident
  | .selectorExpr id _ sel =>
    match info.selection id with
    | some s => if isImmListOrMap E.U s.recv = true ∧ sel.name = "Range" then some sel else none
    | none => none
  | _ => none

/-- The `Range` identifier of which the node is the call: the node is a call
whose function is a selection named `Range` on an immutable template list or
map; with `methodOnly`, the selection has to be a method value. -/
def rangeCallOf (E : Env) (info : Info) (methodOnly : Bool) : Node → Option Ident
  | .callExpr _ (.selectorExpr se _ ri) _ _ _ =>
    match info.selection se with
    | some sel =>
      if isImmListOrMap E.U sel.recv = true ∧
          (methodOnly = true → sel.kind = SelectionKind.MethodVal) ∧ ri.name = "Range" then
        some ri
      else none
    | none => none
  | _ => none

/-- The node is a call of a method value named `Append` on an immutable
template list or map, with one argument, which is spread. -/
def isSpreadAppendMethodCall (E : Env) (info : Info) (fn : Nat) (funSel : Ident)
    (args : List Node) (ellipsis : Nat) : Bool :=
  match info.selection fn with
  | some sel =>
    isImmListOrMap E.U sel.recv && decide (sel.kind = SelectionKind.MethodVal) &&
      decide (funSel.name = "Append") && decide (args.length = 1) && decide (ellipsis ≠ NoPos)
  | none => false

/-- The `Range` identifier the node consumes, in the words of the three
consumption patterns, for either reading of "its call": (a) the call is the
iterated subject of a range statement, (b) the call, spread, is the second of
two arguments to `append`, (c) the call, spread, is the sole argument to an
`Append` method on an immutable list or map.  With `methodOnly`, the call in
(a) and (c) has to be the call of a method value, as `Visit` requires. -/
def Node.consumesWith (E : Env) (info : Info) (methodOnly : Bool) : Node → Option Ident
  | .rangeStmt _ _ _ x _ => rangeCallOf E info methodOnly x
  | .callExpr _ (.ident f) args ellipsis _ =>
    if f.name = "append" ∧ args.length = 2 ∧ ellipsis ≠ NoPos then
      match args.get? 1 with
      | some a => rangeCallOf E info false a
      | none => none
    else none
  | .callExpr _ (.selectorExpr fn _ funSel) args ellipsis _ =>
    if isSpreadAppendMethodCall E info fn funSel args ellipsis = true then
      match args.get? 0 with
      | some a => rangeCallOf E info methodOnly a
      | none => none
    else none
  | _ => none

/-- The `Range` identifier the node consumes, as the claim states the
patterns. -/
def Node.consumesAsStated (E : Env) (info : Info) (n : Node) : Option Ident :=
  n.consumesWith E info false

/-- The `Range` identifier the node consumes, when in (a) and (c) the call has
to be the call of a method value. -/
def Node.consumes (E : Env) (info : Info) (n : Node) : Option Ident :=
  n.consumesWith E info true

/-- In a call of `append` with a call as second argument, the ellipsis, when
there is one, stands right after that argument. -/
def Node.spreadAdjacent : Node → Bool
  | .callExpr _ (.ident _) args ellipsis _ =>
    match args.get? 1 with
    | some (.callExpr _ _ _ _ rparen) => decide (ellipsis = NoPos ∨ ellipsis = rparen + 1)
    | _ => true
  | _ => true

/-- The effect of the visit of a node on `rngs`. -/
def rngsStep (E : Env) (info : Info) (m : List (Ident × Bool)) (n : Node) :
    List (Ident × Bool) :=
  match n.consumes E info with
  | some k => rngsSet m k true
  | none =>
    match n.records E info with
    | some k =>
      match rngsFind m k with
      | none => rngsSet m k false
      | some _ => m
    | none => m

/-- The violation of the once-only iteration rule at an identifier. -/
def rangeViolation (E : Env) (k : Ident) : immErr := ⟨E.Position k.namePos, rangeMsg⟩

/-- Every named type in `seenTypes` has an entry in `typesCache`. -/
def State.SeenCached (U : Universe) (st : State) : Prop :=
  ∀ n, n ∈ st.seenTypes → ∃ v, st.typesCache.find (U.qualName n) = some v

/-- The violation of the cross-package check for the tracked interface `i` and
the seen named type `n`, in the words of the check: a violation at the
declaration of `n` when `n` satisfies `i` and `isImmType(n)` is false, or else
when `*n` satisfies `i` and `isImmType(*n)` is false. -/
def crossViolation (E : Env) (st : State) (i n : Nat) : Option immErr :=
  if E.U.Implements (.named n) i = true ∧ (isImmType E.U st (.named n)).1 = .ok false then
    some ⟨E.U.declPos n, implementsMsg E (typeString E.U (.named n)) i⟩
  else if E.U.Implements (.pointer (.named n)) i = true ∧
      (isImmType E.U st (.pointer (.named n))).1 = .ok false then
    some ⟨E.U.declPos n, implementsMsg E (typeString E.U (.pointer (.named n))) i⟩
  else none

/-- The violations of the cross-package check for the interfaces `is`, each
against every seen named type. -/
def crossViolations (E : Env) (st : State) : List Nat → List immErr
  | [] => []
  | i :: is => st.seenTypes.filterMap (crossViolation E st i) ++ crossViolations E st is

/-- The violation of the construction rule at a node: the node is an
address-of expression whose operand is a composite literal with a type whose
pointer form is an immutable template. -/
def constructViolation (E : Env) (info : Info) : Node → Option immErr
  | .unaryExpr _ pos op (.compositeLit _ _ clType _) =>
    if op = Token.AND ∧ (E.IsImmTypeOfPointerTo (info.typeOf clType)).isSome = true then
      some ⟨E.Position pos, constructMsg⟩
    else none
  | _ => none

/-- The violations of the construction rule in a list of violations. -/
def constructViolationsOf (es : List immErr) : List immErr :=
  es.filter fun e => e.msg = constructMsg

/-- The lexicographic order on file name, line and column, the file names
compared as strings: `p` stands before `q`. -/
def Position.lexLt (p q : Position) : Prop :=
  p.filename < q.filename ∨
    (p.filename = q.filename ∧ (p.line < q.line ∨ (p.line = q.line ∧ p.column < q.column)))

/-- What `sort.Sort` promises of its result `out` on the input `inp`: a
permutation of the input in which `Less` puts no record before an earlier
one. -/
def errors.SortOf (inp out : errors) : Prop :=
  out.Perm inp ∧ out.Pairwise fun a b => errors.Less b a = false

/-- The records of the list that share a position are the same record. -/
def errors.distinctPositions (e : errors) : Bool :=
  e.all fun a => e.all fun b => decide (a.pos = b.pos → a = b)

/-- The shapes `isImmType` has no case for: a type that is none of named,
basic, map, slice, pointer, struct, interface and signature. -/
def Ty.unsupportedShape : Ty → Bool
  | .named _ => false
  | .basic _ => false
  | .map _ _ => false
  | .slice _ => false
  | .pointer _ => false
  | .struct _ => false
  | .interface _ _ => false
  | .signature _ _ => false
  | _ => true

/-- The type expressions of a node that declares or constrains a type, in the
order `Visit` checks them: the type of a variable declaration, the element of
an array or slice type, the key and the value of a map type, the type of a
field, and the type that a type declaration gives its name.  Every other node
has none. -/
def Node.typePositions : Node → List (Option Node)
  | .valueSpec _ type _ => [type]
  | .arrayType _ _ _ elt => [some elt]
  | .mapType _ _ key value => [some key, some value]
  | .field _ type => [some type]
  | .typeSpec _ _ type => [some type]
  | _ => []

/-- The violation of the pointer-form rule for the type expression `typ` of
the node `n`: there is one when `immutable.IsImmType` accepts the pointer to
the type of the expression. -/
def pointerFormViolation (E : Env) (info : Info) (n : Node) (typ : Option Node) :
    Option immErr :=
  if (E.IsImmTypeOfPointerTo (info.typeOf typ)).isSome then
    some ⟨E.Position n.pos, "type should be " ++ pointerString E.U (info.typeOf typ)⟩
  else none

/-- The type below every pointer layer. -/
def Ty.stripPointers : Ty → Ty
  | .pointer e => Ty.stripPointers e
  | t => t

/-- A type is a tracked template of the package when, below its pointer
layers, it is a named type of the set `immTmpls`. -/
def isTrackedTemplate (immTmpls : List Nat) (t : Ty) : Bool :=
  match t.stripPointers with
  | .named n => decide (n ∈ immTmpls)
  | _ => false

/-- The violation of the template-leakage rule for an entry of `info.Types`:
there is one when the expression denotes a type, the type is a tracked
template and the file of the expression is not generated. -/
def templateUseViolation (E : Env) (immTmpls : List Nat) (en : TypesEntry) : Option immErr :=
  if en.isType = true ∧ isTrackedTemplate immTmpls en.type = true ∧
      E.FileGeneratedBy (E.Position en.pos).filename = false then
    some ⟨E.Position en.pos,
      "template type " ++ typeString E.U en.type ++ " should never get used"⟩
  else none

/-- The message of the template registry for a field of the type `t`: the
text "immutable struct field must be immutable type; T is not", formatted once
more without operands. -/
def templateFieldMsg (E : Env) (t : Ty) : String :=
  E.Sprintf
    ("immutable struct field must be immutable type; " ++ typeString E.U t ++ " is not")

/-- The violations of the template registry for the fields `fs` of the
underlying struct of the named type `n`, of which the first has the index `i`:
one for every field, in order, whose type `isImmType` classifies as not
immutable, at the position of the field; the fields are classified one after
the other, the first from the package-level variables `st`. -/
def templateViolations (E : Env) (info : Info) (n : Nat) :
    Nat → List (String × Ty) → State → List immErr
  | _, [], _ => []
  | i, f :: fs, st =>
    (if (isImmType E.U st f.2).1 = .ok false then
      [⟨E.Position (info.FieldPos n i), templateFieldMsg E f.2⟩]
    else [])
      ++ templateViolations E info n (i + 1) fs (isImmType E.U st f.2).2

/-- The specs of the type declarations among the top-level declarations
`f.Decls` of a file. -/
def topLevelTypeSpecs : List Node → List Node
  | [] => []
  | .genDecl _ true specs :: ds => specs ++ topLevelTypeSpecs ds
  | _ :: ds => topLevelTypeSpecs ds

/-- The specs of the top-level type declarations of a file. -/
def Node.typeSpecs : Node → List Node
  | .file _ _ decls => topLevelTypeSpecs decls
  | _ => []

/-- The vetter `iv'` is `iv` after a stretch of the registry: it has its
templates, and its violation list begins with that of `iv`. -/
def Vetter.Grows (iv iv' : Vetter) : Prop :=
  iv.immTmpls ⊆ iv'.immTmpls ∧ ∃ after, iv'.errlist = iv.errlist ++ after

/-- The package-level variables after the loop over the fields `fs` of a
template, which classifies them one after the other from `st`. -/
def templateState (E : Env) : List (String × Ty) → State → State
  | [], st => st
  | f :: fs, st => templateState E fs (isImmType E.U st f.2).2

/-- The violations of the template registry for the fields `fs`, when every
field is classified from the package-level variables of the program start. -/
def templateViolationsInit (E : Env) (info : Info) (n : Nat) :
    Nat → List (String × Ty) → List immErr
  | _, [] => []
  | i, f :: fs =>
    (if (isImmType E.U State.init f.2).1 = .ok false then
      [⟨E.Position (info.FieldPos n i), templateFieldMsg E f.2⟩]
    else [])
      ++ templateViolationsInit E info n (i + 1) fs

/-- The specs of the top-level type declarations of the files of a package,
in the order of the files and, in a file, of the declarations. -/
def pkgTypeSpecs : List Node → List Node
  | [] => []
  | f :: fs => f.typeSpecs ++ pkgTypeSpecs fs

/-- The template a type spec declares: the named type of the declared name,
when the spec carries the template marker. -/
def specTemplate (E : Env) (info : Info) : Node → Option Nat
  | .typeSpec _ name _ =>
    if E.IsImmTmpl name then
      match info.ObjectOf name with
      | .named n => some n
      | _ => none
    else none
  | _ => none

/-- The fields of the underlying struct of a template; none when the
underlying type is no struct. -/
def templateFields (E : Env) (n : Nat) : List (String × Ty) :=
  match E.U.underlying n with
  | .struct fs => fs
  | _ => []

/-- The violations of the template registry for the type specs `specs`, met in
this order from the package-level variables `st`: for every spec that declares
a template, the violations of its fields. -/
def registryViolations (E : Env) (info : Info) : List Node → State → List immErr
  | [], _ => []
  | spec :: specs, st =>
    match specTemplate E info spec with
    | some n =>
      templateViolations E info n 0 (templateFields E n) st
        ++ registryViolations E info specs (templateState E (templateFields E n) st)
    | none => registryViolations E info specs st

/-- The package-level variables after the registry went over `specs`. -/
def registryState (E : Env) (info : Info) : List Node → State → State
  | [], st => st
  | spec :: specs, st =>
    match specTemplate E info spec with
    | some n => registryState E info specs (templateState E (templateFields E n) st)
    | none => registryState E info specs st

/-- The set `immTmpls` after the registry went over `specs`. -/
def registryTemplates (E : Env) (info : Info) : List Node → List Nat → List Nat
  | [], tm => tm
  | spec :: specs, tm =>
    match specTemplate E info spec with
    | some n => registryTemplates E info specs (setInsert tm n)
    | none => registryTemplates E info specs tm

/-- The violations of the template registry for the type specs `specs`, when
every field is classified from the package-level variables of the program
start: one for every field of the underlying struct of every template whose
type `isImmType` classifies as not immutable. -/
def registryViolationsInit (E : Env) (info : Info) : List Node → List immErr
  | [] => []
  | spec :: specs =>
    match specTemplate E info spec with
    | some n =>
      templateViolationsInit E info n 0 (templateFields E n)
        ++ registryViolationsInit E info specs
    | none => registryViolationsInit E info specs

/-- The records of a list of violations whose message the test `P` accepts. -/
def recordsOf (P : String → Bool) (es : List immErr) : List immErr :=
  es.filter fun e => P e.msg

/-- The test for the message of the template registry. -/
def isRegistryMsg (m : String) : Bool :=
  "immutable struct field must be immutable type; ".data.isPrefixOf m.data

/-- The test for the message of the field-access rule. -/
def isFieldAccessMsg (m : String) : Bool :=
  "should not be using ".data.isPrefixOf m.data

/-- The test for the message of the once-only iteration rule. -/
def isRangeMsg (m : String) : Bool := decide (m = rangeMsg)

/-- The messages of the two rules of the syntax walk that emit violations: the
pointer-form rule and the construction rule. -/
def isWalkMsg (m : String) : Prop :=
  (∃ t, m = "type should be " ++ t) ∨ m = constructMsg

/-- The vetter `iv'` has the violation list of `iv` and, after it, violations
of the pointer-form rule and the construction rule alone. -/
def Vetter.Walked (iv iv' : Vetter) : Prop :=
  ∃ W, iv'.errlist = iv.errlist ++ W ∧ ∀ e, e ∈ W → isWalkMsg e.msg

/-- The sets `seenTypes` and `ifaces` hold every key once. -/
def State.NodupSets (st : State) : Prop := st.seenTypes.Nodup ∧ st.ifaces.Nodup

/-- Is the type the named type `i`? -/
def Ty.isNamed (i : Nat) : Ty → Bool
  | .named j => j == i
  | _ => false

/-! ## Example universes -/

/-- A singly linked list: `type Node struct { val int; next *Node }`, which is
no immutable template. -/
def listNode : Universe :=
  { decls := [⟨"p.Node", .struct [("val", .basic .int), ("next", .pointer (.named 0))], ⟨"a.go", 1, 6⟩⟩]
    IsImmType := fun _ => none
    Implements := fun _ _ => false }

/-- Two distinct named types that print the same `String()`: the type `X` of a
package `foo` and the type `X` of its external test package `foo_test`, which
`vetPackages` both type-checks under the import path of the directory
(`conf.Check(iv.bpkg.ImportPath, ...)`).  The first is `int`, the second
`[]int`. -/
def homonyms : Universe :=
  { decls :=
      [⟨"example.com/foo.X", .basic .int, ⟨"foo.go", 3, 6⟩⟩,
       ⟨"example.com/foo.X", .slice (.basic .int), ⟨"foo_test.go", 3, 6⟩⟩]
    IsImmType := fun _ => none
    Implements := fun _ _ => false }

/-- A small package: `type Point struct { x, y int }`,
`type Line struct { a, b Point }`, `type Bag struct { items []int }` and
`type Node struct { val int; next *Node }`; none is an immutable template. -/
def shapes : Universe :=
  { decls :=
      [⟨"p.Point", .struct [("x", .basic .int), ("y", .basic .int)], ⟨"p.go", 3, 6⟩⟩,
       ⟨"p.Line", .struct [("a", .named 0), ("b", .named 0)], ⟨"p.go", 4, 6⟩⟩,
       ⟨"p.Bag", .struct [("items", .slice (.basic .int))], ⟨"p.go", 5, 6⟩⟩,
       ⟨"p.Node", .struct [("val", .basic .int), ("next", .pointer (.named 3))],
         ⟨"p.go", 6, 6⟩⟩]
    IsImmType := fun _ => none
    Implements := fun _ _ => false }

/-- A package with the generated immutable list `*MyList` and the generated
immutable struct `*MyStruct`, which `immutable.IsImmType` recognises. -/
def demoUniverse : Universe :=
  { decls :=
      [⟨"p.MyList", .struct [("theSlice", .slice (.basic .string))], ⟨"gen_p.go", 5, 6⟩⟩,
       ⟨"p.MyStruct", .struct [("name", .basic .string)], ⟨"gen_p.go", 9, 6⟩⟩]
    IsImmType := fun t =>
      match t with
      | .pointer (.named 0) => some .ImmTypeSlice
      | .pointer (.named 1) => some .ImmTypeStruct
      | _ => none
    Implements := fun _ _ => false }

/-- The surroundings of the demo package: positions below 1000 are in `a.go`,
the others in `skip.go`; the line is the position, the column 1.  No message
of the examples has the character `%`, so `FormatVerbs` is never asked. -/
def demoEnv : Env :=
  { U := demoUniverse
    Position := fun p => ⟨if p < 1000 then "a.go" else "skip.go", p, 1⟩
    CmdImmutableVet := "immutableVet"
    IsImmTypeNilPointer := none
    IsImmTmpl := fun _ => false
    FileGeneratedBy := fun _ => false
    InterfaceString := fun _ => "interface"
    FormatVerbs := fun m => m }

/-- The type expression `MyStruct` at the position `p`, with the identity `i`. -/
def myStructExpr (i p : Nat) : Node := .ident ⟨i, "MyStruct", p⟩

/-- The expression `&MyStruct{}` at the position `p`; the literal has the
identity `i + 1` and its type expression the identity `i + 2`. -/
def addrOfLit (i p : Nat) : Node :=
  .unaryExpr i p .AND (.compositeLit (i + 1) (p + 1) (some (myStructExpr (i + 2) (p + 1))) [])

/-- The type-checker tables of the demo package: the expressions 12 and 22
are the type `MyStruct`. -/
def demoInfo : Info :=
  { Types := [⟨12, 11, true, .named 1⟩, ⟨22, 1011, true, .named 1⟩]
    Selections := []
    ObjectOf := fun _ => .basic .invalid
    FieldPos := fun _ _ => 0 }

/-- A file `a.go` whose one declaration holds `&MyStruct{}`. -/
def plainFile : Node :=
  .file 1 [["// Package p"]] [.other 5 5 [addrOfLit 10 10]]

/-- A file `skip.go` that carries the skip-file comment and whose one
declaration holds `&MyStruct{}`. -/
def skippedFile : Node :=
  .file 1000 [["//immutableVet:skipFile"]] [.other 6 1005 [addrOfLit 20 1010]]

/-- The type-checker tables of a package that reads the field `name` of a
`*MyStruct` value once in `a.go` (selector 30, receiver at 50) and once in
`skip.go` (selector 31, receiver at 1050), and calls the method `Len` of a
`*MyList` value in `a.go` (selector 32). -/
def accessInfo : Info :=
  { Types := [⟨12, 11, true, .named 1⟩, ⟨22, 1011, true, .named 1⟩]
    Selections :=
      [⟨30, 50, ⟨.FieldVal, .pointer (.named 1), "name"⟩⟩,
       ⟨31, 1050, ⟨.FieldVal, .pointer (.named 1), "name"⟩⟩,
       ⟨32, 60, ⟨.MethodVal, .pointer (.named 0), "Len"⟩⟩]
    ObjectOf := fun _ => .basic .invalid
    FieldPos := fun _ _ => 0 }

/-- The package of the files `a.go` and `skip.go`. -/
def accessPkg : Package := ⟨[plainFile, skippedFile], some accessInfo⟩

/-- The selected identifier `Range` with the identity `i` at the position `p`. -/
def rangeIdent (i p : Nat) : Ident := ⟨i, "Range", p⟩

/-- The call `l.Range()` (or `(*MyList).Range(l)`): the selector expression
has the identity `i`, the selected identifier the identity `i + 1` and the
position `p + 2`, and the closing parenthesis is at `p + 8`. -/
def rangeCall (i p : Nat) : Node :=
  .callExpr (i + 2) (.selectorExpr i (.ident ⟨i + 3, "l", p⟩) (rangeIdent (i + 1) (p + 2)))
    [] NoPos (p + 8)

/-- A file with three statements: `for range l.Range() { }` at 100 (selector
40), `x := l.Range()` at 200 (selector 50), and
`for range (*MyList).Range(l) { }` at 300 (selector 60). -/
def rangeFile : Node :=
  .file 1 []
    [.other 5 5
      [.rangeStmt 100 none none (rangeCall 40 110) (.other 6 130 []),
       .other 7 200 [.ident ⟨8, "x", 200⟩, rangeCall 50 210],
       .rangeStmt 300 none none (rangeCall 60 310) (.other 9 330 [])]]

/-- The type-checker tables of `rangeFile`: the selectors 40 and 50 are method
values of `*MyList`, the selector 60 is a method expression of `*MyList`. -/
def rangeInfo : Info :=
  { Types := []
    Selections :=
      [⟨40, 110, ⟨.MethodVal, .pointer (.named 0), "Range"⟩⟩,
       ⟨50, 210, ⟨.MethodVal, .pointer (.named 0), "Range"⟩⟩,
       ⟨60, 310, ⟨.MethodExpr, .pointer (.named 0), "Range"⟩⟩]
    ObjectOf := fun _ => .basic .invalid
    FieldPos := fun _ _ => 0 }

/-- The package of `rangeFile`. -/
def rangePkg : Package := ⟨[rangeFile], some rangeInfo⟩

/-- A file with the statement `ys = append(ys, l.Range() ...)`, in which a
blank separates the call (closing parenthesis at 118) from the ellipsis (at
120). -/
def gapFile : Node :=
  .file 1 []
    [.other 5 5
      [.callExpr 70 (.ident ⟨71, "append", 100⟩)
        [.ident ⟨72, "ys", 107⟩, rangeCall 40 110] 120 123]]

/-- A package with the interface `Shape` (the interface object 7) and two
structs that implement it by value: `Circle`, with a basic field, and `Poly`,
with a slice field.  None is an immutable template. -/
def shapeUniverse : Universe :=
  { decls :=
      [⟨"p.Shape", .interface 7 ["Area() float64"], ⟨"p.go", 3, 6⟩⟩,
       ⟨"p.Circle", .struct [("r", .basic .float64)], ⟨"p.go", 7, 6⟩⟩,
       ⟨"p.Poly", .struct [("pts", .slice (.basic .float64))], ⟨"p.go", 11, 6⟩⟩]
    IsImmType := fun _ => none
    Implements := fun t i =>
      match t with
      | .named 1 => i == 7
      | .named 2 => i == 7
      | .pointer (.named 1) => i == 7
      | .pointer (.named 2) => i == 7
      | _ => false }

/-- The surroundings of the package of shapes. -/
def shapeEnv : Env :=
  { U := shapeUniverse
    Position := fun p => ⟨"p.go", p, 1⟩
    CmdImmutableVet := "immutableVet"
    IsImmTypeNilPointer := none
    IsImmTmpl := fun _ => false
    FileGeneratedBy := fun _ => false
    InterfaceString := fun _ => "interface\x7bArea() float64\x7d"
    FormatVerbs := fun m => m }

/-- The package-level variables after `Shape`, `Circle` and `Poly` were
classified, in this order, from the program start. -/
def shapeState : State :=
  (isImmType shapeUniverse
    (isImmType shapeUniverse (isImmType shapeUniverse State.init (.named 0)).2 (.named 1)).2
    (.named 2)).2

/-- The violation of the pointer-form rule for the key of the map type at
`a.go:3:7`. -/
def keyViolation : immErr := ⟨⟨"a.go", 3, 7⟩, "type should be *example.com/p.Key"⟩

/-- The violation of the pointer-form rule for the value of the same map type:
the same position, another message. -/
def valueViolation : immErr := ⟨⟨"a.go", 3, 7⟩, "type should be *example.com/p.Value"⟩

/-- The package `time` as far as the program meets it: `time.Time` and
`time.Location`, neither of which is an immutable template. -/
def timeUniverse : Universe :=
  { decls :=
      [⟨"time.Time",
          .struct [("wall", .basic .uint64), ("ext", .basic .int64),
            ("loc", .pointer (.named 1))], ⟨"time.go", 127, 6⟩⟩,
       ⟨"time.Location", .struct [("name", .basic .string)], ⟨"zoneinfo.go", 16, 6⟩⟩]
    IsImmType := fun _ => none
    Implements := fun _ _ => false }

/-- A file `skip.go` whose skip-file comment is the last comment of the file,
after the declaration `var x MyStruct` (at 1005) and a function that holds
`&MyStruct{}` and the statement `x := l.Range()` (selector 50). -/
def lateSkipFile : Node :=
  .file 1000 [["// Package p", "// holds examples"], ["// trailing", "//immutableVet:skipFile"]]
    [.genDecl 1005 false [.valueSpec 1005 (some (myStructExpr 22 1011)) []],
     .other 6 1020 [addrOfLit 20 1030, rangeCall 50 1040]]

/-- The statement `for _, f := range strings.Fields(s) { _ = f }` at 100: the
operand of `range` is a call of the qualified identifier `strings.Fields`
(selector expression 80), for which `info.Selections` has no entry. -/
def rangeOverQualified : Node :=
  .rangeStmt 100 none (some (.ident ⟨81, "f", 107⟩))
    (.callExpr 82 (.selectorExpr 80 (.ident ⟨83, "strings", 118⟩) ⟨84, "Fields", 126⟩)
      [.ident ⟨85, "s", 133⟩] NoPos 134)
    (.other 86 136 [.other 87 138 [.ident ⟨88, "_", 138⟩, .ident ⟨89, "f", 142⟩]])

/-- The call `strings.Fields(s)` on its own, as a statement. -/
def qualifiedCall : Node :=
  .callExpr 82 (.selectorExpr 80 (.ident ⟨83, "strings", 118⟩) ⟨84, "Fields", 126⟩)
    [.ident ⟨85, "s", 133⟩] NoPos 134

/-- The package of one file that holds `rangeOverQualified` in a function. -/
def qualifiedPkg : Package :=
  ⟨[.file 1 [] [.other 5 5 [rangeOverQualified]]],
    some { Types := [], Selections := [], ObjectOf := fun _ => .basic .invalid,
           FieldPos := fun _ _ => 0 }⟩

/-- The declaration `var x MyStruct` at 10; the type expression has the
identity 12, for which `demoInfo` records the type `MyStruct`. -/
def varOfStruct : Node := .valueSpec 10 (some (myStructExpr 12 11)) []

/-- A package with the template `_Imm_Pair` (named type 0), the type `Pair`
generated from it (named type 1) and a plain type `Other` (named type 2). -/
def tmplUniverse : Universe :=
  { decls :=
      [⟨"p._Imm_Pair", .struct [("a", .basic .int), ("bs", .slice (.basic .int))],
          ⟨"p.go", 5, 6⟩⟩,
       ⟨"p.Pair", .struct [("a", .basic .int), ("bs", .slice (.basic .int))],
          ⟨"gen_p.go", 9, 6⟩⟩,
       ⟨"p.Other", .struct [("n", .basic .int)], ⟨"p.go", 20, 6⟩⟩]
    IsImmType := fun t =>
      match t with
      | .pointer (.named 1) => some .ImmTypeStruct
      | _ => none
    Implements := fun _ _ => false }

/-- The surroundings of the template package: positions below 1000 are in
`p.go`, the others in the generated file `gen_p.go`; a type name is a template
when it begins with `_Imm_`. -/
def tmplEnv : Env :=
  { U := tmplUniverse
    Position := fun p => ⟨if p < 1000 then "p.go" else "gen_p.go", p, 1⟩
    CmdImmutableVet := "immutableVet"
    IsImmTypeNilPointer := none
    IsImmTmpl := fun i => i.name.data.take 5 = "_Imm_".data
    FileGeneratedBy := fun f => f = "gen_p.go"
    InterfaceString := fun _ => "interface"
    FormatVerbs := fun m => m }

/-- The file `p.go`: the declaration `type _Imm_Pair struct { a int; bs []int }`
at 5 (the struct type is the expression 11), and a function that declares
`var t *_Imm_Pair` (at 30, the type expression 32 at 34) and `var o Other`
(at 40, the type expression 42 at 46). -/
def tmplFile : Node :=
  .file 1 []
    [.genDecl 5 true [.typeSpec 5 ⟨10, "_Imm_Pair", 5⟩ (.other 11 15 [])],
     .other 20 20
      [.genDecl 30 false [.valueSpec 30 (some (.other 32 34 [])) []],
       .genDecl 40 false [.valueSpec 40 (some (.ident ⟨42, "Other", 46⟩)) []]]]

/-- The generated file `gen_p.go`, which uses the template in the expression
52 (at 1034). -/
def genFile : Node :=
  .file 1000 []
    [.other 50 1020 [.genDecl 1030 false [.valueSpec 1030 (some (.other 52 1034 [])) []]]]

/-- The type-checker tables of the template package: the expressions 32 and
52 denote the type `*_Imm_Pair`, the expression 42 the type `Other`, and the
expression 60 (at 70) is a value of the type `_Imm_Pair`. -/
def tmplInfo : Info :=
  { Types :=
      [⟨32, 34, true, .pointer (.named 0)⟩, ⟨42, 46, true, .named 2⟩,
       ⟨52, 1034, true, .pointer (.named 0)⟩, ⟨60, 70, false, .named 0⟩]
    Selections := []
    ObjectOf := fun i => if i.name = "_Imm_Pair" then .named 0 else .basic .invalid
    FieldPos := fun _ i => 16 + i }

/-- The template package. -/
def tmplPkg : Package := ⟨[tmplFile, genFile], some tmplInfo⟩

/-- A file whose one type declaration with the template marker,
`type _Imm_Pair struct { a int; bs []int }` at 30, stands inside a function
(the declaration 20), not at the top level of the file. -/
def localTmplFile : Node :=
  .file 1 []
    [.other 20 20 [.genDecl 30 true [.typeSpec 30 ⟨10, "_Imm_Pair", 35⟩ (.other 11 45 [])]]]

/-- The package of `localTmplFile`. -/
def localTmplPkg : Package :=
  ⟨[localTmplFile],
    some { Types := [], Selections := []
           ObjectOf := fun i => if i.name = "_Imm_Pair" then .named 0 else .basic .invalid
           FieldPos := fun _ i => 46 + i }⟩

/-- A declaration table with the cycle the tentative cache entry guards
against: the named type `T` whose underlying struct has a field of the type `T`
itself, `type T struct { a int; t T; p *T }`, and whose pointer form the
template recogniser accepts.  The type checker rejects such a declaration, so
the table of a type-checked program has none; the classifier meets the same
lookup when two named types print the same `String()`. -/
def selfField : Universe :=
  { decls :=
      [⟨"p.T", .struct [("a", .basic .int), ("t", .named 0), ("p", .pointer (.named 0))],
        ⟨"a.go", 1, 6⟩⟩]
    IsImmType := fun t =>
      match t with
      | .pointer (.named 0) => some .ImmTypeStruct
      | _ => none
    Implements := fun _ _ => false }

/-! ## Theorems -/

/-! ### The cache -/

theorem Cache.find_store (c : Cache) (k k' : String) (v : Bool) :
    (c.store k v).find k' = if k = k' then some v else c.find k' := by
  simp [Cache.store, Cache.find]

theorem Cache.find_append_of_none (w c : Cache) (k : String) (h : w.find k = none) :
    Cache.find (w ++ c) k = c.find k := by
  induction w with
  | nil => rfl
  | cons e w ih =>
    obtain ⟨k', v⟩ := e
    simp only [Cache.find, List.cons_append] at h ⊢
    split at h
    · cases h
    · rename_i hne
      simp [hne, ih h]

theorem Cache.Extends.extRefl (c : Cache) : Cache.Extends c c := fun _ _ h => h

theorem Cache.Extends.extTrans {a b c : Cache} (h₁ : Cache.Extends a b) (h₂ : Cache.Extends b c) :
    Cache.Extends a c := fun k v h => h₂ k v (h₁ k v h)

theorem Cache.extends_store_of_none (c : Cache) (k : String) (v : Bool) (h : c.find k = none) :
    Cache.Extends c (c.store k v) := by
  intro k' v' h'
  rw [Cache.find_store]
  split
  · rename_i heq
    subst heq
    rw [h] at h'
    cases h'
  · exact h'

/-! ### Unfolding the classifier -/

theorem fieldLoop_nil (classify : State → Ty → Res Bool × State) (st : State) :
    fieldLoop classify st [] = (.ok true, st) := rfl

theorem fieldLoop_cons (classify : State → Ty → Res Bool × State) (st : State)
    (f : String × Ty) (fs : List (String × Ty)) :
    fieldLoop classify st (f :: fs) =
      if (classify st f.2).1 = .ok true then fieldLoop classify (classify st f.2).2 fs
      else classify st f.2 := by
  rw [fieldLoop]
  rcases h : classify st f.2 with ⟨r, st'⟩
  cases r with
  | ok b => cases b <;> simp
  | fault m => simp
  | outOfFuel => simp

theorem isImmTypeFuel_zero (U : Universe) (st : State) (t : Ty) :
    isImmTypeFuel U 0 st t = (.outOfFuel, st) := rfl

theorem isImmTypeFuel_hit (U : Universe) (fuel : Nat) (st : State) (t : Ty) (v : Bool)
    (h : st.typesCache.find (typeString U t) = some v) :
    isImmTypeFuel U (fuel + 1) st t = (.ok v, st) := by
  simp [isImmTypeFuel, isImmTypeBody, h]

theorem isImmTypeFuel_named (U : Universe) (fuel : Nat) (st : State) (i : Nat)
    (h : st.typesCache.find (U.qualName i) = none) :
    isImmTypeFuel U (fuel + 1) st (.named i) =
      namedResult U i (isImmTypeFuel U fuel (st.pending U i) (U.underlying i)) := by
  simp only [isImmTypeFuel, isImmTypeBody, typeString, h, namedResult]
  show (match isImmTypeFuel U fuel (st.pending U i) (U.underlying i) with
      | (.ok v, st2) => (Res.ok v, st2.resolve U i v)
      | r => r) = _
  rcases isImmTypeFuel U fuel (st.pending U i) (U.underlying i) with ⟨r, st'⟩
  cases r <;> rfl

theorem namedResult_ok (U : Universe) (i : Nat) (v : Bool) (s : State) :
    namedResult U i (.ok v, s) = (.ok v, s.resolve U i v) := rfl

theorem namedResult_fault (U : Universe) (i : Nat) (m : String) (s : State) :
    namedResult U i (.fault m, s) = (.fault m, s) := rfl

theorem namedResult_outOfFuel (U : Universe) (i : Nat) (s : State) :
    namedResult U i (.outOfFuel, s) = (.outOfFuel, s) := rfl

theorem namedResult_fst (U : Universe) (i : Nat) (r : Res Bool × State) :
    (namedResult U i r).1 = r.1 := by
  rcases r with ⟨r, s⟩
  cases r <;> rfl

theorem isImmTypeFuel_struct (U : Universe) (fuel : Nat) (st : State) (fs : List (String × Ty))
    (h : st.typesCache.find (typeString U (.struct fs)) = none) :
    isImmTypeFuel U (fuel + 1) st (.struct fs) = fieldLoop (isImmTypeFuel U fuel) st fs := by
  simp [isImmTypeFuel, isImmTypeBody, h]

theorem isImmTypeFuel_leaf (U : Universe) (fuel : Nat) (st : State) (t : Ty)
    (hl : t.isLeaf = true) (h : st.typesCache.find (typeString U t) = none) :
    isImmTypeFuel U (fuel + 1) st t = leafAnswer U st t := by
  cases t <;> simp_all [isImmTypeFuel, isImmTypeBody, Ty.isLeaf, leafAnswer]

theorem leafAnswer_cache (U : Universe) (st : State) (t : Ty) :
    (leafAnswer U st t).2.typesCache = st.typesCache := by
  cases t <;> rfl

theorem leafAnswer_ne_outOfFuel (U : Universe) (st : State) (t : Ty) :
    (leafAnswer U st t).1 ≠ .outOfFuel := by
  cases t <;> simp [leafAnswer]


/-- A case analysis of one call of `isImmType`: a cache hit, a leaf type, a
named type or a struct. -/
theorem isImmTypeFuel_cases (U : Universe) (fuel : Nat) (st : State) (t : Ty) :
    (∃ v, st.typesCache.find (typeString U t) = some v ∧
        isImmTypeFuel U (fuel + 1) st t = (.ok v, st)) ∨
    (st.typesCache.find (typeString U t) = none ∧ t.isLeaf = true ∧
        isImmTypeFuel U (fuel + 1) st t = leafAnswer U st t) ∨
    (∃ i, t = .named i ∧ st.typesCache.find (U.qualName i) = none ∧
        isImmTypeFuel U (fuel + 1) st t =
          namedResult U i (isImmTypeFuel U fuel (st.pending U i) (U.underlying i))) ∨
    (∃ fs, t = .struct fs ∧ st.typesCache.find (typeString U t) = none ∧
        isImmTypeFuel U (fuel + 1) st t = fieldLoop (isImmTypeFuel U fuel) st fs) := by
  cases hf : st.typesCache.find (typeString U t) with
  | some v => exact Or.inl ⟨v, rfl, isImmTypeFuel_hit U fuel st t v hf⟩
  | none =>
    right
    by_cases hl : t.isLeaf = true
    · exact Or.inl ⟨rfl, hl, isImmTypeFuel_leaf U fuel st t hl hf⟩
    · right
      cases t with
      | named i => exact Or.inl ⟨i, rfl, hf, isImmTypeFuel_named U fuel st i hf⟩
      | struct fs => exact Or.inr ⟨fs, rfl, rfl, isImmTypeFuel_struct U fuel st fs hf⟩
      | _ => simp [Ty.isLeaf] at hl

/-! ### Frame: a call keeps every entry the cache had -/

theorem fieldLoop_extends (classify : State → Ty → Res Bool × State)
    (fs : List (String × Ty))
    (h : ∀ st f, f ∈ fs → Cache.Extends st.typesCache (classify st f.2).2.typesCache) :
    ∀ st, Cache.Extends st.typesCache (fieldLoop classify st fs).2.typesCache := by
  induction fs with
  | nil => intro st; exact Cache.Extends.extRefl _
  | cons f fs ih =>
    intro st
    rw [fieldLoop_cons]
    have hf := h st f (List.mem_cons_self _ _)
    split
    · exact hf.extTrans (ih (fun st' g hg => h st' g (List.mem_cons_of_mem _ hg)) _)
    · exact hf

theorem pending_extends (U : Universe) (st : State) (i : Nat)
    (h : st.typesCache.find (U.qualName i) = none) :
    Cache.Extends st.typesCache (st.pending U i).typesCache :=
  Cache.extends_store_of_none _ _ _ h

theorem namedResult_extends (U : Universe) (st : State) (i : Nat) (r : Res Bool × State)
    (h : st.typesCache.find (U.qualName i) = none)
    (hr : Cache.Extends (st.pending U i).typesCache r.2.typesCache) :
    Cache.Extends st.typesCache (namedResult U i r).2.typesCache := by
  have h0 := (pending_extends U st i h).extTrans hr
  rcases r with ⟨r, s⟩
  cases r with
  | ok v =>
    intro k w hk
    rw [namedResult_ok]
    show (s.typesCache.store (U.qualName i) v).find k = some w
    rw [Cache.find_store]
    split
    · rename_i heq
      subst heq
      rw [h] at hk
      cases hk
    · exact h0 k w hk
  | fault m => exact h0
  | outOfFuel => exact h0

theorem isImmTypeFuel_extends (U : Universe) :
    ∀ fuel st t, Cache.Extends st.typesCache (isImmTypeFuel U fuel st t).2.typesCache := by
  intro fuel
  induction fuel with
  | zero => intro st t; exact Cache.Extends.extRefl _
  | succ fuel ih =>
    intro st t
    rcases isImmTypeFuel_cases U fuel st t with
      ⟨v, _, h⟩ | ⟨_, _, h⟩ | ⟨i, rfl, hf, h⟩ | ⟨fs, rfl, _, h⟩
    · rw [h]; exact Cache.Extends.extRefl _
    · rw [h, leafAnswer_cache]; exact Cache.Extends.extRefl _
    · rw [h]; exact namedResult_extends U st i _ hf (ih _ _)
    · rw [h]; exact fieldLoop_extends _ fs (fun st' f _ => ih st' f.2) st

/-! ### More fuel changes nothing once a call has ended -/

theorem fieldLoop_congr (c₁ c₂ : State → Ty → Res Bool × State) (fs : List (String × Ty))
    (h : ∀ st f, f ∈ fs → (c₁ st f.2).1 ≠ .outOfFuel → c₂ st f.2 = c₁ st f.2) :
    ∀ st, (fieldLoop c₁ st fs).1 ≠ .outOfFuel → fieldLoop c₂ st fs = fieldLoop c₁ st fs := by
  induction fs with
  | nil => intro st _; rfl
  | cons f fs ih =>
    intro st hne
    rw [fieldLoop_cons] at hne ⊢
    rw [fieldLoop_cons]
    by_cases hok : (c₁ st f.2).1 = .ok true
    · have h2 : c₂ st f.2 = c₁ st f.2 := h st f (List.mem_cons_self _ _) (by rw [hok]; simp)
      rw [if_pos hok] at hne ⊢
      rw [h2, if_pos hok]
      exact ih (fun st' g hg => h st' g (List.mem_cons_of_mem _ hg)) _ hne
    · rw [if_neg hok] at hne ⊢
      have h2 : c₂ st f.2 = c₁ st f.2 := h st f (List.mem_cons_self _ _) hne
      rw [h2, if_neg hok]

theorem isImmTypeFuel_succ (U : Universe) :
    ∀ fuel st t, (isImmTypeFuel U fuel st t).1 ≠ .outOfFuel →
      isImmTypeFuel U (fuel + 1) st t = isImmTypeFuel U fuel st t := by
  intro fuel
  induction fuel with
  | zero => intro st t h; exact absurd rfl h
  | succ fuel ih =>
    intro st t hne
    rcases isImmTypeFuel_cases U fuel st t with
      ⟨v, hf, h⟩ | ⟨hf, hl, h⟩ | ⟨i, rfl, hf, h⟩ | ⟨fs, rfl, hf, h⟩
    · rw [h, isImmTypeFuel_hit U (fuel + 1) st t v hf]
    · rw [h, isImmTypeFuel_leaf U (fuel + 1) st t hl hf]
    · rw [h] at hne ⊢
      rw [namedResult_fst] at hne
      rw [isImmTypeFuel_named U (fuel + 1) st i hf, ih _ _ hne]
    · rw [h] at hne ⊢
      rw [isImmTypeFuel_struct U (fuel + 1) st fs hf]
      exact fieldLoop_congr _ _ fs (fun st' f _ hf' => ih st' f.2 hf') st hne

theorem isImmTypeFuel_add (U : Universe) (fuel : Nat) (st : State) (t : Ty)
    (h : (isImmTypeFuel U fuel st t).1 ≠ .outOfFuel) :
    ∀ k, isImmTypeFuel U (fuel + k) st t = isImmTypeFuel U fuel st t := by
  intro k
  induction k with
  | zero => rfl
  | succ k ih =>
    rw [← Nat.add_assoc, isImmTypeFuel_succ U (fuel + k) st t (by rw [ih]; exact h), ih]

theorem isImmTypeFuel_le (U : Universe) (fuel fuel' : Nat) (st : State) (t : Ty)
    (h : (isImmTypeFuel U fuel st t).1 ≠ .outOfFuel) (hle : fuel ≤ fuel') :
    isImmTypeFuel U fuel' st t = isImmTypeFuel U fuel st t := by
  obtain ⟨k, rfl⟩ := Nat.exists_eq_add_of_le hle
  exact isImmTypeFuel_add U fuel st t h k

/-! ### Termination: the fuel of `fuelFor` is enough -/

theorem Ty.depth_pos (t : Ty) : 0 < t.depth := by
  cases t <;> simp [Ty.depth]

theorem Ty.depth_field_lt (fs : List (String × Ty)) (f : String × Ty) (h : f ∈ fs) :
    f.2.depth < (Ty.struct fs).depth := by
  have : f.2.depth ≤ Ty.depth.fieldsDepth fs := by
    induction fs with
    | nil => cases h
    | cons g gs ih =>
      simp only [Ty.depth.fieldsDepth]
      rcases List.mem_cons.mp h with rfl | hg
      · exact le_max_left _ _
      · exact le_trans (ih hg) (le_max_right _ _)
  simp only [Ty.depth]
  omega

theorem Universe.depth_underlying_le (U : Universe) (i : Nat) :
    (U.underlying i).depth ≤ U.maxDepth := by
  unfold Universe.underlying Universe.maxDepth
  cases hg : U.decls.get? i with
  | none =>
    simp only [Ty.depth]
    generalize U.decls = l
    induction l with
    | nil => simp
    | cons d l ih => simp only [List.map_cons, List.foldr_cons]; exact le_trans ih (le_max_right _ _)
  | some d =>
    have hmem : d ∈ U.decls := List.get?_mem hg
    simp only
    generalize U.decls = l at hmem
    induction l with
    | nil => cases hmem
    | cons e l ih =>
      simp only [List.map_cons, List.foldr_cons]
      rcases List.mem_cons.mp hmem with rfl | hl
      · exact le_max_left _ _
      · exact le_trans (ih hl) (le_max_right _ _)

theorem Universe.uncached_le_of_extends (U : Universe) (c c' : Cache)
    (h : Cache.Extends c c') : U.uncached c' ≤ U.uncached c := by
  unfold Universe.uncached
  apply List.Sublist.length_le
  apply List.monotone_filter_right
  intro d hd
  cases hc : c.find d.qualName with
  | none => rfl
  | some v => rw [h _ _ hc] at hd; exact hd

theorem length_filter_lt_of_mem {α : Type} (p q : α → Bool) (l : List α) (a : α)
    (ha : a ∈ l) (hpq : ∀ x, p x = true → q x = true) (hq : q a = true) (hp : p a = false) :
    (l.filter p).length < (l.filter q).length := by
  induction l with
  | nil => cases ha
  | cons x l ih =>
    have hle : (l.filter p).length ≤ (l.filter q).length :=
      List.Sublist.length_le (List.monotone_filter_right l hpq)
    rcases List.mem_cons.mp ha with rfl | hl
    · simp [List.filter_cons, hq, hp]; omega
    · have := ih hl
      by_cases hpx : p x = true
      · simp [List.filter_cons, hpx, hpq x hpx]; omega
      · by_cases hqx : q x = true
        · simp [List.filter_cons, hpx, hqx]; omega
        · simp [List.filter_cons, hpx, hqx]; omega

theorem Universe.uncached_pending_lt (U : Universe) (st : State) (i : Nat)
    (hi : i < U.decls.length) (h : st.typesCache.find (U.qualName i) = none) :
    U.uncached (st.pending U i).typesCache < U.uncached st.typesCache := by
  unfold Universe.uncached
  have hget : U.decls.get? i = some (U.decls.get ⟨i, hi⟩) := List.get?_eq_get hi
  have hq : U.qualName i = (U.decls.get ⟨i, hi⟩).qualName := by
    unfold Universe.qualName
    rw [hget]
  apply length_filter_lt_of_mem _ _ _ (U.decls.get ⟨i, hi⟩) (List.get_mem _ _ _)
  · intro d hd
    cases hc : st.typesCache.find d.qualName with
    | none => rfl
    | some v =>
      rw [pending_extends U st i h _ _ hc] at hd
      exact hd
  · rw [← hq, h]; rfl
  · show ((st.typesCache.store (U.qualName i) true).find _).isNone = false
    rw [Cache.find_store, ← hq]
    simp

theorem fieldLoop_ne_outOfFuel (classify : State → Ty → Res Bool × State)
    (fs : List (String × Ty)) (st₀ : State)
    (hext : ∀ (st : State) (f : String × Ty),
      Cache.Extends st.typesCache (classify st f.2).2.typesCache)
    (h : ∀ (st : State) (f : String × Ty), f ∈ fs →
      Cache.Extends st₀.typesCache st.typesCache →
      (classify st f.2).1 ≠ .outOfFuel) :
    ∀ st, Cache.Extends st₀.typesCache st.typesCache →
      (fieldLoop classify st fs).1 ≠ .outOfFuel := by
  induction fs with
  | nil => intro st _; simp [fieldLoop]
  | cons f fs ih =>
    intro st hst
    rw [fieldLoop_cons]
    split
    · exact ih (fun st' g hg => h st' g (List.mem_cons_of_mem _ hg)) _ (hst.extTrans (hext st f))
    · exact h st f (List.mem_cons_self _ _) hst

theorem isImmTypeFuel_terminates (U : Universe) :
    ∀ fuel st t, fuelFor U st t ≤ fuel → (isImmTypeFuel U fuel st t).1 ≠ .outOfFuel := by
  intro fuel
  induction fuel with
  | zero =>
    intro st t h
    have := Ty.depth_pos t
    unfold fuelFor at h
    omega
  | succ fuel ih =>
    intro st t hle
    rcases isImmTypeFuel_cases U fuel st t with
      ⟨v, hf, h⟩ | ⟨hf, hl, h⟩ | ⟨i, rfl, hf, h⟩ | ⟨fs, rfl, hf, h⟩
    · rw [h]; simp
    · rw [h]; exact leafAnswer_ne_outOfFuel U st t
    · rw [h, namedResult_fst]
      apply ih
      unfold fuelFor at hle ⊢
      simp only [Ty.depth] at hle
      by_cases hi : i < U.decls.length
      · have h1 := U.uncached_pending_lt st i hi hf
        have h2 := U.depth_underlying_le i
        have h3 : (U.uncached (st.pending U i).typesCache + 1) * (U.maxDepth + 2)
            ≤ U.uncached st.typesCache * (U.maxDepth + 2) :=
          Nat.mul_le_mul_right _ h1
        rw [Nat.add_mul] at h3
        omega
      · have h1 := U.uncached_le_of_extends _ _ (pending_extends U st i hf)
        have h2 : U.underlying i = .basic .invalid := by
          unfold Universe.underlying
          rw [List.get?_eq_none.mpr (Nat.le_of_not_lt hi)]
        have h3 : U.uncached (st.pending U i).typesCache * (U.maxDepth + 2)
            ≤ U.uncached st.typesCache * (U.maxDepth + 2) :=
          Nat.mul_le_mul_right _ h1
        rw [h2]
        simp only [Ty.depth]
        omega
    · rw [h]
      refine fieldLoop_ne_outOfFuel _ fs st (fun st' f => isImmTypeFuel_extends U fuel st' f.2)
        ?_ st (Cache.Extends.extRefl _)
      intro st' f hmem hext
      apply ih
      have h1 := U.uncached_le_of_extends _ _ hext
      have h2 := Ty.depth_field_lt fs f hmem
      have h3 : U.uncached st'.typesCache * (U.maxDepth + 2)
          ≤ U.uncached st.typesCache * (U.maxDepth + 2) :=
        Nat.mul_le_mul_right _ h1
      unfold fuelFor at hle ⊢
      omega

theorem isImmType_ne_outOfFuel (U : Universe) (st : State) (t : Ty) :
    (isImmType U st t).1 ≠ .outOfFuel :=
  isImmTypeFuel_terminates U _ st t (Nat.le_refl _)

theorem isImmTypeFuel_eq_isImmType (U : Universe) (fuel : Nat) (st : State) (t : Ty)
    (h : (isImmTypeFuel U fuel st t).1 ≠ .outOfFuel) :
    isImmTypeFuel U fuel st t = isImmType U st t := by
  unfold isImmType
  rcases Nat.le_total fuel (fuelFor U st t) with hle | hle
  · exact (isImmTypeFuel_le U _ _ st t h hle).symm
  · exact isImmTypeFuel_le U _ _ st t (isImmType_ne_outOfFuel U st t) hle

theorem fuelFor_pos (U : Universe) (st : State) (t : Ty) : 0 < fuelFor U st t := by
  have := Ty.depth_pos t
  unfold fuelFor
  omega

theorem isImmType_hit (U : Universe) (st : State) (t : Ty) (v : Bool)
    (h : st.typesCache.find (typeString U t) = some v) :
    isImmType U st t = (.ok v, st) := by
  unfold isImmType
  obtain ⟨n, hn⟩ := Nat.exists_eq_succ_of_ne_zero (Nat.pos_iff_ne_zero.mp (fuelFor_pos U st t))
  rw [hn]
  exact isImmTypeFuel_hit U n st t v h

/-! ### Supported shapes give a verdict -/

theorem Ty.supported_field (fs : List (String × Ty)) (f : String × Ty) (h : f ∈ fs)
    (hs : (Ty.struct fs).supported = true) : f.2.supported = true := by
  simp only [Ty.supported] at hs
  induction fs with
  | nil => cases h
  | cons g gs ih =>
    simp only [Ty.supported.fieldsSupported, Bool.and_eq_true] at hs
    rcases List.mem_cons.mp h with rfl | hg
    · exact hs.1
    · exact ih hg hs.2

theorem Universe.supported_underlying (U : Universe) (hU : U.supported = true) (i : Nat) :
    (U.underlying i).supported = true := by
  unfold Universe.underlying
  cases hg : U.decls.get? i with
  | none => rfl
  | some d =>
    have hmem : d ∈ U.decls := List.get?_mem hg
    exact List.all_eq_true.mp hU d hmem

theorem leafAnswer_ne_fault (U : Universe) (st : State) (t : Ty) (hl : t.isLeaf = true)
    (hs : t.supported = true) (m : String) : (leafAnswer U st t).1 ≠ .fault m := by
  cases t <;> simp_all [leafAnswer, Ty.supported, Ty.isLeaf]

theorem fieldLoop_ne_fault (classify : State → Ty → Res Bool × State)
    (fs : List (String × Ty)) (m : String)
    (h : ∀ (st : State) (f : String × Ty), f ∈ fs → (classify st f.2).1 ≠ .fault m) :
    ∀ st, (fieldLoop classify st fs).1 ≠ .fault m := by
  induction fs with
  | nil => intro st; simp [fieldLoop]
  | cons f fs ih =>
    intro st
    rw [fieldLoop_cons]
    split
    · exact ih (fun st' g hg => h st' g (List.mem_cons_of_mem _ hg)) _
    · exact h st f (List.mem_cons_self _ _)

theorem isImmTypeFuel_ne_fault (U : Universe) (hU : U.supported = true) (m : String) :
    ∀ fuel st t, t.supported = true → (isImmTypeFuel U fuel st t).1 ≠ .fault m := by
  intro fuel
  induction fuel with
  | zero => intro st t _; simp [isImmTypeFuel]
  | succ fuel ih =>
    intro st t hs
    rcases isImmTypeFuel_cases U fuel st t with
      ⟨v, hf, h⟩ | ⟨hf, hl, h⟩ | ⟨i, rfl, hf, h⟩ | ⟨fs, rfl, hf, h⟩
    · rw [h]; simp
    · rw [h]; exact leafAnswer_ne_fault U st t hl hs m
    · rw [h, namedResult_fst]
      exact ih _ _ (U.supported_underlying hU i)
    · rw [h]
      exact fieldLoop_ne_fault _ fs m
        (fun st' f hmem => ih st' f.2 (Ty.supported_field fs f hmem hs)) st

/-- **C5.** `isImmType` terminates with a verdict on every type graph built from
supported shapes: for every declaration table whose underlying types are
supported, every state of the package-level variables and every supported type,
the call returns a verdict (it neither runs out of recursion depth nor faults),
the depth `fuelFor` bounds the recursion (any larger depth gives the same
result), and a named type that already has a cache entry (in particular one
that is pending) is answered from the cache without being entered again. -/
theorem isImmType_terminates (U : Universe) (st : State) (t : Ty)
    (hU : U.supported = true) (ht : t.supported = true) :
    (∃ b, (isImmType U st t).1 = .ok b) ∧
    (∀ fuel, fuelFor U st t ≤ fuel → isImmTypeFuel U fuel st t = isImmType U st t) ∧
    (∀ i v, st.typesCache.find (U.qualName i) = some v →
      isImmType U st (.named i) = (.ok v, st)) := by
  refine ⟨?_, ?_, ?_⟩
  · have h1 := isImmType_ne_outOfFuel U st t
    have h2 := fun m => isImmTypeFuel_ne_fault U hU m (fuelFor U st t) st t ht
    unfold isImmType at h1 ⊢
    cases hr : (isImmTypeFuel U (fuelFor U st t) st t).1 with
    | ok b => exact ⟨b, rfl⟩
    | fault m => exact absurd hr (h2 m)
    | outOfFuel => exact absurd hr h1
  · intro fuel hle
    exact isImmTypeFuel_le U _ _ st t (isImmType_ne_outOfFuel U st t) hle
  · intro i v h
    exact isImmType_hit U st (.named i) v h

/-- Witness of **C5**: the self-referential list node
`type Node struct { val int; next *Node }` is classified, with a verdict. -/
theorem isImmType_terminates_witness :
    (∃ b, (isImmType listNode State.init (.named 0)).1 = .ok b) ∧
    (∀ fuel, fuelFor listNode State.init (.named 0) ≤ fuel →
      isImmTypeFuel listNode fuel State.init (.named 0)
        = isImmType listNode State.init (.named 0)) ∧
    (∀ i v, State.init.typesCache.find (listNode.qualName i) = some v →
      isImmType listNode State.init (.named i) = (.ok v, State.init)) :=
  isImmType_terminates listNode State.init (.named 0) (by decide) (by decide)

/-! ### The assignments a call makes to the cache -/

theorem fieldLoop_rel (R : Bool → State → State → Prop)
    (hrefl : ∀ s, R true s s)
    (htrans : ∀ b s₁ s₂ s₃, R true s₁ s₂ → R b s₂ s₃ → R b s₁ s₃)
    (classify : State → Ty → Res Bool × State) (fs : List (String × Ty))
    (h : ∀ (st : State) (f : String × Ty), f ∈ fs →
      R (classify st f.2).1.isOk st (classify st f.2).2) :
    ∀ st, R (fieldLoop classify st fs).1.isOk st (fieldLoop classify st fs).2 := by
  induction fs with
  | nil => intro st; exact hrefl st
  | cons f fs ih =>
    intro st
    rw [fieldLoop_cons]
    have hf := h st f (List.mem_cons_self _ _)
    split
    · rename_i hok
      rw [hok] at hf
      exact htrans _ _ _ _ hf (ih (fun st' g hg => h st' g (List.mem_cons_of_mem _ hg)) _)
    · exact hf

theorem Cache.writesTo_nil (k : String) : Cache.writesTo [] k = [] := rfl

theorem Cache.writesTo_append (w₁ w₂ : Cache) (k : String) :
    Cache.writesTo (w₁ ++ w₂) k = Cache.writesTo w₁ k ++ Cache.writesTo w₂ k := by
  simp [Cache.writesTo]

theorem Cache.writesTo_cons (e : String × Bool) (w : Cache) (k : String) :
    Cache.writesTo (e :: w) k = if e.1 = k then e.2 :: Cache.writesTo w k
      else Cache.writesTo w k := by
  simp only [Cache.writesTo, List.filter_cons]
  by_cases h : e.1 = k <;> simp [h]

theorem Cache.writesTo_eq_nil_of_find (w c : Cache) (k : String)
    (h : Cache.find (w ++ c) k = none) : Cache.writesTo w k = [] := by
  induction w with
  | nil => rfl
  | cons e w ih =>
    obtain ⟨k', v⟩ := e
    simp only [List.cons_append, Cache.find] at h
    rw [Cache.writesTo_cons]
    by_cases hk : k' = k
    · simp [hk] at h
    · simp only [hk, if_false] at h ⊢
      exact ih h

theorem Cache.find_of_find_append_none (w c : Cache) (k : String)
    (h : Cache.find (w ++ c) k = none) : c.find k = none := by
  induction w with
  | nil => exact h
  | cons e w ih =>
    obtain ⟨k', v⟩ := e
    simp only [List.cons_append, Cache.find] at h
    by_cases hk : k' = k
    · simp [hk] at h
    · simp only [hk, if_false] at h
      exact ih h

theorem Cache.Logged.logRefl (U : Universe) (b : Bool) (c : Cache) : Cache.Logged U b c c :=
  ⟨[], rfl, fun _ => Or.inl rfl⟩

theorem Cache.Logged.weaken (U : Universe) (b : Bool) (c c' : Cache)
    (h : Cache.Logged U true c c') : Cache.Logged U b c c' := by
  obtain ⟨w, hw, hk⟩ := h
  refine ⟨w, hw, fun k => ?_⟩
  rcases hk k with h0 | ⟨h1, h2, h3⟩
  · exact Or.inl h0
  · refine Or.inr ⟨h1, h2, ?_⟩
    rcases h3 with ⟨hf, _⟩ | h4
    · cases hf
    · exact Or.inr h4

theorem Cache.Logged.logTrans (U : Universe) (b : Bool) (c₁ c₂ c₃ : Cache)
    (h₁ : Cache.Logged U true c₁ c₂) (h₂ : Cache.Logged U b c₂ c₃) :
    Cache.Logged U b c₁ c₃ := by
  obtain ⟨w₁, rfl, hk₁⟩ := h₁
  obtain ⟨w₂, rfl, hk₂⟩ := h₂
  refine ⟨w₂ ++ w₁, by simp, fun k => ?_⟩
  rw [Cache.writesTo_append]
  rcases hk₂ k with h0 | ⟨h1, h2, h3⟩
  · rw [h0, List.nil_append]
    rcases hk₁ k with h0' | ⟨h1', h2', h3'⟩
    · exact Or.inl h0'
    · refine Or.inr ⟨h1', h2', ?_⟩
      rcases h3' with ⟨hf, _⟩ | h4
      · cases hf
      · exact Or.inr h4
  · have hw1 : Cache.writesTo w₁ k = [] := Cache.writesTo_eq_nil_of_find w₁ c₁ k h1
    rw [hw1, List.append_nil]
    exact Or.inr ⟨Cache.find_of_find_append_none w₁ c₁ k h1, h2, h3⟩

theorem Cache.find_eq_none_of_writesTo (w c : Cache) (k : String)
    (hw : Cache.writesTo w k = []) : Cache.find (w ++ c) k = c.find k := by
  induction w with
  | nil => rfl
  | cons e w ih =>
    obtain ⟨k', v⟩ := e
    rw [Cache.writesTo_cons] at hw
    simp only [List.cons_append, Cache.find]
    by_cases hk : k' = k
    · simp [hk] at hw
    · simp only [hk, if_false] at hw ⊢
      exact ih hw

theorem namedResult_logged (U : Universe) (st : State) (i : Nat) (r : Res Bool × State)
    (h : st.typesCache.find (U.qualName i) = none)
    (hr : Cache.Logged U r.1.isOk (st.pending U i).typesCache r.2.typesCache) :
    Cache.Logged U (namedResult U i r).1.isOk st.typesCache
      (namedResult U i r).2.typesCache := by
  obtain ⟨w, hw, hk⟩ := hr
  have hpend : (st.pending U i).typesCache = (U.qualName i, true) :: st.typesCache := rfl
  have hnone : Cache.writesTo w (U.qualName i) = [] := by
    rcases hk (U.qualName i) with h0 | ⟨h1, _, _⟩
    · exact h0
    · rw [hpend] at h1
      simp [Cache.find] at h1
  have hkey : ∀ k, k ≠ U.qualName i → Cache.writesTo w k ≠ [] → st.typesCache.find k = none := by
    intro k hne hwk
    rcases hk k with h0 | ⟨h1, _, _⟩
    · exact absurd h0 hwk
    · rw [hpend] at h1
      simp only [Cache.find] at h1
      rw [if_neg (fun hh => hne hh.symm)] at h1
      exact h1
  rcases r with ⟨r, s⟩
  cases r with
  | ok v =>
    rw [namedResult_ok]
    refine ⟨(U.qualName i, v) :: w ++ [(U.qualName i, true)], ?_, fun k => ?_⟩
    · show (U.qualName i, v) :: s.typesCache = _
      rw [show s.typesCache = w ++ (st.pending U i).typesCache from hw, hpend]
      simp
    · by_cases hkq : k = U.qualName i
      · subst hkq
        right
        refine ⟨h, ⟨i, rfl⟩, Or.inr ⟨v, ?_⟩⟩
        rw [List.cons_append, Cache.writesTo_cons, if_pos rfl, Cache.writesTo_append, hnone]
        simp [Cache.writesTo]
      · have hq : ¬ U.qualName i = k := fun hh => hkq hh.symm
        have hw' : Cache.writesTo ((U.qualName i, v) :: w ++ [(U.qualName i, true)]) k
            = Cache.writesTo w k := by
          rw [List.cons_append, Cache.writesTo_cons, if_neg hq, Cache.writesTo_append,
            Cache.writesTo_cons, if_neg hq]
          simp [Cache.writesTo]
        rw [hw']
        rcases hk k with h0 | ⟨_, h2, h3⟩
        · exact Or.inl h0
        · have hne : Cache.writesTo w k ≠ [] := by
            rcases h3 with ⟨_, h4⟩ | ⟨v', h4⟩ <;> rw [h4] <;> simp
          exact Or.inr ⟨hkey k hkq hne, h2, h3⟩
  | fault m =>
    refine ⟨w ++ [(U.qualName i, true)], ?_, fun k => ?_⟩
    · show s.typesCache = _
      rw [show s.typesCache = w ++ (st.pending U i).typesCache from hw, hpend]
      simp
    · by_cases hkq : k = U.qualName i
      · subst hkq
        right
        refine ⟨h, ⟨i, rfl⟩, Or.inl ⟨rfl, ?_⟩⟩
        rw [Cache.writesTo_append, hnone]
        simp [Cache.writesTo]
      · have hq : ¬ U.qualName i = k := fun hh => hkq hh.symm
        have hw' : Cache.writesTo (w ++ [(U.qualName i, true)]) k = Cache.writesTo w k := by
          rw [Cache.writesTo_append, Cache.writesTo_cons, if_neg hq]
          simp [Cache.writesTo]
        rw [hw']
        rcases hk k with h0 | ⟨_, h2, h3⟩
        · exact Or.inl h0
        · have hne : Cache.writesTo w k ≠ [] := by
            rcases h3 with ⟨_, h4⟩ | ⟨v', h4⟩ <;> rw [h4] <;> simp
          exact Or.inr ⟨hkey k hkq hne, h2, h3⟩
  | outOfFuel =>
    refine ⟨w ++ [(U.qualName i, true)], ?_, fun k => ?_⟩
    · show s.typesCache = _
      rw [show s.typesCache = w ++ (st.pending U i).typesCache from hw, hpend]
      simp
    · by_cases hkq : k = U.qualName i
      · subst hkq
        right
        refine ⟨h, ⟨i, rfl⟩, Or.inl ⟨rfl, ?_⟩⟩
        rw [Cache.writesTo_append, hnone]
        simp [Cache.writesTo]
      · have hq : ¬ U.qualName i = k := fun hh => hkq hh.symm
        have hw' : Cache.writesTo (w ++ [(U.qualName i, true)]) k = Cache.writesTo w k := by
          rw [Cache.writesTo_append, Cache.writesTo_cons, if_neg hq]
          simp [Cache.writesTo]
        rw [hw']
        rcases hk k with h0 | ⟨_, h2, h3⟩
        · exact Or.inl h0
        · have hne : Cache.writesTo w k ≠ [] := by
            rcases h3 with ⟨_, h4⟩ | ⟨v', h4⟩ <;> rw [h4] <;> simp
          exact Or.inr ⟨hkey k hkq hne, h2, h3⟩

theorem isImmTypeFuel_logged (U : Universe) :
    ∀ fuel st t, Cache.Logged U (isImmTypeFuel U fuel st t).1.isOk st.typesCache
      (isImmTypeFuel U fuel st t).2.typesCache := by
  intro fuel
  induction fuel with
  | zero => intro st t; exact Cache.Logged.logRefl U _ _
  | succ fuel ih =>
    intro st t
    rcases isImmTypeFuel_cases U fuel st t with
      ⟨v, _, h⟩ | ⟨_, _, h⟩ | ⟨i, rfl, hf, h⟩ | ⟨fs, rfl, _, h⟩
    · rw [h]; exact Cache.Logged.logRefl U _ _
    · rw [h, leafAnswer_cache]; exact Cache.Logged.logRefl U _ _
    · rw [h]; exact namedResult_logged U st i _ hf (ih _ _)
    · rw [h]
      exact fieldLoop_rel (fun b s s' => Cache.Logged U b s.typesCache s'.typesCache)
        (fun s => Cache.Logged.logRefl U _ _)
        (fun b s₁ s₂ s₃ => Cache.Logged.logTrans U b _ _ _)
        _ fs (fun st' f _ => ih st' f.2) st

theorem Cache.find_of_writesTo_cons (w c : Cache) (k : String) (v : Bool) (vs : List Bool)
    (hw : Cache.writesTo w k = v :: vs) : Cache.find (w ++ c) k = some v := by
  induction w with
  | nil => simp [Cache.writesTo] at hw
  | cons e w ih =>
    obtain ⟨k', v'⟩ := e
    rw [Cache.writesTo_cons] at hw
    simp only [List.cons_append, Cache.find]
    by_cases hk : k' = k
    · simp only [hk, if_true] at hw ⊢
      simp only [List.cons.injEq] at hw
      rw [hw.1]
    · simp only [hk, if_false] at hw ⊢
      exact ih hw

/-- **C3.** A memoised verdict never changes within a run.  For every type `t`
and every state of the package-level variables, each key that has an entry in
`typesCache` before the call `isImmType(t)` maps to the same verdict after the
call.  The assignments the call makes to the cache (the entries `w` in front
of the cache it started from) go only to keys that had no entry and that are
the qualified name of a named type; each such key is assigned `true` first
and then at most once more, and when the call returns a verdict it was
assigned exactly twice: `true`, then the value `v` it maps to afterwards. -/
theorem isImmType_memo_write_once (U : Universe) (st : State) (t : Ty) :
    (∀ k v, st.typesCache.find k = some v →
      (isImmType U st t).2.typesCache.find k = some v) ∧
    ∃ w : Cache, (isImmType U st t).2.typesCache = w ++ st.typesCache ∧
      ∀ k, w.writesTo k = [] ∨
        (st.typesCache.find k = none ∧ (∃ i, k = U.qualName i) ∧
          (((isImmType U st t).1.isOk = false ∧ w.writesTo k = [true]) ∨
            ∃ v, w.writesTo k = [v, true] ∧
              (isImmType U st t).2.typesCache.find k = some v)) := by
  refine ⟨isImmTypeFuel_extends U _ st t, ?_⟩
  obtain ⟨w, hw, hk⟩ := isImmTypeFuel_logged U (fuelFor U st t) st t
  refine ⟨w, hw, fun k => ?_⟩
  rcases hk k with h0 | ⟨h1, h2, h3⟩
  · exact Or.inl h0
  · refine Or.inr ⟨h1, h2, ?_⟩
    rcases h3 with h4 | ⟨v, h4⟩
    · exact Or.inl h4
    · refine Or.inr ⟨v, h4, ?_⟩
      show Cache.find (isImmTypeFuel U (fuelFor U st t) st t).2.typesCache k = some v
      rw [hw]
      exact Cache.find_of_writesTo_cons w _ k v _ h4

/-! ### The `String()` of a type that is not named is no qualified name -/

theorem BasicKind.mem_all (k : BasicKind) : k ∈ BasicKind.all := by
  cases k <;> simp [BasicKind.all]

theorem goodName_basic (k : BasicKind) : goodName k.name = false := by
  have h : (BasicKind.all.all fun b => b.name != k.name) = false := by
    rw [List.all_eq_false]
    exact ⟨k, BasicKind.mem_all k, by simp⟩
  simp [goodName, h]

theorem typeString_not_goodName (U : Universe) (t : Ty) (h : ∀ i, t ≠ .named i) :
    goodName (typeString U t) = false := by
  cases t with
  | named i => exact absurd rfl (h i)
  | basic k => exact goodName_basic k
  | _ => simp [typeString, goodName, plainName, String.data_append, isCompositeChar]

theorem Universe.goodName_qualName (U : Universe) (hU : U.goodNames = true) (i : Nat) :
    goodName (U.qualName i) = true := by
  unfold Universe.qualName
  cases hg : U.decls.get? i with
  | none => decide
  | some d => exact List.all_eq_true.mp hU d (List.get?_mem hg)

theorem typeString_ne_qualName (U : Universe) (hU : U.goodNames = true) (t : Ty)
    (h : ∀ i, t ≠ .named i) (j : Nat) : typeString U t ≠ U.qualName j := by
  intro heq
  have h1 := typeString_not_goodName U t h
  rw [heq, U.goodName_qualName hU j] at h1
  cases h1

theorem Ty.not_named_of_isLeaf (t : Ty) (h : t.isLeaf = true) : ∀ i, t ≠ .named i := by
  intro i hi
  subst hi
  simp [Ty.isLeaf] at h

/-! ### Idempotence -/

theorem State.Le.leRefl (s : State) : State.Le s s :=
  ⟨Cache.Extends.extRefl _, fun _ h => h⟩

theorem State.Le.leTrans {a b c : State} (h₁ : State.Le a b) (h₂ : State.Le b c) :
    State.Le a c :=
  ⟨h₁.1.extTrans h₂.1, fun _ h => h₂.2 (h₁.2 h)⟩

theorem State.AgreeOff.agRefl (U : Universe) (s : State) : State.AgreeOff U s s :=
  fun _ _ => rfl

theorem State.AgreeOff.agTrans {U : Universe} {a b c : State}
    (h₁ : State.AgreeOff U a b) (h₂ : State.AgreeOff U b c) : State.AgreeOff U a c :=
  fun k hk => (h₂ k hk).trans (h₁ k hk)

theorem subset_setInsert (s : List Nat) (k : Nat) : s ⊆ setInsert s k := by
  intro x hx
  unfold setInsert
  split
  · exact hx
  · exact List.mem_append_left _ hx

theorem mem_setInsert (s : List Nat) (k : Nat) : k ∈ setInsert s k := by
  unfold setInsert
  split
  · assumption
  · simp

theorem setInsert_of_mem (s : List Nat) (k : Nat) (h : k ∈ s) : setInsert s k = s := by
  simp [setInsert, h]

theorem leafAnswer_ifaces (U : Universe) (st : State) (t : Ty) :
    st.ifaces ⊆ (leafAnswer U st t).2.ifaces := by
  cases t <;> first | exact subset_setInsert _ _ | exact fun _ h => h

theorem namedResult_ifaces (U : Universe) (i : Nat) (r : Res Bool × State) :
    (namedResult U i r).2.ifaces = r.2.ifaces := by
  rcases r with ⟨r, s⟩
  cases r <;> rfl

theorem isImmTypeFuel_ifaces (U : Universe) :
    ∀ fuel st t, st.ifaces ⊆ (isImmTypeFuel U fuel st t).2.ifaces := by
  intro fuel
  induction fuel with
  | zero => intro st t; exact fun _ h => h
  | succ fuel ih =>
    intro st t
    rcases isImmTypeFuel_cases U fuel st t with
      ⟨v, _, h⟩ | ⟨_, _, h⟩ | ⟨i, rfl, hf, h⟩ | ⟨fs, rfl, _, h⟩
    · rw [h]; exact fun _ h => h
    · rw [h]; exact leafAnswer_ifaces U st t
    · rw [h, namedResult_ifaces]
      exact fun x hx => ih (st.pending U i) _ hx
    · rw [h]
      exact fieldLoop_rel (fun _ s s' => s.ifaces ⊆ s'.ifaces)
        (fun s => fun _ h => h)
        (fun b s₁ s₂ s₃ h₁ h₂ => fun _ h => h₂ (h₁ h))
        _ fs (fun st' f _ => ih st' f.2) st

theorem isImmTypeFuel_le_state (U : Universe) (fuel : Nat) (st : State) (t : Ty) :
    State.Le st (isImmTypeFuel U fuel st t).2 :=
  ⟨isImmTypeFuel_extends U fuel st t, isImmTypeFuel_ifaces U fuel st t⟩

theorem isImmTypeFuel_agreeOff (U : Universe) (fuel : Nat) (st : State) (t : Ty) :
    State.AgreeOff U st (isImmTypeFuel U fuel st t).2 := by
  intro k hk
  obtain ⟨w, hw, hlog⟩ := isImmTypeFuel_logged U fuel st t
  rw [hw]
  rcases hlog k with h0 | ⟨_, ⟨i, hi⟩, _⟩
  · exact Cache.find_eq_none_of_writesTo w _ k h0
  · exact absurd hi (hk i)

theorem fieldLoop_le_state (classify : State → Ty → Res Bool × State)
    (fs : List (String × Ty))
    (h : ∀ (st : State) (f : String × Ty), State.Le st (classify st f.2).2) :
    ∀ st, State.Le st (fieldLoop classify st fs).2 :=
  fieldLoop_rel (fun _ s s' => State.Le s s') State.Le.leRefl
    (fun _ _ _ _ h₁ h₂ => h₁.leTrans h₂) classify fs (fun st f _ => h st f)

theorem fieldLoop_agreeOff (U : Universe) (classify : State → Ty → Res Bool × State)
    (fs : List (String × Ty))
    (h : ∀ (st : State) (f : String × Ty), State.AgreeOff U st (classify st f.2).2) :
    ∀ st, State.AgreeOff U st (fieldLoop classify st fs).2 :=
  fieldLoop_rel (fun _ s s' => State.AgreeOff U s s') (State.AgreeOff.agRefl U)
    (fun _ _ _ _ h₁ h₂ => h₁.agTrans h₂) classify fs (fun st f _ => h st f)

/-- The field loop gives `true` again, without a change, from any later state. -/
theorem fieldLoop_stable_true (U : Universe) (classify : State → Ty → Res Bool × State)
    (hle : ∀ (st : State) (f : String × Ty), State.Le st (classify st f.2).2)
    (hag : ∀ (st : State) (f : String × Ty), State.AgreeOff U st (classify st f.2).2)
    (fs : List (String × Ty))
    (hc : ∀ (f : String × Ty), f ∈ fs → ∀ st st₁, classify st f.2 = (.ok true, st₁) →
      ∀ st₂, State.Le st₁ st₂ → State.AgreeOff U st st₂ →
        classify st₂ f.2 = (.ok true, st₂)) :
    ∀ st st₁, fieldLoop classify st fs = (.ok true, st₁) →
      ∀ st₂, State.Le st₁ st₂ → State.AgreeOff U st st₂ →
        fieldLoop classify st₂ fs = (.ok true, st₂) := by
  induction fs with
  | nil => intro st st₁ _ st₂ _ _; rfl
  | cons f fs ih =>
    intro st st₁ hrun st₂ hle₂ hag₂
    rw [fieldLoop_cons] at hrun
    by_cases hok : (classify st f.2).1 = .ok true
    · rw [if_pos hok] at hrun
      have hcf : classify st f.2 = (.ok true, (classify st f.2).2) := by
        rw [← hok]
      have hrest : State.Le (classify st f.2).2 st₁ := by
        have := fieldLoop_le_state classify fs hle (classify st f.2).2
        rw [hrun] at this
        exact this
      have h2 := hc f (List.mem_cons_self _ _) st _ hcf st₂ (hrest.leTrans hle₂) hag₂
      rw [fieldLoop_cons, h2]
      simp only [if_true]
      refine ih (fun g hg => hc g (List.mem_cons_of_mem _ hg)) _ st₁ hrun st₂ hle₂ ?_
      intro k hk
      rw [hag₂ k hk, hag st f k hk]
    · rw [if_neg hok] at hrun
      rw [hrun] at hok
      exact absurd rfl hok

theorem isImmTypeFuel_stable_true (U : Universe) (hU : U.goodNames = true) :
    ∀ fuel st t st₁, isImmTypeFuel U fuel st t = (.ok true, st₁) →
      ∀ st₂, State.Le st₁ st₂ → State.AgreeOff U st st₂ →
        isImmTypeFuel U fuel st₂ t = (.ok true, st₂) := by
  intro fuel
  induction fuel with
  | zero => intro st t st₁ h; simp [isImmTypeFuel] at h
  | succ fuel ih =>
    intro st t st₁ hrun st₂ hle hag
    rcases isImmTypeFuel_cases U fuel st t with
      ⟨v, hf, h⟩ | ⟨hf, hl, h⟩ | ⟨i, rfl, hf, h⟩ | ⟨fs, rfl, hf, h⟩
    · rw [h] at hrun
      simp only [Prod.mk.injEq, Res.ok.injEq] at hrun
      obtain ⟨rfl, rfl⟩ := hrun
      exact isImmTypeFuel_hit U fuel st₂ t true (hle.1 _ _ hf)
    · rw [h] at hrun
      have hkey : st₂.typesCache.find (typeString U t) = none := by
        rw [hag _ (fun i => typeString_ne_qualName U hU t (Ty.not_named_of_isLeaf t hl) i), hf]
      rw [isImmTypeFuel_leaf U fuel st₂ t hl hkey]
      cases t with
      | interface id ms =>
        simp only [leafAnswer, Prod.mk.injEq, true_and] at hrun ⊢
        have hmem : id ∈ st₂.ifaces := by
          apply hle.2
          rw [← hrun]
          exact mem_setInsert _ _
        rw [setInsert_of_mem _ _ hmem]
      | _ => simp_all [leafAnswer, Ty.isLeaf]
    · rw [h] at hrun
      have hfind : st₁.typesCache.find (U.qualName i) = some true := by
        rcases hr : isImmTypeFuel U fuel (st.pending U i) (U.underlying i) with ⟨r, s⟩
        rw [hr] at hrun
        cases r with
        | ok v =>
          rw [namedResult_ok] at hrun
          simp only [Prod.mk.injEq, Res.ok.injEq] at hrun
          obtain ⟨rfl, rfl⟩ := hrun
          show (s.typesCache.store (U.qualName i) true).find _ = _
          rw [Cache.find_store]; simp
        | fault m => simp [namedResult] at hrun
        | outOfFuel => simp [namedResult] at hrun
      exact isImmTypeFuel_hit U fuel st₂ (.named i) true (hle.1 _ _ hfind)
    · rw [h] at hrun
      have hkey : st₂.typesCache.find (typeString U (.struct fs)) = none := by
        rw [hag _ (fun i => typeString_ne_qualName U hU _ (fun j hj => by cases hj) i), hf]
      rw [isImmTypeFuel_struct U fuel st₂ fs hkey]
      exact fieldLoop_stable_true U _ (fun s f => isImmTypeFuel_le_state U fuel s f.2)
        (fun s f => isImmTypeFuel_agreeOff U fuel s f.2) fs
        (fun f _ s s₁ hs s₂ h₁ h₂ => ih s f.2 s₁ hs s₂ h₁ h₂) st st₁ hrun st₂ hle hag

theorem fieldLoop_idem_false (U : Universe) (classify : State → Ty → Res Bool × State)
    (hle : ∀ (st : State) (f : String × Ty), State.Le st (classify st f.2).2)
    (hag : ∀ (st : State) (f : String × Ty), State.AgreeOff U st (classify st f.2).2)
    (fs : List (String × Ty))
    (ht : ∀ (f : String × Ty), f ∈ fs → ∀ st st₁, classify st f.2 = (.ok true, st₁) →
      ∀ st₂, State.Le st₁ st₂ → State.AgreeOff U st st₂ →
        classify st₂ f.2 = (.ok true, st₂))
    (hf : ∀ (f : String × Ty), f ∈ fs → ∀ st st₁, classify st f.2 = (.ok false, st₁) →
      classify st₁ f.2 = (.ok false, st₁)) :
    ∀ st st₁, fieldLoop classify st fs = (.ok false, st₁) →
      fieldLoop classify st₁ fs = (.ok false, st₁) := by
  induction fs with
  | nil => intro st st₁ h; simp [fieldLoop] at h
  | cons f fs ih =>
    intro st st₁ hrun
    rw [fieldLoop_cons] at hrun
    by_cases hok : (classify st f.2).1 = .ok true
    · rw [if_pos hok] at hrun
      have hcf : classify st f.2 = (.ok true, (classify st f.2).2) := by
        rw [← hok]
      have hrest : State.Le (classify st f.2).2 st₁ := by
        have := fieldLoop_le_state classify fs hle (classify st f.2).2
        rw [hrun] at this
        exact this
      have hrag : State.AgreeOff U (classify st f.2).2 st₁ := by
        have := fieldLoop_agreeOff U classify fs hag (classify st f.2).2
        rw [hrun] at this
        exact this
      have h2 := ht f (List.mem_cons_self _ _) st _ hcf st₁ hrest ((hag st f).agTrans hrag)
      rw [fieldLoop_cons, h2]
      simp only [if_true]
      exact ih (fun g hg => ht g (List.mem_cons_of_mem _ hg))
        (fun g hg => hf g (List.mem_cons_of_mem _ hg)) _ st₁ hrun
    · rw [if_neg hok] at hrun
      have h2 := hf f (List.mem_cons_self _ _) st st₁ hrun
      rw [fieldLoop_cons, h2]
      simp

theorem isImmTypeFuel_idem_false (U : Universe) (hU : U.goodNames = true) :
    ∀ fuel st t st₁, isImmTypeFuel U fuel st t = (.ok false, st₁) →
      isImmTypeFuel U fuel st₁ t = (.ok false, st₁) := by
  intro fuel
  induction fuel with
  | zero => intro st t st₁ h; simp [isImmTypeFuel] at h
  | succ fuel ih =>
    intro st t st₁ hrun
    rcases isImmTypeFuel_cases U fuel st t with
      ⟨v, hf, h⟩ | ⟨hf, hl, h⟩ | ⟨i, rfl, hf, h⟩ | ⟨fs, rfl, hf, h⟩
    · rw [h] at hrun
      simp only [Prod.mk.injEq, Res.ok.injEq] at hrun
      obtain ⟨rfl, rfl⟩ := hrun
      exact h
    · have hst : st₁ = st := by
        rw [h] at hrun
        cases t <;> simp_all [leafAnswer, Ty.isLeaf]
      rw [hst]
      rw [hst] at hrun
      exact hrun
    · rw [h] at hrun
      have hfind : st₁.typesCache.find (U.qualName i) = some false := by
        rcases hr : isImmTypeFuel U fuel (st.pending U i) (U.underlying i) with ⟨r, s⟩
        rw [hr] at hrun
        cases r with
        | ok v =>
          rw [namedResult_ok] at hrun
          simp only [Prod.mk.injEq, Res.ok.injEq] at hrun
          obtain ⟨rfl, rfl⟩ := hrun
          show (s.typesCache.store (U.qualName i) false).find _ = _
          rw [Cache.find_store]; simp
        | fault m => simp [namedResult] at hrun
        | outOfFuel => simp [namedResult] at hrun
      exact isImmTypeFuel_hit U fuel st₁ (.named i) false hfind
    · have hag : State.AgreeOff U st st₁ := by
        have := isImmTypeFuel_agreeOff U (fuel + 1) st (.struct fs)
        rw [hrun] at this
        exact this
      rw [h] at hrun
      have hkey : st₁.typesCache.find (typeString U (.struct fs)) = none := by
        rw [hag _ (fun i => typeString_ne_qualName U hU _ (fun j hj => by cases hj) i), hf]
      rw [isImmTypeFuel_struct U fuel st₁ fs hkey]
      exact fieldLoop_idem_false U _ (fun s f => isImmTypeFuel_le_state U fuel s f.2)
        (fun s f => isImmTypeFuel_agreeOff U fuel s f.2) fs
        (fun f _ s s₁ hs s₂ h₁ h₂ =>
          isImmTypeFuel_stable_true U hU fuel s f.2 s₁ hs s₂ h₁ h₂)
        (fun f _ s s₁ hs => ih s f.2 s₁ hs) st st₁ hrun

theorem isImmTypeFuel_idem (U : Universe) (hU : U.goodNames = true) (fuel : Nat)
    (st : State) (t : Ty) (v : Bool) (st₁ : State)
    (h : isImmTypeFuel U fuel st t = (.ok v, st₁)) :
    isImmTypeFuel U fuel st₁ t = (.ok v, st₁) := by
  cases v with
  | false => exact isImmTypeFuel_idem_false U hU fuel st t st₁ h
  | true =>
    refine isImmTypeFuel_stable_true U hU fuel st t st₁ h st₁ (State.Le.leRefl _) ?_
    have := isImmTypeFuel_agreeOff U fuel st t
    rw [h] at this
    exact this

/-- **C4.** Idempotence of the classifier.  With a declaration table whose
names can be qualified type names (so that only a named type prints as one),
for every type `t` and every state `c` of the package-level variables: if
`isImmType(t)` run from `c` returns the verdict `v` and leaves the state `c'`,
then `isImmType(t)` run again from `c'` returns `v` and leaves `c'` unchanged. -/
theorem isImmType_idempotent (U : Universe) (hU : U.goodNames = true)
    (st : State) (t : Ty) (v : Bool) (st' : State)
    (h : isImmType U st t = (.ok v, st')) :
    isImmType U st' t = (.ok v, st') := by
  have h1 := isImmTypeFuel_idem U hU (fuelFor U st t) st t v st' h
  rw [← isImmTypeFuel_eq_isImmType U (fuelFor U st t) st' t (by rw [h1]; simp), h1]

/-- Witness of **C4**: the list node is classified `false` from the pre-seeded
cache, and again `false`, without a change, from the state that call left. -/
theorem isImmType_idempotent_witness :
    isImmType listNode (isImmType listNode State.init (.named 0)).2 (.named 0)
      = (.ok false, (isImmType listNode State.init (.named 0)).2) :=
  isImmType_idempotent listNode (by decide) State.init (.named 0) false _ (by decide)

/-! ### The structural verdict -/

theorem fieldVerdict_cons (c : Ty → Res Bool) (f : String × Ty) (fs : List (String × Ty)) :
    fieldVerdict c (f :: fs) = if c f.2 = .ok true then fieldVerdict c fs else c f.2 := by
  rw [fieldVerdict]
  rcases h : c f.2 with b | m | _
  · cases b <;> simp
  · simp
  · simp

theorem fieldVerdict_congr (c₁ c₂ : Ty → Res Bool) (fs : List (String × Ty))
    (h : ∀ (f : String × Ty), f ∈ fs → c₁ f.2 ≠ .outOfFuel → c₂ f.2 = c₁ f.2) :
    fieldVerdict c₁ fs ≠ .outOfFuel → fieldVerdict c₂ fs = fieldVerdict c₁ fs := by
  induction fs with
  | nil => intro _; rfl
  | cons f fs ih =>
    intro hne
    rw [fieldVerdict_cons] at hne ⊢
    rw [fieldVerdict_cons]
    by_cases hok : c₁ f.2 = .ok true
    · have h2 : c₂ f.2 = c₁ f.2 := h f (List.mem_cons_self _ _) (by rw [hok]; simp)
      rw [if_pos hok] at hne ⊢
      rw [h2, if_pos hok]
      exact ih (fun g hg => h g (List.mem_cons_of_mem _ hg)) hne
    · rw [if_neg hok] at hne ⊢
      have h2 : c₂ f.2 = c₁ f.2 := h f (List.mem_cons_self _ _) hne
      rw [h2, if_neg hok]

theorem pureVerdict_succ_eq (U : Universe) (n : Nat) (t : Ty) :
    pureVerdict U (n + 1) t =
      match typesCache.find (typeString U t) with
      | some v => .ok v
      | none =>
        match t with
        | .named i => pureVerdict U n (U.underlying i)
        | .struct fs => fieldVerdict (pureVerdict U n) fs
        | t => (leafAnswer U State.init t).1 := rfl

theorem pureVerdict_seeded (U : Universe) (n : Nat) (t : Ty) (v : Bool)
    (h : typesCache.find (typeString U t) = some v) : pureVerdict U (n + 1) t = .ok v := by
  rw [pureVerdict_succ_eq, h]

theorem pureVerdict_named (U : Universe) (n : Nat) (i : Nat)
    (h : typesCache.find (U.qualName i) = none) :
    pureVerdict U (n + 1) (.named i) = pureVerdict U n (U.underlying i) := by
  rw [pureVerdict_succ_eq]
  simp only [typeString, h]

theorem pureVerdict_struct (U : Universe) (n : Nat) (fs : List (String × Ty))
    (h : typesCache.find (typeString U (.struct fs)) = none) :
    pureVerdict U (n + 1) (.struct fs) = fieldVerdict (pureVerdict U n) fs := by
  rw [pureVerdict_succ_eq, h]

theorem pureVerdict_leaf (U : Universe) (n : Nat) (t : Ty) (hl : t.isLeaf = true)
    (h : typesCache.find (typeString U t) = none) :
    pureVerdict U (n + 1) t = (leafAnswer U State.init t).1 := by
  rw [pureVerdict_succ_eq, h]
  cases t <;> simp_all [Ty.isLeaf]

theorem leafAnswer_fst (U : Universe) (st st' : State) (t : Ty) :
    (leafAnswer U st t).1 = (leafAnswer U st' t).1 := by
  cases t <;> rfl

theorem pureVerdict_succ (U : Universe) :
    ∀ n t, pureVerdict U n t ≠ .outOfFuel → pureVerdict U (n + 1) t = pureVerdict U n t := by
  intro n
  induction n with
  | zero => intro t h; exact absurd rfl h
  | succ n ih =>
    intro t hne
    cases hs : typesCache.find (typeString U t) with
    | some v => rw [pureVerdict_seeded U _ t v hs, pureVerdict_seeded U _ t v hs]
    | none =>
      by_cases hl : t.isLeaf = true
      · rw [pureVerdict_leaf U _ t hl hs, pureVerdict_leaf U _ t hl hs]
      · cases t with
        | named i =>
          rw [pureVerdict_named U _ i hs] at hne ⊢
          rw [pureVerdict_named U _ i hs]
          exact ih _ hne
        | struct fs =>
          rw [pureVerdict_struct U _ fs hs] at hne ⊢
          rw [pureVerdict_struct U _ fs hs]
          exact fieldVerdict_congr _ _ fs (fun f _ hf => ih f.2 hf) hne
        | _ => simp [Ty.isLeaf] at hl

theorem pureVerdict_le (U : Universe) (n m : Nat) (t : Ty)
    (h : pureVerdict U n t ≠ .outOfFuel) (hle : n ≤ m) :
    pureVerdict U m t = pureVerdict U n t := by
  obtain ⟨k, rfl⟩ := Nat.exists_eq_add_of_le hle
  induction k with
  | zero => rfl
  | succ k ih =>
    rw [← Nat.add_assoc, pureVerdict_succ U (n + k) t (by rw [ih (Nat.le_add_right _ _)]; exact h),
      ih (Nat.le_add_right _ _)]

theorem PureV.unique {U : Universe} {t : Ty} {o₁ o₂ : Res Bool}
    (h₁ : PureV U t o₁) (h₂ : PureV U t o₂) : o₁ = o₂ := by
  obtain ⟨n₁, e₁, ne₁⟩ := h₁
  obtain ⟨n₂, e₂, ne₂⟩ := h₂
  have a := pureVerdict_le U n₁ (max n₁ n₂) t (by rw [e₁]; exact ne₁) (le_max_left _ _)
  have b := pureVerdict_le U n₂ (max n₁ n₂) t (by rw [e₂]; exact ne₂) (le_max_right _ _)
  rw [← e₁, ← e₂, ← a, ← b]

theorem PureV.seeded (U : Universe) (t : Ty) (v : Bool)
    (h : typesCache.find (typeString U t) = some v) : PureV U t (.ok v) :=
  ⟨1, pureVerdict_seeded U 0 t v h, by simp⟩

theorem PureV.leaf (U : Universe) (st : State) (t : Ty) (hl : t.isLeaf = true)
    (h : typesCache.find (typeString U t) = none) : PureV U t (leafAnswer U st t).1 :=
  ⟨1, by rw [pureVerdict_leaf U 0 t hl h]; exact leafAnswer_fst U _ _ t,
    leafAnswer_ne_outOfFuel U st t⟩

theorem PureV.named (U : Universe) (i : Nat) (o : Res Bool)
    (h : typesCache.find (U.qualName i) = none) (hu : PureV U (U.underlying i) o) :
    PureV U (.named i) o := by
  obtain ⟨n, e, ne⟩ := hu
  exact ⟨n + 1, by rw [pureVerdict_named U n i h]; exact e, ne⟩

theorem PureV.of_named (U : Universe) (i : Nat) (o : Res Bool)
    (h : typesCache.find (U.qualName i) = none) (hn : PureV U (.named i) o) :
    PureV U (U.underlying i) o := by
  obtain ⟨n, e, ne⟩ := hn
  cases n with
  | zero => exact absurd e.symm ne
  | succ n => exact ⟨n, by rw [← pureVerdict_named U n i h]; exact e, ne⟩

theorem PureV.struct (U : Universe) (fs : List (String × Ty)) (o : Res Bool)
    (h : typesCache.find (typeString U (.struct fs)) = none) (hf : PureFields U fs o) :
    PureV U (.struct fs) o := by
  obtain ⟨n, e, ne⟩ := hf
  exact ⟨n + 1, by rw [pureVerdict_struct U n fs h]; exact e, ne⟩

theorem PureV.of_struct (U : Universe) (fs : List (String × Ty)) (o : Res Bool)
    (h : typesCache.find (typeString U (.struct fs)) = none) (hs : PureV U (.struct fs) o) :
    PureFields U fs o := by
  obtain ⟨n, e, ne⟩ := hs
  cases n with
  | zero => exact absurd e.symm ne
  | succ n => exact ⟨n, by rw [← pureVerdict_struct U n fs h]; exact e, ne⟩

theorem PureFields.nil (U : Universe) : PureFields U [] (.ok true) :=
  ⟨0, rfl, by simp⟩

theorem PureFields.consStop (U : Universe) (f : String × Ty) (fs : List (String × Ty))
    (o : Res Bool) (hf : PureV U f.2 o) (ho : o ≠ .ok true) : PureFields U (f :: fs) o := by
  obtain ⟨n, e, ne⟩ := hf
  refine ⟨n, ?_, ne⟩
  rw [fieldVerdict_cons, e, if_neg ho]

theorem PureFields.consTrue (U : Universe) (f : String × Ty) (fs : List (String × Ty))
    (o : Res Bool) (hf : PureV U f.2 (.ok true)) (hfs : PureFields U fs o) :
    PureFields U (f :: fs) o := by
  obtain ⟨n, e, _⟩ := hf
  obtain ⟨m, e', ne'⟩ := hfs
  refine ⟨max n m, ?_, ne'⟩
  have h1 : pureVerdict U (max n m) f.2 = .ok true := by
    rw [pureVerdict_le U n _ f.2 (by rw [e]; simp) (le_max_left _ _), e]
  have h2 : fieldVerdict (pureVerdict U (max n m)) fs = fieldVerdict (pureVerdict U m) fs :=
    fieldVerdict_congr _ _ fs
      (fun g _ hg => pureVerdict_le U m _ g.2 hg (le_max_right _ _)) (by rw [e']; exact ne')
  rw [fieldVerdict_cons, h1, if_pos rfl, h2, e']

/-! ### Names and ranks -/

theorem Universe.qualName_of_lt (U : Universe) (i : Nat) (hi : i < U.decls.length) :
    U.qualName i = (U.decls.map Decl.qualName).get ⟨i, by simpa using hi⟩ := by
  unfold Universe.qualName
  rw [List.get?_eq_get hi]
  simp

theorem Universe.qualName_of_ge (U : Universe) (i : Nat) (hi : U.decls.length ≤ i) :
    U.qualName i = "" := by
  unfold Universe.qualName
  rw [List.get?_eq_none.mpr hi]

theorem Universe.underlying_of_ge (U : Universe) (i : Nat) (hi : U.decls.length ≤ i) :
    U.underlying i = .basic .invalid := by
  unfold Universe.underlying
  rw [List.get?_eq_none.mpr hi]

theorem Universe.qualName_inj (U : Universe) (hd : U.distinctNames = true) (i j : Nat)
    (h : U.qualName i = U.qualName j) :
    i = j ∨ (U.decls.length ≤ i ∧ U.decls.length ≤ j) := by
  simp only [Universe.distinctNames, Bool.and_eq_true, decide_eq_true_eq] at hd
  obtain ⟨hnd, hne⟩ := hd
  by_cases hi : i < U.decls.length
  · by_cases hj : j < U.decls.length
    · left
      rw [U.qualName_of_lt i hi, U.qualName_of_lt j hj] at h
      have := (List.nodup_iff_injective_get.mp hnd) h
      simpa using congrArg Fin.val this
    · exfalso
      rw [U.qualName_of_ge j (Nat.le_of_not_lt hj), U.qualName_of_lt i hi] at h
      apply hne
      rw [← h]
      exact List.get_mem _ _ _
  · by_cases hj : j < U.decls.length
    · exfalso
      rw [U.qualName_of_ge i (Nat.le_of_not_lt hi), U.qualName_of_lt j hj] at h
      apply hne
      rw [h]
      exact List.get_mem _ _ _
    · exact Or.inr ⟨Nat.le_of_not_lt hi, Nat.le_of_not_lt hj⟩

theorem Universe.underlying_eq_of_qualName_eq (U : Universe) (hd : U.distinctNames = true)
    (i j : Nat) (h : U.qualName i = U.qualName j) : U.underlying i = U.underlying j := by
  rcases U.qualName_inj hd i j h with rfl | ⟨hi, hj⟩
  · rfl
  · rw [U.underlying_of_ge i hi, U.underlying_of_ge j hj]

theorem Universe.rank_underlying_le (U : Universe) (rk : Nat → Nat)
    (ha : U.acyclic rk = true) (i : Nat) : (U.underlying i).rank rk ≤ rk i := by
  by_cases hi : i < U.decls.length
  · have := List.all_eq_true.mp ha i (List.mem_range.mpr hi)
    simpa using this
  · rw [U.underlying_of_ge i (Nat.le_of_not_lt hi)]
    simp [Ty.rank]

theorem Universe.rank_underlying_le_of_qualName_eq (U : Universe) (rk : Nat → Nat)
    (hd : U.distinctNames = true) (ha : U.acyclic rk = true) (i j : Nat)
    (h : U.qualName j = U.qualName i) : (U.underlying i).rank rk ≤ rk j := by
  rw [← U.underlying_eq_of_qualName_eq hd j i h]
  exact U.rank_underlying_le rk ha j

theorem named_of_typeString_eq (U : Universe) (hg : U.goodNames = true) (t : Ty) (i : Nat)
    (h : typeString U t = U.qualName i) : ∃ j, t = .named j ∧ U.qualName j = U.qualName i := by
  by_cases hn : ∃ j, t = .named j
  · obtain ⟨j, rfl⟩ := hn
    exact ⟨j, rfl, h⟩
  · exact absurd h (typeString_ne_qualName U hg t (fun j hj => hn ⟨j, hj⟩) i)

theorem Ty.rank_field_le (rk : Nat → Nat) (fs : List (String × Ty)) (f : String × Ty)
    (h : f ∈ fs) : f.2.rank rk ≤ (Ty.struct fs).rank rk := by
  simp only [Ty.rank]
  induction fs with
  | nil => cases h
  | cons g gs ih =>
    simp only [Ty.rank.fieldsRank]
    rcases List.mem_cons.mp h with rfl | hg
    · exact le_max_left _ _
    · exact le_trans (ih hg) (le_max_right _ _)

/-! ### The classifier computes the structural verdict -/

theorem fieldLoop_sound (U : Universe) (P : String → Prop)
    (c : State → Ty → Res Bool × State) (fs : List (String × Ty))
    (hc : ∀ (f : String × Ty), f ∈ fs → ∀ st, State.Inv U P st →
      (c st f.2).1 ≠ .outOfFuel →
        PureV U f.2 (c st f.2).1 ∧ ((c st f.2).1.isOk = true → State.Inv U P (c st f.2).2)) :
    ∀ st, State.Inv U P st → (fieldLoop c st fs).1 ≠ .outOfFuel →
      PureFields U fs (fieldLoop c st fs).1 ∧
        ((fieldLoop c st fs).1.isOk = true → State.Inv U P (fieldLoop c st fs).2) := by
  induction fs with
  | nil => intro st hinv _; exact ⟨PureFields.nil U, fun _ => hinv⟩
  | cons f fs ih =>
    intro st hinv hne
    rw [fieldLoop_cons] at hne ⊢
    by_cases hok : (c st f.2).1 = .ok true
    · rw [if_pos hok] at hne ⊢
      have h1 := hc f (List.mem_cons_self _ _) st hinv (by rw [hok]; simp)
      rw [hok] at h1
      have h2 := ih (fun g hg => hc g (List.mem_cons_of_mem _ hg)) _ (h1.2 rfl) hne
      exact ⟨PureFields.consTrue U f fs _ h1.1 h2.1, h2.2⟩
    · rw [if_neg hok] at hne ⊢
      have h1 := hc f (List.mem_cons_self _ _) st hinv hne
      exact ⟨PureFields.consStop U f fs _ h1.1 hok, h1.2⟩

theorem find_seed_none_of_inv {U : Universe} {P : String → Prop} {st : State}
    (hinv : State.Inv U P st) (k : String) (h : st.typesCache.find k = none) :
    typesCache.find k = none := by
  cases hs : typesCache.find k with
  | none => rfl
  | some v => rw [hinv.1 k v hs] at h; cases h

theorem isImmTypeFuel_sound (U : Universe) (rk : Nat → Nat) (hg : U.goodNames = true)
    (hd : U.distinctNames = true) (ha : U.acyclic rk = true) :
    ∀ fuel st t (P : String → Prop),
      (∀ t' : Ty, t'.rank rk ≤ t.rank rk → ¬ P (typeString U t')) →
      State.Inv U P st → (isImmTypeFuel U fuel st t).1 ≠ .outOfFuel →
        PureV U t (isImmTypeFuel U fuel st t).1 ∧
          ((isImmTypeFuel U fuel st t).1.isOk = true →
            State.Inv U P (isImmTypeFuel U fuel st t).2) := by
  intro fuel
  induction fuel with
  | zero => intro st t P _ _ h; exact absurd rfl h
  | succ fuel ih =>
    intro st t P hP hinv hne
    rcases isImmTypeFuel_cases U fuel st t with
      ⟨v, hf, h⟩ | ⟨hf, hl, h⟩ | ⟨i, rfl, hf, h⟩ | ⟨fs, rfl, hf, h⟩
    · rw [h]
      exact ⟨hinv.2 t v (hP t (Nat.le_refl _)) hf, fun _ => hinv⟩
    · rw [h]
      refine ⟨PureV.leaf U st t hl (find_seed_none_of_inv hinv _ hf), fun _ => ?_⟩
      exact ⟨by rw [leafAnswer_cache]; exact hinv.1, by rw [leafAnswer_cache]; exact hinv.2⟩
    · rw [h] at hne ⊢
      rw [namedResult_fst] at hne
      have hseed : typesCache.find (U.qualName i) = none := find_seed_none_of_inv hinv _ hf
      have hrk := U.rank_underlying_le rk ha i
      have hP' : ∀ t' : Ty, t'.rank rk ≤ (U.underlying i).rank rk →
          ¬ (P (typeString U t') ∨ typeString U t' = U.qualName i) := by
        intro t' hle hor
        rcases hor with hp | hk
        · refine hP t' ?_ hp
          simp only [Ty.rank] at hle ⊢
          omega
        · obtain ⟨j, rfl, hj⟩ := named_of_typeString_eq U hg t' i hk
          have := U.rank_underlying_le_of_qualName_eq rk hd ha i j hj
          simp only [Ty.rank] at hle
          omega
      have hinv' : State.Inv U (fun k => P k ∨ k = U.qualName i) (st.pending U i) := by
        refine ⟨hinv.1.extTrans (pending_extends U st i hf), ?_⟩
        intro t' v hnp hfind
        have hk : ¬ U.qualName i = typeString U t' := fun hh => hnp (Or.inr hh.symm)
        have : (st.typesCache.store (U.qualName i) true).find (typeString U t') = some v := hfind
        rw [Cache.find_store, if_neg hk] at this
        exact hinv.2 t' v (fun hp => hnp (Or.inl hp)) this
      have hih := ih (st.pending U i) (U.underlying i) _ hP' hinv' hne
      refine ⟨by rw [namedResult_fst]; exact PureV.named U i _ hseed hih.1, ?_⟩
      rcases hr : isImmTypeFuel U fuel (st.pending U i) (U.underlying i) with ⟨r, s⟩
      rw [hr] at hih
      cases r with
      | ok v =>
        intro _
        rw [namedResult_ok]
        have hs := hih.2 rfl
        refine ⟨?_, ?_⟩
        · intro k w hk
          show (s.typesCache.store (U.qualName i) v).find k = some w
          rw [Cache.find_store]
          have hne' : ¬ U.qualName i = k := by
            intro hh
            rw [← hh, hseed] at hk
            cases hk
          rw [if_neg hne']
          exact hs.1 k w hk
        · intro t' v' hnp hfind
          have hfind' : (s.typesCache.store (U.qualName i) v).find (typeString U t')
              = some v' := hfind
          rw [Cache.find_store] at hfind'
          by_cases hk : U.qualName i = typeString U t'
          · rw [if_pos hk] at hfind'
            simp only [Option.some.injEq] at hfind'
            subst hfind'
            obtain ⟨j, rfl, hj⟩ := named_of_typeString_eq U hg t' i hk.symm
            refine PureV.named U j _ (by rw [hj]; exact hseed) ?_
            rw [U.underlying_eq_of_qualName_eq hd j i hj]
            exact hih.1
          · rw [if_neg hk] at hfind'
            exact hs.2 t' v' (fun hor => hor.elim hnp (fun hh => hk hh.symm)) hfind'
      | fault m => intro hok; simp [namedResult, Res.isOk] at hok
      | outOfFuel => intro hok; simp [namedResult, Res.isOk] at hok
    · rw [h] at hne ⊢
      have hseed : typesCache.find (typeString U (.struct fs)) = none :=
        find_seed_none_of_inv hinv _ hf
      have hfl := fieldLoop_sound U P (isImmTypeFuel U fuel) fs
        (fun f hmem s hs hs' => ih s f.2 P
          (fun t' hle => hP t' (le_trans hle (Ty.rank_field_le rk fs f hmem))) hs hs')
        st hinv hne
      exact ⟨PureV.struct U fs _ hseed hfl.1, hfl.2⟩

theorem State.Inv.init (U : Universe) : State.Inv U (fun _ => False) State.init :=
  ⟨Cache.Extends.extRefl _, fun t v _ h => PureV.seeded U t v h⟩

theorem Reachable.inv (U : Universe) (rk : Nat → Nat) (hg : U.goodNames = true)
    (hd : U.distinctNames = true) (ha : U.acyclic rk = true) (st : State)
    (h : Reachable U st) : State.Inv U (fun _ => False) st := by
  induction h with
  | init => exact State.Inv.init U
  | call st t b st' _ hcall ih =>
    have := isImmTypeFuel_sound U rk hg hd ha (fuelFor U st t) st t (fun _ => False)
      (fun _ _ hf => hf) ih (isImmType_ne_outOfFuel U st t)
    unfold isImmType at hcall
    rw [hcall] at this
    exact this.2 rfl

theorem isImmType_pureV (U : Universe) (rk : Nat → Nat) (hg : U.goodNames = true)
    (hd : U.distinctNames = true) (ha : U.acyclic rk = true) (st : State)
    (h : Reachable U st) (t : Ty) : PureV U t (isImmType U st t).1 :=
  (isImmTypeFuel_sound U rk hg hd ha (fuelFor U st t) st t (fun _ => False)
    (fun _ _ hf => hf) (Reachable.inv U rk hg hd ha st h) (isImmType_ne_outOfFuel U st t)).1

/-! ### The pre-seeded keys -/

theorem find_seed_struct (U : Universe) (fs : List (String × Ty)) :
    typesCache.find (typeString U (.struct fs)) = none := by
  have h1 : ¬ "time.Time" = typeString U (.struct fs) := by
    intro h
    have := congrArg String.data h
    simp [typeString, String.data_append] at this
  have h2 : ¬ "*time.Time" = typeString U (.struct fs) := by
    intro h
    have := congrArg String.data h
    simp [typeString, String.data_append] at this
  simp [typesCache, Cache.find, h1, h2]

theorem find_seed_basic (k : BasicKind) : typesCache.find k.name = none := by
  cases k <;> rfl

theorem ne_timeTime_of_find_seed (s : String) (h : typesCache.find s = none) :
    s ≠ "time.Time" := by
  intro hs
  subst hs
  simp [typesCache, Cache.find] at h

theorem find_seed_pointer (U : Universe) (e : Ty)
    (h : typesCache.find (typeString U e) = none) :
    typesCache.find (typeString U (.pointer e)) = none := by
  have h0 := ne_timeTime_of_find_seed _ h
  have h1 : ¬ "time.Time" = typeString U (.pointer e) := by
    intro h
    have := congrArg String.data h
    simp [typeString, String.data_append] at this
  have h2 : ¬ "*time.Time" = typeString U (.pointer e) := by
    intro h
    have := congrArg String.data h
    simp only [typeString, String.data_append] at this
    have h3 : (typeString U e).data = "time.Time".data := by
      simpa using this.symm
    exact h0 (String.ext h3)
  simp [typesCache, Cache.find, h1, h2]

/-! ### C1, C2: the verdict as a function of the type -/

theorem isImmType_init_iff_pureV (U : Universe) (rk : Nat → Nat) (hg : U.goodNames = true)
    (hd : U.distinctNames = true) (ha : U.acyclic rk = true) (t : Ty) (o : Res Bool) :
    (isImmType U State.init t).1 = o ↔ PureV U t o := by
  have h := isImmType_pureV U rk hg hd ha State.init Reachable.init t
  constructor
  · intro he; rw [← he]; exact h
  · intro hp; exact h.unique hp

theorem fieldVerdict_eq_true (c : Ty → Res Bool) (fs : List (String × Ty))
    (h : fieldVerdict c fs = .ok true) : ∀ (f : String × Ty), f ∈ fs → c f.2 = .ok true := by
  induction fs with
  | nil => intro f hf; cases hf
  | cons g gs ih =>
    intro f hf
    rw [fieldVerdict_cons] at h
    by_cases hok : c g.2 = .ok true
    · rw [if_pos hok] at h
      rcases List.mem_cons.mp hf with rfl | hg
      · exact hok
      · exact ih h f hg
    · rw [if_neg hok] at h
      exact absurd h hok

theorem PureFields.true_iff (U : Universe) (fs : List (String × Ty)) :
    PureFields U fs (.ok true) ↔ ∀ (f : String × Ty), f ∈ fs → PureV U f.2 (.ok true) := by
  constructor
  · rintro ⟨n, e, _⟩ f hf
    exact ⟨n, fieldVerdict_eq_true _ fs e f hf, by simp⟩
  · intro h
    induction fs with
    | nil => exact PureFields.nil U
    | cons g gs ih =>
      exact PureFields.consTrue U g gs _ (h g (List.mem_cons_self _ _))
        (ih (fun f hf => h f (List.mem_cons_of_mem _ hf)))

/-- **C1 (amended).** With a declaration table in which no two named types
print the same `String()` (and the names are qualified type names, and no
named type contains itself by value), classified from the pre-seeded cache a
struct type is `Immutable` if and only if every one of its field types is
`Immutable` when classified from the pre-seeded cache; and this goes on
recursively: a field that is a struct obeys the same equivalence, and a named
type outside the pre-seeded cache has the verdict of its underlying type. -/
theorem isImmType_struct_iff_fields (U : Universe) (rk : Nat → Nat)
    (hg : U.goodNames = true) (hd : U.distinctNames = true) (ha : U.acyclic rk = true) :
    (∀ fs : List (String × Ty),
      (isImmType U State.init (.struct fs)).1 = .ok true ↔
        ∀ (f : String × Ty), f ∈ fs → (isImmType U State.init f.2).1 = .ok true) ∧
    (∀ i, typesCache.find (U.qualName i) = none →
      (isImmType U State.init (.named i)).1 = (isImmType U State.init (U.underlying i)).1) := by
  constructor
  · intro fs
    rw [isImmType_init_iff_pureV U rk hg hd ha]
    constructor
    · intro h f hf
      rw [isImmType_init_iff_pureV U rk hg hd ha]
      exact (PureFields.true_iff U fs).mp (PureV.of_struct U fs _ (find_seed_struct U fs) h) f hf
    · intro h
      refine PureV.struct U fs _ (find_seed_struct U fs) ((PureFields.true_iff U fs).mpr ?_)
      intro f hf
      exact (isImmType_init_iff_pureV U rk hg hd ha f.2 _).mp (h f hf)
  · intro i hi
    have h1 := isImmType_pureV U rk hg hd ha State.init Reachable.init (.named i)
    have h2 := isImmType_pureV U rk hg hd ha State.init Reachable.init (U.underlying i)
    exact (PureV.of_named U i _ hi h1).unique h2

/-- Witness of **C1 (amended)**, in the package `shapes`. -/
theorem isImmType_struct_iff_fields_witness :
    (∀ fs : List (String × Ty),
      (isImmType shapes State.init (.struct fs)).1 = .ok true ↔
        ∀ (f : String × Ty), f ∈ fs → (isImmType shapes State.init f.2).1 = .ok true) ∧
    (∀ i, typesCache.find (shapes.qualName i) = none →
      (isImmType shapes State.init (.named i)).1
        = (isImmType shapes State.init (shapes.underlying i)).1) :=
  isImmType_struct_iff_fields shapes id (by decide) (by decide) (by decide)

/-- Counterexample to **C1** as stated: with two named types that print the
same `String()`, the struct `struct { a foo.X; b X }` is classified
`Immutable` from the pre-seeded cache although its field type `X` (a slice) is
classified not immutable from the pre-seeded cache. -/
theorem isImmType_struct_iff_fields_counterexample :
    ¬ ((isImmType homonyms State.init (.struct [("a", .named 0), ("b", .named 1)])).1
        = .ok true ↔
      ∀ (f : String × Ty), f ∈ [("a", Ty.named 0), ("b", Ty.named 1)] →
        (isImmType homonyms State.init f.2).1 = .ok true) := by
  decide

/-- **C2 (amended).** With a declaration table in which no two named types
print the same `String()` (and the names are qualified type names, and no
named type contains itself by value), the verdict of `isImmType` for a type
does not depend on what was classified before: from every state reachable from
the pre-seeded cache by calls of `isImmType`, the call returns what it returns
from the pre-seeded cache. -/
theorem isImmType_deterministic (U : Universe) (rk : Nat → Nat)
    (hg : U.goodNames = true) (hd : U.distinctNames = true) (ha : U.acyclic rk = true)
    (st : State) (hst : Reachable U st) (t : Ty) :
    (isImmType U st t).1 = (isImmType U State.init t).1 :=
  (isImmType_pureV U rk hg hd ha st hst t).unique
    (isImmType_pureV U rk hg hd ha State.init Reachable.init t)

/-- Witness of **C2 (amended)**: after `Line` and `Bag` were classified, `Node`
gets the verdict it gets from the pre-seeded cache. -/
theorem isImmType_deterministic_witness :
    (isImmType shapes
        (isImmType shapes (isImmType shapes State.init (.named 1)).2 (.named 2)).2
        (.named 3)).1
      = (isImmType shapes State.init (.named 3)).1 :=
  isImmType_deterministic shapes id (by decide) (by decide) (by decide) _
    (Reachable.call (isImmType shapes State.init (.named 1)).2 (.named 2) false
      (isImmType shapes (isImmType shapes State.init (.named 1)).2 (.named 2)).2
      (Reachable.call State.init (.named 1) true (isImmType shapes State.init (.named 1)).2
        Reachable.init (by decide))
      (by decide))
    (.named 3)

/-- Counterexample to **C2** as stated: with two named types that print the
same `String()`, classifying the first (`int`) leaves a reachable state from
which the second (`[]int`) is classified `Immutable`, while from the
pre-seeded cache it is classified not immutable. -/
theorem isImmType_deterministic_counterexample :
    ∃ st, Reachable homonyms st ∧
      (isImmType homonyms st (.named 1)).1 ≠ (isImmType homonyms State.init (.named 1)).1 :=
  ⟨(isImmType homonyms State.init (.named 0)).2,
    Reachable.call State.init (.named 0) true (isImmType homonyms State.init (.named 0)).2
      Reachable.init (by decide),
    by decide⟩

/-! ### C6: a self-reference through a pointer -/

theorem find_pending_init (U : Universe) (hg : U.goodNames = true) (i : Nat) (t : Ty)
    (hn : ∀ j, t ≠ .named j) (hs : typesCache.find (typeString U t) = none) :
    (State.init.pending U i).typesCache.find (typeString U t) = none := by
  show (typesCache.store (U.qualName i) true).find (typeString U t) = none
  rw [Cache.find_store, if_neg (fun h => typeString_ne_qualName U hg t hn i h.symm)]
  exact hs

theorem fieldLoop_basics_then (c : State → Ty → Res Bool × State) (st : State)
    (bs : List (String × BasicKind)) (f : String × Ty) (v : Bool)
    (hb : ∀ k, c st (.basic k) = (.ok true, st)) (hf : c st f.2 = (.ok v, st)) :
    fieldLoop c st (bs.map (fun b => (b.1, Ty.basic b.2)) ++ [f]) = (.ok v, st) := by
  induction bs with
  | nil =>
    rw [List.map_nil, List.nil_append, fieldLoop_cons, hf, fieldLoop_nil]
    cases v <;> simp
  | cons b bs ih =>
    rw [List.map_cons, List.cons_append, fieldLoop_cons, hb]
    simpa using ih

/-- Counterexample to **C6** as stated: the named struct
`type Node struct { val int; next *Node }`, whose only non-basic field is a
pointer to itself, is classified not immutable. -/
theorem isImmType_self_pointer_counterexample :
    (isImmType listNode State.init (.named 0)).1 = .ok false := by
  decide

/-! ### The walk as a sequence of visits -/

theorem Res.bind_ok {α β : Type} (a : α) (f : α → Res β) : (Res.ok a).bind f = f a := rfl

theorem Res.bind_assoc {α β γ : Type} (r : Res α) (f : α → Res β) (g : β → Res γ) :
    (r.bind f).bind g = r.bind fun a => (f a).bind g := by
  cases r <;> rfl

theorem Res.bind_ok_right {α : Type} (r : Res α) : r.bind Res.ok = r := by
  cases r <;> rfl

theorem forM_nil {σ α : Type} (body : σ → α → Res σ) (s : σ) : forM body s [] = .ok s := rfl

theorem forM_cons {σ α : Type} (body : σ → α → Res σ) (s : σ) (a : α) (as : List α) :
    forM body s (a :: as) = (body s a).bind fun s' => forM body s' as := rfl

theorem forM_append {σ α : Type} (body : σ → α → Res σ) (l₁ l₂ : List α) :
    ∀ s, forM body s (l₁ ++ l₂) = (forM body s l₁).bind fun s' => forM body s' l₂ := by
  induction l₁ with
  | nil => intro s; rfl
  | cons a l ih =>
    intro s
    rw [List.cons_append, forM_cons, forM_cons, Res.bind_assoc]
    congr 1
    funext s'
    exact ih s'

theorem visitAll_cons (E : Env) (info : Info) (iv : Vetter) (n : Node) (ns : List Node) :
    visitAll E info iv (n :: ns) =
      (Visit E info iv n).bind fun r => visitAll E info r.1 ns := by
  unfold visitAll visitNode
  rw [forM_cons, Res.bind_assoc]
  rfl

theorem visitAll_append (E : Env) (info : Info) (iv : Vetter) (l₁ l₂ : List Node) :
    visitAll E info iv (l₁ ++ l₂) =
      (visitAll E info iv l₁).bind fun iv' => visitAll E info iv' l₂ :=
  forM_append _ l₁ l₂ iv

mutual
theorem Walk_eq_visitAll (E : Env) (info : Info) :
    ∀ (node : Node) (iv : Vetter), Walk E info iv node = visitAll E info iv (node.preorder E)
  | .file pos comments decls, iv => by
    rw [Walk, Node.preorder]
    by_cases h : hasSkipFileComment E comments = true
    · simp only [Visit, h, if_true, visitAll_cons, Res.bind]
      rfl
    · have h' : hasSkipFileComment E comments = false := by simpa using h
      simp only [Visit, h', Bool.false_eq_true, if_false, visitAll_cons, Res.bind]
      exact WalkList_eq_visitAll E info decls iv
  | .genDecl pos isType specs, iv => by
    rw [Walk, Node.preorder]
    simp only [Visit, visitAll_cons, Res.bind]
    exact WalkList_eq_visitAll E info specs _
  | .valueSpec pos type values, iv => by
    rw [Walk, Node.preorder]
    simp only [Visit, visitAll_cons, Res.bind, visitAll_append]
    rw [WalkOpt_eq_visitAll E info type]
    congr 1
    funext iv₁
    exact WalkList_eq_visitAll E info values iv₁
  | .arrayType id pos len elt, iv => by
    rw [Walk, Node.preorder]
    simp only [Visit, visitAll_cons, Res.bind, visitAll_append]
    rw [WalkOpt_eq_visitAll E info len]
    congr 1
    funext iv₁
    exact Walk_eq_visitAll E info elt iv₁
  | .mapType id pos key value, iv => by
    rw [Walk, Node.preorder]
    simp only [Visit, visitAll_cons, Res.bind, visitAll_append]
    rw [Walk_eq_visitAll E info key]
    congr 1
    funext iv₁
    exact Walk_eq_visitAll E info value iv₁
  | .field pos type, iv => by
    rw [Walk, Node.preorder]
    simp only [Visit, visitAll_cons, Res.bind]
    exact Walk_eq_visitAll E info type _
  | .unaryExpr id pos op x, iv => by
    rw [Walk, Node.preorder]
    simp only [Visit, visitAll_cons, Res.bind]
    exact Walk_eq_visitAll E info x _
  | .compositeLit id pos type elts, iv => by
    rw [Walk, Node.preorder]
    by_cases h : id ∈ iv.vcls
    · simp only [Visit, h, visitAll_cons, Res.bind, visitAll_append, if_true]
      rw [WalkOpt_eq_visitAll E info type]
      congr 1
      funext iv₁
      exact WalkList_eq_visitAll E info elts iv₁
    · simp only [Visit, h, visitAll_cons, Res.bind, visitAll_append, if_false]
      rw [WalkOpt_eq_visitAll E info type]
      congr 1
      funext iv₁
      exact WalkList_eq_visitAll E info elts iv₁
  | .typeSpec pos name type, iv => by
    rw [Walk, Node.preorder]
    simp only [Visit, visitAll_cons, Res.bind]
    exact Walk_eq_visitAll E info type _
  | .selectorExpr id x sel, iv => by
    rw [Walk, Node.preorder]
    simp only [Visit, visitAll_cons, Res.bind]
    exact Walk_eq_visitAll E info x _
  | .rangeStmt pos key value x body, iv => by
    rw [Walk, Node.preorder]
    simp only [Visit, visitAll_cons, visitAll_append]
    cases hv : visitRangeStmt E info iv x with
    | ok iv' =>
      simp only [Res.bind]
      rw [WalkOpt_eq_visitAll E info key]
      congr 1
      funext iv₁
      rw [WalkOpt_eq_visitAll E info value]
      congr 1
      funext iv₂
      rw [Walk_eq_visitAll E info x]
      congr 1
      funext iv₃
      exact Walk_eq_visitAll E info body iv₃
    | fault m => simp [Res.bind]
    | outOfFuel => simp [Res.bind]
  | .callExpr id fn args ellipsis rparen, iv => by
    have key : ∀ iv' : Vetter,
        ((Walk E info iv' fn).bind fun iv₁ => WalkList E info iv₁ args) =
          (visitAll E info iv' (fn.preorder E)).bind fun iv₁ =>
            visitAll E info iv₁ (preorderList E args) := by
      intro iv'
      rw [Walk_eq_visitAll E info fn]
      congr 1
      funext iv₁
      exact WalkList_eq_visitAll E info args iv₁
    rw [Walk, Node.preorder, visitAll_cons]
    cases fn with
    | ident f =>
      simp only [Visit, Res.bind, visitAll_append]
      exact key _
    | selectorExpr f fx fsel =>
      simp only [Visit, Res.bind, visitAll_append]
      exact key _
    | _ =>
      simp only [Visit, Res.bind, visitAll_append]
      exact key _
  | .ident i, iv => by
    rw [Walk, Node.preorder]
    simp only [Visit, visitAll_cons, Res.bind]
    rfl
  | .other id pos children, iv => by
    rw [Walk, Node.preorder]
    simp only [Visit, visitAll_cons, Res.bind]
    exact WalkList_eq_visitAll E info children _
theorem WalkOpt_eq_visitAll (E : Env) (info : Info) :
    ∀ (node : Option Node) (iv : Vetter),
      WalkOpt E info iv node = visitAll E info iv (preorderOpt E node)
  | none, iv => by
    rw [WalkOpt, preorderOpt]; rfl
  | some n, iv => by
    rw [WalkOpt, preorderOpt]
    exact Walk_eq_visitAll E info n iv
theorem WalkList_eq_visitAll (E : Env) (info : Info) :
    ∀ (nodes : List Node) (iv : Vetter),
      WalkList E info iv nodes = visitAll E info iv (preorderList E nodes)
  | [], iv => by
    rw [WalkList, preorderList]; rfl
  | n :: ns, iv => by
    rw [WalkList, preorderList, visitAll_append, Walk_eq_visitAll E info n]
    congr 1
    funext iv₁
    exact WalkList_eq_visitAll E info ns iv₁
end

/-! ### What a visit leaves unchanged -/

theorem ensurePointerTyp_frame (E : Env) (info : Info) (iv : Vetter) (n : Node)
    (typ : Option Node) :
    (ensurePointerTyp E info iv n typ).skipFiles = iv.skipFiles ∧
    (ensurePointerTyp E info iv n typ).rngs = iv.rngs ∧
    (ensurePointerTyp E info iv n typ).vcls = iv.vcls ∧
    (ensurePointerTyp E info iv n typ).immTmpls = iv.immTmpls := by
  unfold ensurePointerTyp
  split <;> exact ⟨rfl, rfl, rfl, rfl⟩

theorem visitUnaryExpr_frame (E : Env) (info : Info) (iv : Vetter) (n : Node)
    (op : Token) (x : Node) :
    (visitUnaryExpr E info iv n op x).skipFiles = iv.skipFiles ∧
    (visitUnaryExpr E info iv n op x).rngs = iv.rngs ∧
    (visitUnaryExpr E info iv n op x).immTmpls = iv.immTmpls := by
  unfold visitUnaryExpr
  split
  · exact ⟨rfl, rfl, rfl⟩
  · split
    · split <;> exact ⟨rfl, rfl, rfl⟩
    · exact ⟨rfl, rfl, rfl⟩

theorem visitSelectorExpr_frame (E : Env) (info : Info) (iv : Vetter) (id : Nat)
    (sel : Ident) :
    (visitSelectorExpr E info iv id sel).skipFiles = iv.skipFiles ∧
    (visitSelectorExpr E info iv id sel).errlist = iv.errlist ∧
    (visitSelectorExpr E info iv id sel).vcls = iv.vcls ∧
    (visitSelectorExpr E info iv id sel).immTmpls = iv.immTmpls := by
  unfold visitSelectorExpr
  split
  · exact ⟨rfl, rfl, rfl, rfl⟩
  · split
    · exact ⟨rfl, rfl, rfl, rfl⟩
    · split
      · split <;> exact ⟨rfl, rfl, rfl, rfl⟩
      · exact ⟨rfl, rfl, rfl, rfl⟩

theorem visitRangeStmt_frame (E : Env) (info : Info) (iv iv' : Vetter) (x : Node)
    (h : visitRangeStmt E info iv x = .ok iv') :
    iv'.skipFiles = iv.skipFiles ∧ iv'.errlist = iv.errlist ∧ iv'.vcls = iv.vcls ∧
    iv'.immTmpls = iv.immTmpls := by
  unfold visitRangeStmt at h
  split at h
  · split at h
    · split at h
      · cases h
      · split at h
        · cases h; exact ⟨rfl, rfl, rfl, rfl⟩
        · split at h
          · cases h; exact ⟨rfl, rfl, rfl, rfl⟩
          · split at h
            · cases h; exact ⟨rfl, rfl, rfl, rfl⟩
            · cases h; exact ⟨rfl, rfl, rfl, rfl⟩
    · cases h; exact ⟨rfl, rfl, rfl, rfl⟩
  · cases h; exact ⟨rfl, rfl, rfl, rfl⟩

theorem visitCallIdent_frame (E : Env) (info : Info) (iv : Vetter) (fn : Ident)
    (args : List Node) (ellipsis : Nat) :
    (visitCallIdent E info iv fn args ellipsis).skipFiles = iv.skipFiles ∧
    (visitCallIdent E info iv fn args ellipsis).errlist = iv.errlist ∧
    (visitCallIdent E info iv fn args ellipsis).vcls = iv.vcls ∧
    (visitCallIdent E info iv fn args ellipsis).immTmpls = iv.immTmpls := by
  unfold visitCallIdent
  repeat' split
  all_goals exact ⟨rfl, rfl, rfl, rfl⟩

theorem visitCallSelector_frame (E : Env) (info : Info) (iv : Vetter) (fn : Nat)
    (funSel : Ident) (args : List Node) (ellipsis : Nat) :
    (visitCallSelector E info iv fn funSel args ellipsis).skipFiles = iv.skipFiles ∧
    (visitCallSelector E info iv fn funSel args ellipsis).errlist = iv.errlist ∧
    (visitCallSelector E info iv fn funSel args ellipsis).vcls = iv.vcls ∧
    (visitCallSelector E info iv fn funSel args ellipsis).immTmpls = iv.immTmpls := by
  unfold visitCallSelector
  repeat' split
  all_goals exact ⟨rfl, rfl, rfl, rfl⟩

/-- A visit changes `skipFiles` only at a file with the skip-file comment,
where it adds the name of the file. -/
theorem Visit_skipFiles (E : Env) (info : Info) (iv : Vetter) (n : Node)
    (r : Vetter × Bool) (h : Visit E info iv n = .ok r) :
    r.1.skipFiles =
      if n.isSkipFile E then iv.skipFiles ++ [(E.Position n.pos).filename]
      else iv.skipFiles := by
  cases n with
  | file pos comments decls =>
    simp only [Visit] at h
    simp only [Node.isSkipFile, Node.pos]
    split at h <;> rename_i hs
    · cases h; rw [if_pos hs]
    · cases h; rw [if_neg hs]
  | rangeStmt pos key value x body =>
    simp only [Visit] at h
    cases hv : visitRangeStmt E info iv x with
    | ok iv' =>
      rw [hv] at h
      cases h
      simpa [Node.isSkipFile] using (visitRangeStmt_frame E info iv iv' x hv).1
    | fault m => rw [hv] at h; cases h
    | outOfFuel => rw [hv] at h; cases h
  | compositeLit id pos type elts =>
    simp only [Visit] at h
    split at h
    · cases h; simp [Node.isSkipFile]
    · cases h; simpa [Node.isSkipFile] using (ensurePointerTyp_frame E info iv _ type).1
  | callExpr id fn args ellipsis rparen =>
    simp only [Visit] at h
    split at h
    · cases h; simpa [Node.isSkipFile] using (visitCallIdent_frame E info iv _ args ellipsis).1
    · cases h
      simpa [Node.isSkipFile] using (visitCallSelector_frame E info iv _ _ args ellipsis).1
    · cases h; simp [Node.isSkipFile]
  | mapType id pos key value =>
    simp only [Visit] at h
    cases h
    simp only [Node.isSkipFile, Bool.false_eq_true, if_false]
    rw [(ensurePointerTyp_frame E info _ _ _).1, (ensurePointerTyp_frame E info _ _ _).1]
  | valueSpec pos type values =>
    simp only [Visit] at h
    cases h; simpa [Node.isSkipFile] using (ensurePointerTyp_frame E info iv _ type).1
  | arrayType id pos len elt =>
    simp only [Visit] at h
    cases h; simpa [Node.isSkipFile] using (ensurePointerTyp_frame E info iv _ (some elt)).1
  | field pos type =>
    simp only [Visit] at h
    cases h; simpa [Node.isSkipFile] using (ensurePointerTyp_frame E info iv _ (some type)).1
  | typeSpec pos name type =>
    simp only [Visit] at h
    cases h; simpa [Node.isSkipFile] using (ensurePointerTyp_frame E info iv _ (some type)).1
  | unaryExpr id pos op x =>
    simp only [Visit] at h
    cases h; simpa [Node.isSkipFile] using (visitUnaryExpr_frame E info iv _ op x).1
  | selectorExpr id x sel =>
    simp only [Visit] at h
    cases h; simpa [Node.isSkipFile] using (visitSelectorExpr_frame E info iv id sel).1
  | genDecl pos isType specs => simp only [Visit] at h; cases h; simp [Node.isSkipFile]
  | ident i => simp only [Visit] at h; cases h; simp [Node.isSkipFile]
  | other id pos children => simp only [Visit] at h; cases h; simp [Node.isSkipFile]

/-! ### C7: the construction rule -/

theorem visitUnaryExpr_template (E : Env) (info : Info) (iv : Vetter) (node : Node)
    (cl clPos : Nat) (clType : Option Node) (elts : List Node) (k : ImmType)
    (hk : E.IsImmTypeOfPointerTo (info.typeOf clType) = some k) :
    visitUnaryExpr E info iv node .AND (.compositeLit cl clPos clType elts) =
      { iv.errorf E node.pos constructMsg with vcls := setInsert iv.vcls cl } := by
  simp only [visitUnaryExpr, hk]
  cases k <;> simp

theorem typeShouldBe_ne_constructMsg (s : String) : ("type should be " ++ s) ≠ constructMsg := by
  intro h
  have := congrArg String.data h
  simp [constructMsg, String.data_append] at this

theorem constructViolationsOf_append (es fs : List immErr) :
    constructViolationsOf (es ++ fs) = constructViolationsOf es ++ constructViolationsOf fs := by
  simp [constructViolationsOf]

theorem ensurePointerTyp_construct (E : Env) (info : Info) (iv : Vetter) (n : Node)
    (typ : Option Node) :
    constructViolationsOf (ensurePointerTyp E info iv n typ).errlist
      = constructViolationsOf iv.errlist := by
  have key : ∀ s : String, constructViolationsOf (iv.errorf E n.pos ("type should be " ++ s)).errlist
      = constructViolationsOf iv.errlist := by
    intro s
    simp [Vetter.errorf, constructViolationsOf, typeShouldBe_ne_constructMsg]
  unfold ensurePointerTyp
  split
  · exact key _
  · exact key _
  · exact key _
  · rfl

theorem visitUnaryExpr_construct (E : Env) (info : Info) (iv : Vetter) (id pos : Nat)
    (op : Token) (x : Node) :
    constructViolationsOf (visitUnaryExpr E info iv (.unaryExpr id pos op x) op x).errlist
      = constructViolationsOf iv.errlist
        ++ (constructViolation E info (.unaryExpr id pos op x)).toList := by
  have key : constructViolationsOf
      ({ iv.errorf E pos constructMsg with vcls := iv.vcls } : Vetter).errlist
      = constructViolationsOf iv.errlist ++ [⟨E.Position pos, constructMsg⟩] := by
    simp [Vetter.errorf, constructViolationsOf]
  unfold visitUnaryExpr
  by_cases hop : op = Token.AND
  · subst hop
    cases x with
    | compositeLit cl clPos clType elts =>
      simp only [ne_eq, not_true_eq_false, if_false, constructViolation, true_and, Node.pos]
      cases hk : E.IsImmTypeOfPointerTo (info.typeOf clType) with
      | none => simp
      | some k =>
        cases k <;> simpa [Vetter.errorf, constructViolationsOf] using key
    | _ => simp [constructViolation]
  · cases x <;> simp [hop, constructViolation]

/-- A visit adds to the violations of the construction rule the one of the
node, if it has one. -/
theorem Visit_construct (E : Env) (info : Info) (iv : Vetter) (n : Node)
    (r : Vetter × Bool) (h : Visit E info iv n = .ok r) :
    constructViolationsOf r.1.errlist
      = constructViolationsOf iv.errlist ++ (constructViolation E info n).toList := by
  cases n with
  | file pos comments decls =>
    simp only [Visit] at h
    split at h <;> (cases h; simp [constructViolation])
  | rangeStmt pos key value x body =>
    simp only [Visit] at h
    cases hv : visitRangeStmt E info iv x with
    | ok iv' =>
      rw [hv] at h
      cases h
      simp [constructViolation, (visitRangeStmt_frame E info iv iv' x hv).2.1]
    | fault m => rw [hv] at h; cases h
    | outOfFuel => rw [hv] at h; cases h
  | compositeLit id pos type elts =>
    simp only [Visit] at h
    split at h
    · cases h; simp [constructViolation]
    · cases h; simp [constructViolation, ensurePointerTyp_construct]
  | callExpr id fn args ellipsis rparen =>
    simp only [Visit] at h
    split at h
    · cases h; simp [constructViolation, (visitCallIdent_frame E info iv _ args ellipsis).2.1]
    · cases h
      simp [constructViolation, (visitCallSelector_frame E info iv _ _ args ellipsis).2.1]
    · cases h; simp [constructViolation]
  | mapType id pos key value =>
    simp only [Visit] at h
    cases h
    simp [constructViolation, ensurePointerTyp_construct]
  | valueSpec pos type values =>
    simp only [Visit] at h
    cases h; simp [constructViolation, ensurePointerTyp_construct]
  | arrayType id pos len elt =>
    simp only [Visit] at h
    cases h; simp [constructViolation, ensurePointerTyp_construct]
  | field pos type =>
    simp only [Visit] at h
    cases h; simp [constructViolation, ensurePointerTyp_construct]
  | typeSpec pos name type =>
    simp only [Visit] at h
    cases h; simp [constructViolation, ensurePointerTyp_construct]
  | unaryExpr id pos op x =>
    simp only [Visit] at h
    cases h; exact visitUnaryExpr_construct E info iv id pos op x
  | selectorExpr id x sel =>
    simp only [Visit] at h
    cases h; simp [constructViolation, (visitSelectorExpr_frame E info iv id sel).2.1]
  | genDecl pos isType specs => simp only [Visit] at h; cases h; simp [constructViolation]
  | ident i => simp only [Visit] at h; cases h; simp [constructViolation]
  | other id pos children => simp only [Visit] at h; cases h; simp [constructViolation]

theorem visitAll_construct (E : Env) (info : Info) (ns : List Node) :
    ∀ iv iv', visitAll E info iv ns = .ok iv' →
      constructViolationsOf iv'.errlist
        = constructViolationsOf iv.errlist ++ ns.filterMap (constructViolation E info) := by
  induction ns with
  | nil => intro iv iv' h; cases h; simp
  | cons m ms ih =>
    intro iv iv' h
    rw [visitAll_cons] at h
    cases hv : Visit E info iv m with
    | ok r =>
      rw [hv, Res.bind_ok] at h
      rw [ih r.1 iv' h, Visit_construct E info iv m r hv, List.filterMap_cons]
      cases constructViolation E info m <;> simp
    | fault m' => rw [hv] at h; cases h
    | outOfFuel => rw [hv] at h; cases h

/-- **C7 (amended).** Construction rule without double report, for the
address-of expressions the walk visits.  For every address-of expression
`&T{...}` whose literal type `T` has a pointer form that is an immutable
template (map, slice or struct flavour) and every state of the vetter: the
visit of the address-of expression appends exactly one violation, "construct
using new() or generated constructors" at the position of the address-of
expression, and goes on below; the visit of the literal that follows appends
nothing and changes nothing; and the walk of the address-of expression is
these two visits followed by the walk of the children of the literal.  Over a
whole walk that returns, the violations of the construction rule that the
walk adds are exactly one for every visited address-of expression of this
kind, in the order of the visits. -/
theorem Walk_addressOf_template (E : Env) (info : Info) (iv : Vetter)
    (id pos cl clPos : Nat) (clType : Option Node) (elts : List Node) (k : ImmType)
    (hk : E.IsImmTypeOfPointerTo (info.typeOf clType) = some k) :
    (∃ iv₁ : Vetter,
      Visit E info iv (.unaryExpr id pos .AND (.compositeLit cl clPos clType elts))
        = .ok (iv₁, true) ∧
      iv₁.errlist = iv.errlist ++ [⟨E.Position pos, constructMsg⟩] ∧
      Visit E info iv₁ (.compositeLit cl clPos clType elts) = .ok (iv₁, true) ∧
      Walk E info iv (.unaryExpr id pos .AND (.compositeLit cl clPos clType elts))
        = (WalkOpt E info iv₁ clType).bind fun iv₂ => WalkList E info iv₂ elts) ∧
    constructViolation E info (.unaryExpr id pos .AND (.compositeLit cl clPos clType elts))
      = some ⟨E.Position pos, constructMsg⟩ ∧
    (∀ (files : List Node) (iv₀ iv' : Vetter), WalkList E info iv₀ files = .ok iv' →
      constructViolationsOf iv'.errlist
        = constructViolationsOf iv₀.errlist
          ++ (preorderList E files).filterMap (constructViolation E info)) := by
  have hv := visitUnaryExpr_template E info iv
    (.unaryExpr id pos .AND (.compositeLit cl clPos clType elts)) cl clPos clType elts k hk
  refine ⟨⟨{ iv.errorf E pos constructMsg with vcls := setInsert iv.vcls cl }, ?_, rfl, ?_, ?_⟩,
    ?_, ?_⟩
  · simp only [Visit, hv]
    rfl
  · simp only [Visit]
    rw [if_pos (mem_setInsert _ _)]
  · rw [Walk]
    simp only [Visit, hv]
    rw [Walk]
    simp only [Visit]
    rw [if_pos (show cl ∈ (setInsert iv.vcls cl) from mem_setInsert _ _)]
    rfl
  · simp [constructViolation, hk]
  · intro files iv₀ iv' hw
    rw [WalkList_eq_visitAll] at hw
    exact visitAll_construct E info _ iv₀ iv' hw

/-- Witness of **C7 (amended)**: `&MyStruct{}` in the demo package. -/
theorem Walk_addressOf_template_witness :
    (∃ iv₁ : Vetter,
      Visit demoEnv demoInfo newImmutableVetter (addrOfLit 10 10) = .ok (iv₁, true) ∧
      iv₁.errlist = newImmutableVetter.errlist ++ [⟨demoEnv.Position 10, constructMsg⟩] ∧
      Visit demoEnv demoInfo iv₁
        (.compositeLit 11 11 (some (myStructExpr 12 11)) []) = .ok (iv₁, true) ∧
      Walk demoEnv demoInfo newImmutableVetter (addrOfLit 10 10)
        = (WalkOpt demoEnv demoInfo iv₁ (some (myStructExpr 12 11))).bind
            fun iv₂ => WalkList demoEnv demoInfo iv₂ []) ∧
    constructViolation demoEnv demoInfo (addrOfLit 10 10)
      = some ⟨demoEnv.Position 10, constructMsg⟩ ∧
    (∀ (files : List Node) (iv₀ iv' : Vetter),
      WalkList demoEnv demoInfo iv₀ files = .ok iv' →
        constructViolationsOf iv'.errlist
          = constructViolationsOf iv₀.errlist
            ++ (preorderList demoEnv files).filterMap (constructViolation demoEnv demoInfo)) :=
  Walk_addressOf_template demoEnv demoInfo newImmutableVetter 10 10 11 11
    (some (myStructExpr 12 11)) [] .ImmTypeStruct (by decide)

/-- Counterexample to **C7** as stated: the address-of expression
`&MyStruct{}` of a file that carries the skip-file comment has a literal type
whose pointer form is an immutable template, and the walk of the file emits no
violation for it (while the same expression in a file without the comment
gets its violation). -/
theorem Walk_addressOf_template_counterexample :
    demoEnv.IsImmTypeOfPointerTo (demoInfo.typeOf (some (myStructExpr 22 1011)))
      = some .ImmTypeStruct ∧
    (WalkList demoEnv demoInfo newImmutableVetter [skippedFile]).bind
      (fun iv => .ok iv.errlist) = .ok [] ∧
    (WalkList demoEnv demoInfo newImmutableVetter [plainFile]).bind
      (fun iv => .ok iv.errlist) = .ok [⟨⟨"a.go", 10, 1⟩, constructMsg⟩] := by
  decide

/-! ### C9: the field-access rule -/

theorem Node.mem_preorder_self (E : Env) (n : Node) : n ∈ n.preorder E := by
  cases n <;> rw [Node.preorder]
  case file pos comments decls => split <;> simp
  all_goals simp

theorem mem_preorderList_of_mem (E : Env) (n : Node) (ns : List Node) (h : n ∈ ns) :
    n ∈ preorderList E ns := by
  induction ns with
  | nil => cases h
  | cons m ms ih =>
    rw [preorderList]
    rcases List.mem_cons.mp h with rfl | hm
    · exact List.mem_append_left _ (Node.mem_preorder_self E n)
    · exact List.mem_append_right _ (ih hm)

theorem visitAll_skipFiles (E : Env) (info : Info) (ns : List Node) :
    ∀ iv iv', visitAll E info iv ns = .ok iv' →
      iv.skipFiles ⊆ iv'.skipFiles ∧
      ∀ n, n ∈ ns → n.isSkipFile E = true → (E.Position n.pos).filename ∈ iv'.skipFiles := by
  induction ns with
  | nil =>
    intro iv iv' h
    cases h
    exact ⟨fun _ hx => hx, fun n hn => by cases hn⟩
  | cons m ms ih =>
    intro iv iv' h
    rw [visitAll_cons] at h
    cases hv : Visit E info iv m with
    | ok r =>
      rw [hv, Res.bind_ok] at h
      have hs := Visit_skipFiles E info iv m r hv
      have ih' := ih r.1 iv' h
      have hsub : iv.skipFiles ⊆ r.1.skipFiles := by
        rw [hs]
        split
        · exact List.subset_append_left _ _
        · exact fun _ hx => hx
      refine ⟨fun x hx => ih'.1 (hsub hx), fun n hn hskip => ?_⟩
      rcases List.mem_cons.mp hn with rfl | hn'
      · apply ih'.1
        rw [hs, if_pos hskip]
        simp
      · exact ih'.2 n hn' hskip
    | fault m' => rw [hv] at h; cases h
    | outOfFuel => rw [hv] at h; cases h

theorem checkTemplateUse_frame (E : Env) (iv : Vetter) (en : TypesEntry) :
    (checkTemplateUse E iv en).skipFiles = iv.skipFiles ∧
    (checkTemplateUse E iv en).rngs = iv.rngs ∧
    (checkTemplateUse E iv en).immTmpls = iv.immTmpls := by
  unfold checkTemplateUse
  repeat' split
  all_goals exact ⟨rfl, rfl, rfl⟩

theorem foldl_checkTemplateUse_frame (E : Env) (l : List TypesEntry) :
    ∀ iv, (l.foldl (checkTemplateUse E) iv).skipFiles = iv.skipFiles ∧
      (l.foldl (checkTemplateUse E) iv).rngs = iv.rngs := by
  induction l with
  | nil => intro iv; exact ⟨rfl, rfl⟩
  | cons en l ih =>
    intro iv
    rw [List.foldl_cons]
    have h1 := ih (checkTemplateUse E iv en)
    have h2 := checkTemplateUse_frame E iv en
    exact ⟨h1.1.trans h2.1, h1.2.trans h2.2.1⟩

theorem checkFieldAccess_eq (E : Env) (iv : Vetter) (en : SelEntry) :
    checkFieldAccess E iv en =
      { iv with errlist := iv.errlist ++ (fieldAccessViolation E iv.skipFiles en).toList } := by
  unfold checkFieldAccess fieldAccessViolation
  by_cases h1 : en.sel.kind = SelectionKind.FieldVal
  · by_cases h2 : (E.U.IsImmType en.sel.recv).isSome = true
    · by_cases h3 : (E.Position en.xPos).filename ∈ iv.skipFiles
      · simp [h1, h2, h3]
      · have h2' : (E.U.IsImmType en.sel.recv).isNone = false := by
          cases hh : E.U.IsImmType en.sel.recv <;> simp_all
        simp [h1, h2, h2', h3, Vetter.errorf, fieldAccessMsg]
    · have h2' : (E.U.IsImmType en.sel.recv).isNone = true := by
        cases hh : E.U.IsImmType en.sel.recv <;> simp_all
      simp [h1, h2, h2']
  · simp [h1]

theorem foldl_checkFieldAccess (E : Env) (l : List SelEntry) :
    ∀ iv, l.foldl (checkFieldAccess E) iv =
      { iv with
        errlist := iv.errlist ++ l.filterMap (fieldAccessViolation E iv.skipFiles) } := by
  induction l with
  | nil => intro iv; simp
  | cons en l ih =>
    intro iv
    rw [List.foldl_cons, ih, checkFieldAccess_eq]
    simp only [List.filterMap_cons]
    cases fieldAccessViolation E iv.skipFiles en <;> simp

theorem foldl_checkRange (E : Env) (l : List (Ident × Bool)) :
    ∀ iv, l.foldl (checkRange E) iv =
      { iv with errlist := iv.errlist ++ rangeViolations E l } := by
  induction l with
  | nil => intro iv; simp [rangeViolations]
  | cons kv l ih =>
    intro iv
    rw [List.foldl_cons, ih]
    obtain ⟨k, v⟩ := kv
    cases v <;> simp [checkRange, rangeViolations, Vetter.errorf, List.filter_cons]

/-- The end of `vetPackage`: from the vetter the walk left, the three loops
over `info.Types`, `info.Selections` and `iv.rngs`. -/
theorem vetPackage_eq (E : Env) (s s' : State × Vetter) (pkg : Package) (info : Info)
    (hc : pkg.check = some info) (h : vetPackage E s pkg = .ok s') :
    ∃ (s₁ : State × Vetter) (iv₁ : Vetter),
      forM (registerFile E info) (s.1, { s.2 with rngs := [], immTmpls := [] }) pkg.files
        = .ok s₁ ∧
      WalkList E info s₁.2 pkg.files = .ok iv₁ ∧
      s'.1 = s₁.1 ∧
      s'.2.skipFiles = iv₁.skipFiles ∧
      s'.2.rngs = iv₁.rngs ∧
      s'.2.errlist = (info.Types.foldl (checkTemplateUse E) iv₁).errlist
        ++ info.Selections.filterMap (fieldAccessViolation E iv₁.skipFiles)
        ++ rangeViolations E iv₁.rngs := by
  unfold vetPackage at h
  rw [hc] at h
  simp only at h
  cases h1 : forM (registerFile E info) (s.1, { s.2 with rngs := [], immTmpls := [] })
    pkg.files with
  | ok s₁ =>
    rw [h1, Res.bind_ok] at h
    cases h2 : WalkList E info s₁.2 pkg.files with
    | ok iv₁ =>
      rw [h2, Res.bind_ok] at h
      cases h
      have hf := foldl_checkTemplateUse_frame E info.Types iv₁
      refine ⟨s₁, iv₁, rfl, h2, rfl, ?_, ?_, ?_⟩
      · rw [foldl_checkRange, foldl_checkFieldAccess]
        exact hf.1
      · rw [foldl_checkRange, foldl_checkFieldAccess]
        exact hf.2
      · rw [foldl_checkRange, foldl_checkFieldAccess]
        simp only [hf.1, hf.2]
    | fault m => rw [h2] at h; cases h
    | outOfFuel => rw [h2] at h; cases h
  | fault m => rw [h1] at h; cases h
  | outOfFuel => rw [h1] at h; cases h

/-! ### C8: the once-only iteration rule -/

theorem visitSelectorExpr_rngs (E : Env) (info : Info) (iv : Vetter) (id : Nat) (x : Node)
    (sel : Ident) :
    (visitSelectorExpr E info iv id sel).rngs
      = rngsStep E info iv.rngs (.selectorExpr id x sel) := by
  unfold visitSelectorExpr rngsStep
  simp only [Node.consumes, Node.consumesWith, Node.records]
  cases hs : info.selection id with
  | none => rfl
  | some s =>
    simp only
    by_cases h1 : isImmListOrMap E.U s.recv = true
    · by_cases h2 : sel.name = "Range"
      · simp only [h1, h2, Bool.not_true, Bool.false_eq_true, if_false, if_true, and_self]
        cases rngsFind iv.rngs sel <;> rfl
      · simp [h1, h2]
    · simp [h1]

theorem visitRangeStmt_rngs (E : Env) (info : Info) (iv iv' : Vetter)
    (pos : Nat) (key value : Option Node) (x body : Node)
    (h : visitRangeStmt E info iv x = .ok iv') :
    iv'.rngs = rngsStep E info iv.rngs (.rangeStmt pos key value x body) := by
  unfold rngsStep
  simp only [Node.consumes, Node.consumesWith, Node.records]
  unfold visitRangeStmt at h
  cases x with
  | callExpr cid e cargs cell crp =>
    cases e with
    | selectorExpr se sx ri =>
      simp only [rangeCallOf] at h ⊢
      cases hs : info.selection se with
      | none => rw [hs] at h; cases h
      | some sel =>
        rw [hs] at h
        simp only at h ⊢
        by_cases h1 : isImmListOrMap E.U sel.recv = true
        · by_cases h2 : sel.kind = SelectionKind.MethodVal
          · by_cases h3 : ri.name = "Range"
            · simp [h1, h2, h3] at h ⊢
              cases h; rfl
            · simp [h1, h2, h3] at h ⊢
              cases h; rfl
          · simp [h1, h2] at h ⊢
            cases h; rfl
        · simp [h1] at h ⊢
          cases h; rfl
    | _ =>
      simp [rangeCallOf] at h ⊢
      cases h; rfl
  | _ =>
    simp [rangeCallOf] at h ⊢
    cases h; rfl

theorem visitCallIdent_rngs (E : Env) (info : Info) (iv : Vetter) (id : Nat) (f : Ident)
    (args : List Node) (ellipsis rparen : Nat)
    (hadj : (Node.callExpr id (.ident f) args ellipsis rparen).spreadAdjacent = true) :
    (visitCallIdent E info iv f args ellipsis).rngs
      = rngsStep E info iv.rngs (.callExpr id (.ident f) args ellipsis rparen) := by
  unfold visitCallIdent rngsStep
  simp only [Node.consumes, Node.consumesWith, Node.records]
  simp only [Node.spreadAdjacent] at hadj
  by_cases h1 : f.name = "append"
  · by_cases h2 : args.length = 2
    · simp only [h1, h2, ne_eq, not_true_eq_false, if_false, true_and]
      cases ha : args.get? 1 with
      | none => simp
      | some a =>
        rw [ha] at hadj
        cases a with
        | callExpr cid ceFun cargs cell crp =>
          simp only [decide_eq_true_eq] at hadj
          cases ceFun with
          | selectorExpr se sx ri =>
            simp only [rangeCallOf]
            cases hs : info.selection se with
            | none => simp
            | some sel =>
              simp only
              by_cases h3 : isImmListOrMap E.U sel.recv = true
              · by_cases h4 : ri.name = "Range"
                · by_cases h5 : ellipsis = crp + 1
                  · have h6 : ellipsis ≠ NoPos := by rw [h5]; simp [NoPos]
                    simp [h3, h4, h5, h6]
                    simp [NoPos]
                  · have h6 : ellipsis = NoPos := by
                      rcases hadj with h | h
                      · exact h
                      · exact absurd h h5
                    simp [h3, h4, h5, h6, NoPos]
                · simp [h3, h4]
              · simp [h3]
          | _ => simp [rangeCallOf]
        | _ => simp [rangeCallOf]
    · simp [h1, h2]
  · simp [h1]

theorem visitCallSelector_rngs (E : Env) (info : Info) (iv : Vetter) (id fn : Nat)
    (fx : Node) (funSel : Ident) (args : List Node) (ellipsis rparen : Nat) :
    (visitCallSelector E info iv fn funSel args ellipsis).rngs
      = rngsStep E info iv.rngs
          (.callExpr id (.selectorExpr fn fx funSel) args ellipsis rparen) := by
  unfold visitCallSelector rngsStep
  simp only [Node.consumes, Node.consumesWith, Node.records, isSpreadAppendMethodCall]
  obtain ⟨o, hs⟩ : ∃ o, info.selection fn = o := ⟨_, rfl⟩
  simp only [hs]
  cases o with
  | none => simp
  | some sel =>
    simp only
    by_cases h1 : isImmListOrMap E.U sel.recv = true
    · by_cases h2 : sel.kind = SelectionKind.MethodVal
      · by_cases h3 : funSel.name = "Append"
        · by_cases h4 : args.length = 1
          · by_cases h5 : ellipsis = NoPos
            · simp [h1, h2, h3, h4, h5]
            · simp only [h1, h2, h3, h4, h5, Bool.not_true, Bool.false_eq_true, if_false,
                ne_eq, not_true_eq_false, not_false_eq_true, decide_True, Bool.and_self, if_true]
              cases ha : args.get? 0 with
              | none => simp
              | some a =>
                cases a with
                | callExpr cid aceFun cargs cell crp =>
                  cases aceFun with
                  | selectorExpr se sx ri =>
                    simp only [rangeCallOf]
                    cases hs' : info.selection se with
                    | none => simp
                    | some sel' =>
                      simp only
                      by_cases h6 : isImmListOrMap E.U sel'.recv = true
                      · by_cases h7 : sel'.kind = SelectionKind.MethodVal
                        · by_cases h8 : ri.name = "Range"
                          · simp [h6, h7, h8]
                          · simp [h6, h7, h8]
                        · simp [h6, h7]
                      · simp [h6]
                  | _ => simp [rangeCallOf]
                | _ => simp [rangeCallOf]
          · simp [h1, h2, h3, h4]
        · simp [h1, h2, h3]
      · simp [h1, h2]
    · simp [h1]

/-- The effect of a visit on `rngs` is the one of `rngsStep`. -/
theorem Visit_rngs (E : Env) (info : Info) (iv : Vetter) (n : Node) (r : Vetter × Bool)
    (hadj : n.spreadAdjacent = true) (h : Visit E info iv n = .ok r) :
    r.1.rngs = rngsStep E info iv.rngs n := by
  cases n with
  | file pos comments decls =>
    simp only [Visit] at h
    split at h <;> (cases h; rfl)
  | rangeStmt pos key value x body =>
    simp only [Visit] at h
    cases hv : visitRangeStmt E info iv x with
    | ok iv' =>
      rw [hv] at h
      cases h
      exact visitRangeStmt_rngs E info iv iv' pos key value x body hv
    | fault m => rw [hv] at h; cases h
    | outOfFuel => rw [hv] at h; cases h
  | compositeLit id pos type elts =>
    simp only [Visit] at h
    split at h
    · cases h; rfl
    · cases h; exact (ensurePointerTyp_frame E info iv _ type).2.1
  | callExpr id fn args ellipsis rparen =>
    cases fn with
    | ident f =>
      simp only [Visit] at h
      cases h
      exact visitCallIdent_rngs E info iv id f args ellipsis rparen hadj
    | selectorExpr f fx fsel =>
      simp only [Visit] at h
      cases h
      exact visitCallSelector_rngs E info iv id f fx fsel args ellipsis rparen
    | _ => simp only [Visit] at h; cases h; rfl
  | mapType id pos key value =>
    simp only [Visit] at h
    cases h
    show (ensurePointerTyp E info _ _ _).rngs = iv.rngs
    rw [(ensurePointerTyp_frame E info _ _ _).2.1, (ensurePointerTyp_frame E info _ _ _).2.1]
  | valueSpec pos type values =>
    simp only [Visit] at h
    cases h; exact (ensurePointerTyp_frame E info iv _ type).2.1
  | arrayType id pos len elt =>
    simp only [Visit] at h
    cases h; exact (ensurePointerTyp_frame E info iv _ (some elt)).2.1
  | field pos type =>
    simp only [Visit] at h
    cases h; exact (ensurePointerTyp_frame E info iv _ (some type)).2.1
  | typeSpec pos name type =>
    simp only [Visit] at h
    cases h; exact (ensurePointerTyp_frame E info iv _ (some type)).2.1
  | unaryExpr id pos op x =>
    simp only [Visit] at h
    cases h; exact (visitUnaryExpr_frame E info iv _ op x).2.1
  | selectorExpr id x sel =>
    simp only [Visit] at h
    cases h; exact visitSelectorExpr_rngs E info iv id x sel
  | genDecl pos isType specs => simp only [Visit] at h; cases h; rfl
  | ident i => simp only [Visit] at h; cases h; rfl
  | other id pos children => simp only [Visit] at h; cases h; rfl

theorem visitAll_rngs (E : Env) (info : Info) (ns : List Node) :
    ∀ iv iv', (∀ n, n ∈ ns → n.spreadAdjacent = true) → visitAll E info iv ns = .ok iv' →
      iv'.rngs = ns.foldl (rngsStep E info) iv.rngs := by
  induction ns with
  | nil => intro iv iv' _ h; cases h; rfl
  | cons m ms ih =>
    intro iv iv' hadj h
    rw [visitAll_cons] at h
    cases hv : Visit E info iv m with
    | ok r =>
      rw [hv, Res.bind_ok] at h
      rw [List.foldl_cons, ← Visit_rngs E info iv m r (hadj m (List.mem_cons_self _ _)) hv]
      exact ih r.1 iv' (fun n hn => hadj n (List.mem_cons_of_mem _ hn)) h
    | fault m' => rw [hv] at h; cases h
    | outOfFuel => rw [hv] at h; cases h

theorem rngsFind_set (m : List (Ident × Bool)) (k k' : Ident) (v : Bool) :
    rngsFind (rngsSet m k v) k' = if k = k' then some v else rngsFind m k' := by
  induction m with
  | nil => simp [rngsSet, rngsFind]
  | cons e m ih =>
    obtain ⟨a, b⟩ := e
    simp only [rngsSet]
    by_cases ha : a = k
    · subst ha
      simp only [if_true, rngsFind]
      by_cases hk : a = k' <;> simp [hk]
    · simp only [ha, if_false, rngsFind, ih]
      by_cases hak : a = k'
      · subst hak
        have : ¬ k = a := fun h => ha h.symm
        simp [this]
      · simp [hak]

theorem rngsFind_eq_none_iff (m : List (Ident × Bool)) (k : Ident) :
    rngsFind m k = none ↔ k ∉ m.map Prod.fst := by
  induction m with
  | nil => simp [rngsFind]
  | cons e m ih =>
    obtain ⟨a, b⟩ := e
    simp only [rngsFind, List.map_cons, List.mem_cons, not_or]
    by_cases ha : a = k
    · simp [ha]
    · simp only [ha, if_false, ih]
      constructor
      · intro h; exact ⟨fun hh => ha hh.symm, h⟩
      · intro h; exact h.2

theorem rngsSet_keys (m : List (Ident × Bool)) (k : Ident) (v : Bool) :
    (rngsSet m k v).map Prod.fst =
      if k ∈ m.map Prod.fst then m.map Prod.fst else m.map Prod.fst ++ [k] := by
  induction m with
  | nil => simp [rngsSet]
  | cons e m ih =>
    obtain ⟨a, b⟩ := e
    simp only [rngsSet]
    by_cases ha : a = k
    · simp [ha]
    · have hka : ¬ k = a := fun h => ha h.symm
      simp only [ha, if_false, List.map_cons, ih, List.mem_cons, hka, false_or]
      split <;> simp

theorem rngsSet_nodup (m : List (Ident × Bool)) (k : Ident) (v : Bool)
    (h : (m.map Prod.fst).Nodup) : ((rngsSet m k v).map Prod.fst).Nodup := by
  rw [rngsSet_keys]
  split
  · exact h
  · rename_i hk
    rw [List.nodup_append]
    refine ⟨h, by simp, ?_⟩
    intro a ha hb
    simp only [List.mem_singleton] at hb
    subst hb
    exact hk ha

theorem rngsStep_nodup (E : Env) (info : Info) (m : List (Ident × Bool)) (n : Node)
    (h : (m.map Prod.fst).Nodup) : ((rngsStep E info m n).map Prod.fst).Nodup := by
  unfold rngsStep
  split
  · exact rngsSet_nodup m _ _ h
  · split
    · split
      · exact rngsSet_nodup m _ _ h
      · exact h
    · exact h

theorem foldl_rngsStep_nodup (E : Env) (info : Info) (ns : List Node) :
    ∀ m : List (Ident × Bool), (m.map Prod.fst).Nodup →
      ((ns.foldl (rngsStep E info) m).map Prod.fst).Nodup := by
  induction ns with
  | nil => intro m h; exact h
  | cons n ns ih => intro m h; exact ih _ (rngsStep_nodup E info m n h)

theorem mem_iff_rngsFind (m : List (Ident × Bool)) (h : (m.map Prod.fst).Nodup)
    (k : Ident) (v : Bool) : (k, v) ∈ m ↔ rngsFind m k = some v := by
  induction m with
  | nil => simp [rngsFind]
  | cons e m ih =>
    obtain ⟨a, b⟩ := e
    simp only [List.map_cons, List.nodup_cons] at h
    simp only [List.mem_cons, Prod.mk.injEq, rngsFind]
    by_cases ha : a = k
    · subst ha
      simp only [if_true, Option.some.injEq, true_and]
      constructor
      · rintro (h1 | h1)
        · exact h1.symm
        · exact absurd (List.mem_map_of_mem Prod.fst h1) h.1
      · intro h1; exact Or.inl h1.symm
    · have hka : ¬ k = a := fun hh => ha hh.symm
      simp only [ha, if_false, hka, false_and, false_or]
      exact ih h.2

theorem Node.records_eq_none_of_consumes (E : Env) (info : Info) (n : Node) (k : Ident)
    (h : n.consumes E info = some k) : n.records E info = none := by
  cases n <;> first | rfl | simp [Node.consumes, Node.consumesWith] at h

theorem rngsFind_step (E : Env) (info : Info) (m : List (Ident × Bool)) (n : Node)
    (k : Ident) :
    rngsFind (rngsStep E info m n) k =
      if n.consumes E info = some k then some true
      else if n.records E info = some k ∧ rngsFind m k = none then some false
      else rngsFind m k := by
  unfold rngsStep
  cases hc : n.consumes E info with
  | some c =>
    have hr := Node.records_eq_none_of_consumes E info n c hc
    simp only [rngsFind_set, Option.some.injEq, hr]
    by_cases hck : c = k <;> simp [hck]
  | none =>
    simp only
    cases hr : n.records E info with
    | none => simp
    | some r =>
      simp only [Option.some.injEq]
      by_cases hrk : r = k
      · subst hrk
        cases hf : rngsFind m r with
        | none => simp [rngsFind_set]
        | some b => simp [hf]
      · cases hf : rngsFind m r with
        | none => simp [rngsFind_set, hrk]
        | some b => simp [hrk]

theorem foldl_rngsStep_false (E : Env) (info : Info) (k : Ident) (ns : List Node) :
    ∀ m : List (Ident × Bool),
      rngsFind (ns.foldl (rngsStep E info) m) k = some false ↔
        (rngsFind m k = some false ∨
          (rngsFind m k = none ∧ ∃ n, n ∈ ns ∧ n.records E info = some k)) ∧
        ¬ ∃ n, n ∈ ns ∧ n.consumes E info = some k := by
  induction ns with
  | nil => intro m; simp
  | cons n ns ih =>
    intro m
    rw [List.foldl_cons, ih, rngsFind_step]
    by_cases hc : n.consumes E info = some k
    · simp [hc]
    · by_cases hr : n.records E info = some k
      · cases hf : rngsFind m k with
        | none => simp [hc, hr]
        | some b => simp [hc, hr]
      · simp [hc, hr]

theorem forM_inv {σ α : Type} (P : σ → Prop) (body : σ → α → Res σ) (l : List α)
    (hbody : ∀ s a s', a ∈ l → P s → body s a = .ok s' → P s') :
    ∀ s s', P s → forM body s l = .ok s' → P s' := by
  induction l with
  | nil => intro s s' hp h; cases h; exact hp
  | cons a l ih =>
    intro s s' hp h
    rw [forM_cons] at h
    cases hb : body s a with
    | ok s₁ =>
      rw [hb, Res.bind_ok] at h
      exact ih (fun s a' s' ha' => hbody s a' s' (List.mem_cons_of_mem _ ha')) s₁ s'
        (hbody s a s₁ (List.mem_cons_self _ _) hp hb) h
    | fault m => rw [hb] at h; cases h
    | outOfFuel => rw [hb] at h; cases h

theorem checkTemplateFields_rngs (E : Env) (info : Info) (n : Nat)
    (fs : List (String × Ty)) :
    ∀ (i : Nat) (s s' : State × Vetter), checkTemplateFields E info n i fs s = .ok s' →
      s'.2.rngs = s.2.rngs ∧ s'.2.skipFiles = s.2.skipFiles := by
  induction fs with
  | nil => intro i s s' h; cases h; exact ⟨rfl, rfl⟩
  | cons f fs ih =>
    intro i s s' h
    obtain ⟨st, iv⟩ := s
    rw [checkTemplateFields] at h
    rcases hr : isImmType E.U st f.2 with ⟨r, st'⟩
    rw [hr] at h
    cases r with
    | ok b =>
      cases b with
      | true =>
        simp only at h
        have h2 := ih (i + 1) (st', iv) s' h
        exact h2
      | false =>
        simp only at h
        have h2 := ih (i + 1) _ s' h
        exact h2
    | fault m => cases h
    | outOfFuel => cases h

theorem registerSpec_rngs (E : Env) (info : Info) (s s' : State × Vetter) (spec : Node)
    (h : registerSpec E info s spec = .ok s') :
    s'.2.rngs = s.2.rngs ∧ s'.2.skipFiles = s.2.skipFiles := by
  unfold registerSpec at h
  split at h
  · split at h
    · cases h; exact ⟨rfl, rfl⟩
    · split at h
      · simp only at h
        split at h
        · have h2 := checkTemplateFields_rngs E info _ _ _ _ s' h
          exact h2
        · cases h; exact ⟨rfl, rfl⟩
      · cases h
  · cases h

theorem registerDecl_rngs (E : Env) (info : Info) (s s' : State × Vetter) (d : Node)
    (h : registerDecl E info s d = .ok s') :
    s'.2.rngs = s.2.rngs ∧ s'.2.skipFiles = s.2.skipFiles := by
  unfold registerDecl at h
  split at h
  · exact forM_inv (fun x => x.2.rngs = s.2.rngs ∧ x.2.skipFiles = s.2.skipFiles) _ _
      (fun a b c _ hp hb => by
        have := registerSpec_rngs E info a c b hb
        exact ⟨this.1.trans hp.1, this.2.trans hp.2⟩) s s' ⟨rfl, rfl⟩ h
  · cases h; exact ⟨rfl, rfl⟩

theorem registerFile_rngs (E : Env) (info : Info) (s s' : State × Vetter) (f : Node)
    (h : registerFile E info s f = .ok s') :
    s'.2.rngs = s.2.rngs ∧ s'.2.skipFiles = s.2.skipFiles := by
  unfold registerFile at h
  split at h
  · exact forM_inv (fun x => x.2.rngs = s.2.rngs ∧ x.2.skipFiles = s.2.skipFiles) _ _
      (fun a b c _ hp hb => by
        have := registerDecl_rngs E info a c b hb
        exact ⟨this.1.trans hp.1, this.2.trans hp.2⟩) s s' ⟨rfl, rfl⟩ h
  · cases h; exact ⟨rfl, rfl⟩

theorem forM_registerFile_rngs (E : Env) (info : Info) (fs : List Node)
    (s s' : State × Vetter) (h : forM (registerFile E info) s fs = .ok s') :
    s'.2.rngs = s.2.rngs ∧ s'.2.skipFiles = s.2.skipFiles :=
  forM_inv (fun x => x.2.rngs = s.2.rngs ∧ x.2.skipFiles = s.2.skipFiles) _ _
    (fun a b c _ hp hb => by
      have := registerFile_rngs E info a c b hb
      exact ⟨this.1.trans hp.1, this.2.trans hp.2⟩) s s' ⟨rfl, rfl⟩ h

theorem rangeViolations_eq_map (E : Env) (rngs : List (Ident × Bool)) :
    rangeViolations E rngs
      = ((rngs.filter fun kv => kv.2 = false).map Prod.fst).map (rangeViolation E) := by
  simp [rangeViolations, rangeViolation, List.map_map, Function.comp_def]

/-- Counterexample to **C8** as stated: the call `(*MyList).Range(l)` of the
method expression is the iterated subject of a range statement, so its `Range`
identifier is consumed by pattern (a) as the claim states it, and yet
`vetPackages` emits the violation at that identifier. -/
theorem vetPackage_range_rule_counterexample :
    Node.consumesAsStated demoEnv rangeInfo
        (.rangeStmt 300 none none (rangeCall 60 310) (.other 9 330 []))
      = some (rangeIdent 61 312) ∧
    (vetPackages demoEnv State.init [rangePkg]).bind (fun r => .ok r.2)
      = .ok [rangeViolation demoEnv (rangeIdent 51 212),
          rangeViolation demoEnv (rangeIdent 61 312)] := by
  decide

/-- The call `append(ys, l.Range() ...)` with a blank before the ellipsis: the
call of `Range` is spread as the second of two arguments to `append`, and
`vetPackages` emits the violation at the `Range` identifier, since `Visit`
compares the position of the ellipsis with the end of the argument. -/
theorem append_spread_with_gap_not_consumed :
    Node.consumesAsStated demoEnv rangeInfo
        (.callExpr 70 (.ident ⟨71, "append", 100⟩)
          [.ident ⟨72, "ys", 107⟩, rangeCall 40 110] 120 123)
      = some (rangeIdent 41 112) ∧
    (vetPackages demoEnv State.init [⟨[gapFile], some rangeInfo⟩]).bind (fun r => .ok r.2)
      = .ok [rangeViolation demoEnv (rangeIdent 41 112)] := by
  decide

/-! ### C10: the cross-package interface check -/

theorem fieldLoop_inv (P : State → Prop) (classify : State → Ty → Res Bool × State)
    (fs : List (String × Ty))
    (h : ∀ (st : State) (f : String × Ty), f ∈ fs → P st → P (classify st f.2).2) :
    ∀ st, P st → P (fieldLoop classify st fs).2 :=
  fieldLoop_rel (fun _ s s' => P s → P s') (fun _ hp => hp)
    (fun _ _ _ _ h₁ h₂ hp => h₂ (h₁ hp)) classify fs h

theorem leafAnswer_seenCached (U : Universe) (st : State) (t : Ty)
    (h : st.SeenCached U) : (leafAnswer U st t).2.SeenCached U := by
  cases t <;> exact h

theorem pending_seenCached (U : Universe) (st : State) (i : Nat) (h : st.SeenCached U) :
    (st.pending U i).SeenCached U := by
  intro n hn
  show ∃ v, (st.typesCache.store (U.qualName i) true).find (U.qualName n) = some v
  rw [Cache.find_store]
  split
  · exact ⟨true, rfl⟩
  · have hn' : n ∈ setInsert st.seenTypes i := hn
    unfold setInsert at hn'
    split at hn'
    · exact h n hn'
    · rcases List.mem_append.mp hn' with h1 | h1
      · exact h n h1
      · simp only [List.mem_singleton] at h1
        subst h1
        rename_i hne _
        exact absurd rfl hne

theorem namedResult_seenCached (U : Universe) (i : Nat) (r : Res Bool × State)
    (h : r.2.SeenCached U) : (namedResult U i r).2.SeenCached U := by
  rcases r with ⟨r, s⟩
  cases r with
  | ok v =>
    intro n hn
    show ∃ w, (s.typesCache.store (U.qualName i) v).find (U.qualName n) = some w
    rw [Cache.find_store]
    split
    · exact ⟨v, rfl⟩
    · exact h n hn
  | fault m => exact h
  | outOfFuel => exact h

theorem isImmTypeFuel_seenCached (U : Universe) :
    ∀ fuel st t, st.SeenCached U → (isImmTypeFuel U fuel st t).2.SeenCached U := by
  intro fuel
  induction fuel with
  | zero => intro st t h; exact h
  | succ fuel ih =>
    intro st t hs
    rcases isImmTypeFuel_cases U fuel st t with
      ⟨v, _, h⟩ | ⟨_, _, h⟩ | ⟨i, rfl, _, h⟩ | ⟨fs, rfl, _, h⟩
    · rw [h]; exact hs
    · rw [h]; exact leafAnswer_seenCached U st t hs
    · rw [h]
      exact namedResult_seenCached U i _ (ih _ _ (pending_seenCached U st i hs))
    · rw [h]
      exact fieldLoop_inv (fun s => s.SeenCached U) _ fs (fun s f _ hp => ih s f.2 hp) st hs

theorem Reachable.seenCached (U : Universe) (st : State) (h : Reachable U st) :
    st.SeenCached U := by
  induction h with
  | init => intro n hn; cases hn
  | call st t b st' _ hcall ih =>
    have := isImmTypeFuel_seenCached U (fuelFor U st t) st t ih
    unfold isImmType at hcall
    rw [hcall] at this
    exact this

theorem isImmType_pointer (U : Universe) (st : State) (e : Ty) :
    ∃ v, isImmType U st (.pointer e) = (.ok v, st) := by
  unfold isImmType
  obtain ⟨k, hk⟩ := Nat.exists_eq_succ_of_ne_zero
    (Nat.pos_iff_ne_zero.mp (fuelFor_pos U st (.pointer e)))
  rw [hk]
  rcases isImmTypeFuel_cases U k st (.pointer e) with
    ⟨v, _, h⟩ | ⟨_, _, h⟩ | ⟨i, hi, _, _⟩ | ⟨fs, hfs, _, _⟩
  · exact ⟨v, h⟩
  · exact ⟨_, h⟩
  · cases hi
  · cases hfs

theorem crossCheckPointer_eq (E : Env) (i n : Nat) (s : State × List immErr) (st : State) :
    ∃ v, isImmType E.U st (.pointer (.named n)) = (.ok v, st) ∧
      crossCheckPair.crossCheckPointer E i s n st =
        .ok (st, if E.U.Implements (.pointer (.named n)) i = true ∧ v = false then
          s.2 ++ [⟨E.U.declPos n, implementsMsg E (typeString E.U (.pointer (.named n))) i⟩]
          else s.2) := by
  obtain ⟨v, hv⟩ := isImmType_pointer E.U st (.named n)
  refine ⟨v, hv, ?_⟩
  unfold crossCheckPair.crossCheckPointer
  rw [hv]
  by_cases hi : E.U.Implements (.pointer (.named n)) i = true
  · cases v <;> simp [hi]
  · simp [hi]

theorem crossCheckPair_eq (E : Env) (st : State) (hs : st.SeenCached E.U) (i n : Nat)
    (hn : n ∈ st.seenTypes) (es : List immErr) :
    crossCheckPair E i (st, es) n = .ok (st, es ++ (crossViolation E st i n).toList) := by
  obtain ⟨v, hv⟩ := hs n hn
  have hnamed : isImmType E.U st (.named n) = (.ok v, st) := isImmType_hit E.U st (.named n) v hv
  obtain ⟨w, hw, hp⟩ := crossCheckPointer_eq E i n (st, es) st
  unfold crossCheckPair crossViolation
  rw [hnamed, hw]
  by_cases hi : E.U.Implements (.named n) i = true
  · cases v with
    | false => simp [hi]
    | true =>
      simp only [hi, if_true, hp]
      by_cases hj : E.U.Implements (.pointer (.named n)) i = true
      · cases w <;> simp [hj]
      · simp [hj]
  · simp only [hi, Bool.false_eq_true, if_false, hp, false_and]
    by_cases hj : E.U.Implements (.pointer (.named n)) i = true
    · cases w <;> simp [hj]
    · simp [hj]

theorem forM_crossCheckPair (E : Env) (st : State) (hs : st.SeenCached E.U) (i : Nat)
    (ns : List Nat) (hns : ∀ n, n ∈ ns → n ∈ st.seenTypes) :
    ∀ es, forM (crossCheckPair E i) (st, es) ns
      = .ok (st, es ++ ns.filterMap (crossViolation E st i)) := by
  induction ns with
  | nil => intro es; simp [forM]
  | cons n ns ih =>
    intro es
    rw [forM_cons, crossCheckPair_eq E st hs i n (hns n (List.mem_cons_self _ _)), Res.bind_ok,
      ih (fun m hm => hns m (List.mem_cons_of_mem _ hm))]
    simp only [List.filterMap_cons]
    cases crossViolation E st i n <;> simp

theorem forM_crossCheck (E : Env) (st : State) (hs : st.SeenCached E.U) (is : List Nat) :
    ∀ es, forM (fun s i => forM (crossCheckPair E i) s st.seenTypes) (st, es) is
      = .ok (st, es ++ crossViolations E st is) := by
  induction is with
  | nil => intro es; simp [forM, crossViolations]
  | cons i is ih =>
    intro es
    rw [forM_cons, forM_crossCheckPair E st hs i st.seenTypes (fun _ h => h), Res.bind_ok, ih]
    simp [crossViolations]

/-- The check on the package of shapes: `Poly` is reported for its value form,
and `Circle`, which is classified immutable, for its pointer form. -/
theorem crossCheck_shapes :
    (crossCheck shapeEnv shapeState []).bind (fun r => .ok r.2) =
      .ok [⟨⟨"p.go", 7, 6⟩,
            "type *p.Circle which implements interface\x7bArea() float64\x7d is not immutable"⟩,
          ⟨⟨"p.go", 11, 6⟩,
            "type p.Poly which implements interface\x7bArea() float64\x7d is not immutable"⟩] := by
  decide

/-! ### The order of the report (C14) -/

theorem stringLess_map_toNat :
    ∀ l₁ l₂ : List Char,
      stringLess (l₁.map Char.toNat) (l₂.map Char.toNat) = true ↔ l₁ < l₂
  | [], [] => by
    simp only [List.map_nil, stringLess]
    exact ⟨fun h => (by cases h), fun h => (by cases h)⟩
  | [], b :: bs => by
    simp only [List.map_nil, List.map_cons, stringLess]
    exact ⟨fun _ => List.Lex.nil, fun _ => trivial⟩
  | a :: as, [] => by
    simp only [List.map_nil, List.map_cons, stringLess]
    exact ⟨fun h => (by cases h), fun h => (by cases h)⟩
  | a :: as, b :: bs => by
    have ih := stringLess_map_toNat as bs
    have hlt : a < b ↔ a.toNat < b.toNat := Iff.rfl
    simp only [List.map_cons, stringLess, Bool.or_eq_true, Bool.and_eq_true, decide_eq_true_eq]
    constructor
    · rintro (h | ⟨h, hr⟩)
      · exact List.Lex.rel (hlt.mpr h)
      · have hab : a = b := Char.ext (UInt32.ext h)
        subst hab
        exact List.Lex.cons (ih.mp hr)
    · intro h
      cases h with
      | rel h => exact Or.inl (hlt.mp h)
      | cons h => exact Or.inr ⟨rfl, ih.mpr h⟩

/-- The comparison of the model is the order of strings. -/
theorem stringLess_codePoints (a b : String) :
    stringLess (codePoints a) (codePoints b) = true ↔ a < b := by
  rw [String.lt_iff_toList_lt]
  exact stringLess_map_toNat a.data b.data

theorem stringsCompare_eq_zero (a b : String) : stringsCompare a b = 0 ↔ a = b := by
  unfold stringsCompare
  by_cases h : a = b
  · simp [h]
  · rw [if_neg h]
    split <;> simp [h]

theorem stringsCompare_neg (a b : String) : stringsCompare a b < 0 ↔ a < b := by
  unfold stringsCompare
  by_cases h : a = b
  · subst h
    simp
  · rw [if_neg h]
    by_cases hl : stringLess (codePoints a) (codePoints b) = true
    · rw [if_pos hl]
      simpa using (stringLess_codePoints a b).mp hl
    · rw [if_neg hl]
      have := mt (stringLess_codePoints a b).mpr hl
      simpa using this

theorem errors.Less_iff (a b : immErr) : errors.Less a b = true ↔ a.pos.lexLt b.pos := by
  unfold errors.Less Position.lexLt
  simp only
  by_cases hf : a.pos.filename = b.pos.filename
  · have h0 : stringsCompare a.pos.filename b.pos.filename = 0 :=
      (stringsCompare_eq_zero _ _).mpr hf
    have hn : ¬ a.pos.filename < b.pos.filename := by rw [hf]; exact lt_irrefl _
    rw [if_neg (not_not.mpr h0)]
    by_cases hl : a.pos.line = b.pos.line
    · rw [if_neg (not_not.mpr hl)]
      simp [hf, hl]
    · rw [if_pos hl]
      simp [hf, hl]
  · have h0 : stringsCompare a.pos.filename b.pos.filename ≠ 0 :=
      fun h => hf ((stringsCompare_eq_zero _ _).mp h)
    rw [if_pos h0]
    simp [hf, stringsCompare_neg]

theorem Position.lexLt_irrefl (p : Position) : ¬ p.lexLt p := by
  unfold Position.lexLt
  simp

theorem Position.lexLt_trans (p q r : Position) (h1 : p.lexLt q) (h2 : q.lexLt r) :
    p.lexLt r := by
  unfold Position.lexLt at *
  rcases h1 with h1 | ⟨e1, h1⟩
  · rcases h2 with h2 | ⟨e2, _⟩
    · exact Or.inl (lt_trans h1 h2)
    · exact Or.inl (e2 ▸ h1)
  · rcases h2 with h2 | ⟨e2, h2⟩
    · exact Or.inl (e1 ▸ h2)
    · refine Or.inr ⟨e1.trans e2, ?_⟩
      omega

/-- Two positions neither of which stands before the other are the same. -/
theorem Position.eq_of_not_lexLt (p q : Position) (h1 : ¬ p.lexLt q) (h2 : ¬ q.lexLt p) :
    p = q := by
  unfold Position.lexLt at *
  obtain ⟨pf, pl, pc⟩ := p
  obtain ⟨qf, ql, qc⟩ := q
  simp only [not_or, not_and, not_lt] at h1 h2
  have hf : pf = qf := le_antisymm h2.1 h1.1
  subst hf
  have a1 := h1.2 rfl
  have a2 := h2.2 rfl
  have hl : pl = ql := by omega
  subst hl
  have hc : pc = qc := by
    have := a1.2 rfl
    have := a2.2 rfl
    omega
  subst hc
  rfl

/-- **C14.** Ordering law.  `errors.Less` puts the record `a` before the
record `b` exactly when the triple (file name, line, column) of `a` is
lexicographically smaller than that of `b`, the file names compared as strings;
it puts no record before itself, and it is transitive. -/
theorem errors_Less_order :
    (∀ a b : immErr, errors.Less a b = true ↔
      (a.pos.filename < b.pos.filename ∨
        (a.pos.filename = b.pos.filename ∧
          (a.pos.line < b.pos.line ∨
            (a.pos.line = b.pos.line ∧ a.pos.column < b.pos.column))))) ∧
    (∀ a : immErr, errors.Less a a = false) ∧
    (∀ a b c : immErr, errors.Less a b = true → errors.Less b c = true →
      errors.Less a c = true) := by
  refine ⟨fun a b => errors.Less_iff a b, fun a => ?_, fun a b c h1 h2 => ?_⟩
  · cases h : errors.Less a a with
    | false => rfl
    | true => exact absurd ((errors.Less_iff a a).mp h) (Position.lexLt_irrefl _)
  · exact (errors.Less_iff a c).mpr
      (Position.lexLt_trans _ _ _ ((errors.Less_iff a b).mp h1) ((errors.Less_iff b c).mp h2))

/-! ### The sorted report (C15) -/

theorem Position.not_lexLt_trans (p q r : Position) (h1 : ¬ p.lexLt q) (h2 : ¬ q.lexLt r) :
    ¬ p.lexLt r := by
  intro h
  by_cases hqp : q.lexLt p
  · exact h2 (Position.lexLt_trans q p r hqp h)
  · have := Position.eq_of_not_lexLt p q h1 hqp
    subst this
    exact h2 h

theorem errors.Less_eq_false_iff (a b : immErr) :
    errors.Less a b = false ↔ ¬ a.pos.lexLt b.pos := by
  rw [← errors.Less_iff]
  simp

theorem moveLeft_perm (x : immErr) : ∀ before, (moveLeft x before).Perm (x :: before)
  | [] => List.Perm.refl _
  | y :: before => by
    unfold moveLeft
    split
    · exact ((moveLeft_perm x before).cons y).trans (List.Perm.swap x y before)
    · exact List.Perm.refl _

theorem moveLeft_sorted (x : immErr) :
    ∀ before, before.Pairwise (fun a b => errors.Less a b = false) →
      (moveLeft x before).Pairwise (fun a b => errors.Less a b = false)
  | [], _ => List.pairwise_singleton _ _
  | y :: before, h => by
    unfold moveLeft
    rw [List.pairwise_cons] at h
    split
    · rename_i hxy
      rw [List.pairwise_cons]
      refine ⟨fun z hz => ?_, moveLeft_sorted x before h.2⟩
      rcases List.mem_cons.mp ((moveLeft_perm x before).subset hz) with rfl | hz
      · rw [errors.Less_eq_false_iff]
        intro hyx
        exact Position.lexLt_irrefl _
          (Position.lexLt_trans _ _ _ ((errors.Less_iff _ _).mp hxy) hyx)
      · exact h.1 z hz
    · rename_i hxy
      have hxy' : errors.Less x y = false := by simpa using hxy
      rw [List.pairwise_cons]
      refine ⟨fun z hz => ?_, List.pairwise_cons.mpr h⟩
      rcases List.mem_cons.mp hz with rfl | hz
      · exact hxy'
      · rw [errors.Less_eq_false_iff]
        exact Position.not_lexLt_trans _ _ _ ((errors.Less_eq_false_iff _ _).mp hxy')
          ((errors.Less_eq_false_iff _ _).mp (h.1 z hz))

theorem foldl_moveLeft (e : errors) :
    ∀ before, before.Pairwise (fun a b => errors.Less a b = false) →
      (e.foldl (fun before x => moveLeft x before) before).Perm (e.reverse ++ before) ∧
      (e.foldl (fun before x => moveLeft x before) before).Pairwise
        (fun a b => errors.Less a b = false) := by
  induction e with
  | nil => intro before h; exact ⟨List.Perm.refl _, h⟩
  | cons x e ih =>
    intro before h
    rw [List.foldl_cons]
    have := ih (moveLeft x before) (moveLeft_sorted x before h)
    refine ⟨this.1.trans ?_, this.2⟩
    rw [List.reverse_cons, List.append_assoc]
    exact List.Perm.append_left _ (moveLeft_perm x before)

/-- The insertion sort keeps the promise of `sort.Sort`. -/
theorem sortErrors_sortOf (e : errors) : errors.SortOf e (sortErrors e) := by
  have h := foldl_moveLeft e [] List.Pairwise.nil
  unfold errors.SortOf sortErrors
  refine ⟨(List.reverse_perm _).trans (h.1.trans ?_), List.pairwise_reverse.mpr h.2⟩
  rw [List.append_nil]
  exact List.reverse_perm _

/-- The report of `vet`: when `vet` returns, its result is the sorted list of
the records it collected, so `Less` puts no record of it before an earlier
one. -/
theorem vet_sorted (E : Env) (Rel : String → Option String) (specs : List Spec)
    (es : List immErr) (h : vet E Rel specs = .ok es) :
    ∃ found, es = sortErrors found ∧ errors.SortOf found es := by
  unfold vet at h
  cases h1 : forM (vetSpec E) (State.init, []) specs with
  | ok s =>
    rw [h1, Res.bind_ok] at h
    cases h2 : crossCheck E s.1 s.2 with
    | ok r =>
      rw [h2, Res.bind_ok] at h
      cases h3 : forM (relativize Rel) [] r.2 with
      | ok found =>
        rw [h3, Res.bind_ok] at h
        cases h
        exact ⟨found, rfl, sortErrors_sortOf found⟩
      | fault m => rw [h3] at h; cases h
      | outOfFuel => rw [h3] at h; cases h
    | fault m => rw [h2] at h; cases h
    | outOfFuel => rw [h2] at h; cases h
  | fault m => rw [h1] at h; cases h
  | outOfFuel => rw [h1] at h; cases h

/-- The positions of a sorted report are determined by the collection of the
records. -/
theorem errors.SortOf.positions (l₁ l₂ s₁ s₂ : errors) (hp : l₁.Perm l₂)
    (h1 : errors.SortOf l₁ s₁) (h2 : errors.SortOf l₂ s₂) :
    s₁.map (fun e => e.pos) = s₂.map (fun e => e.pos) := by
  haveI : IsAntisymm Position (fun p q => ¬ q.lexLt p) :=
    ⟨fun p q hpq hqp => Position.eq_of_not_lexLt p q hqp hpq⟩
  have hperm : (s₁.map (fun e => e.pos)).Perm (s₂.map (fun e => e.pos)) :=
    ((h1.1.trans hp).trans h2.1.symm).map _
  have hs : ∀ s : errors, s.Pairwise (fun a b => errors.Less b a = false) →
      List.Sorted (fun p q => ¬ q.lexLt p) (s.map (fun e => e.pos)) := by
    intro s h
    refine List.pairwise_map.mpr (h.imp ?_)
    intro a b hab
    exact (errors.Less_eq_false_iff b a).mp hab
  exact List.eq_of_perm_of_sorted hperm (hs s₁ h1.2) (hs s₂ h2.2)

theorem eq_of_map_eq_of_inj {α β : Type} (f : α → β) :
    ∀ s₁ s₂ : List α, s₁.map f = s₂.map f →
      (∀ a, a ∈ s₁ → ∀ b, b ∈ s₂ → f a = f b → a = b) → s₁ = s₂
  | [], [], _, _ => rfl
  | [], _ :: _, h, _ => by cases h
  | _ :: _, [], h, _ => by cases h
  | a :: s₁, b :: s₂, h, hinj => by
    simp only [List.map_cons, List.cons.injEq] at h
    have hab := hinj a (List.mem_cons_self _ _) b (List.mem_cons_self _ _) h.1
    subst hab
    rw [eq_of_map_eq_of_inj f s₁ s₂ h.2
      (fun x hx y hy => hinj x (List.mem_cons_of_mem _ hx) y (List.mem_cons_of_mem _ hy))]

theorem errors.distinctPositions_iff (e : errors) :
    e.distinctPositions = true ↔ ∀ a, a ∈ e → ∀ b, b ∈ e → a.pos = b.pos → a = b := by
  simp [errors.distinctPositions, imp_iff_not_or]

/-- Counterexample to **C15** as stated: the two violations of a map type
whose key and value both want the pointer form stand at the same position; the
two orders in which they can be found are permutations of each other, and the
sorted reports render to different lists of lines. -/
theorem sortErrors_permutation_counterexample :
    [keyViolation, valueViolation].Perm [valueViolation, keyViolation] ∧
    (sortErrors [keyViolation, valueViolation]).map immErr.String
      = ["a.go:3:7: type should be *example.com/p.Key",
         "a.go:3:7: type should be *example.com/p.Value"] ∧
    (sortErrors [valueViolation, keyViolation]).map immErr.String
      = ["a.go:3:7: type should be *example.com/p.Value",
         "a.go:3:7: type should be *example.com/p.Key"] ∧
    (sortErrors [keyViolation, valueViolation]).map immErr.String
      ≠ (sortErrors [valueViolation, keyViolation]).map immErr.String :=
  ⟨List.Perm.swap _ _ _, by decide, by decide, by decide⟩

/-- **C15** (amended).  Deterministic report order.  Whatever sorted
permutations `sort.Sort` returns for two permutations of the same violation
records, the two reports have the same positions in the same order; when no
two different records of the collection share file, line and column, they are
the same list and render to the same lines.  The insertion sort of the model
returns such a sorted permutation. -/
theorem sorted_report_deterministic (l₁ l₂ s₁ s₂ : errors) (hp : l₁.Perm l₂)
    (h1 : errors.SortOf l₁ s₁) (h2 : errors.SortOf l₂ s₂) :
    s₁.map (fun e => e.pos) = s₂.map (fun e => e.pos) ∧
    (l₁.distinctPositions = true →
      s₁ = s₂ ∧ s₁.map immErr.String = s₂.map immErr.String) ∧
    errors.SortOf l₁ (sortErrors l₁) ∧ errors.SortOf l₂ (sortErrors l₂) := by
  have hpos := errors.SortOf.positions l₁ l₂ s₁ s₂ hp h1 h2
  refine ⟨hpos, fun hd => ?_, sortErrors_sortOf l₁, sortErrors_sortOf l₂⟩
  have hd' := (errors.distinctPositions_iff l₁).mp hd
  have : s₁ = s₂ :=
    eq_of_map_eq_of_inj (fun e => e.pos) s₁ s₂ hpos
      (fun a ha b hb hab =>
        hd' a (h1.1.subset ha) b (hp.symm.subset (h2.1.subset hb)) hab)
  exact ⟨this, by rw [this]⟩

/-- Witness of **C15** (amended): three violations at three positions, found
in two orders. -/
theorem sorted_report_deterministic_witness :
    (sortErrors [keyViolation, ⟨⟨"a.go", 2, 1⟩, rangeMsg⟩, ⟨⟨"b.go", 1, 1⟩, constructMsg⟩]).map
        (fun e => e.pos)
      = (sortErrors [⟨⟨"b.go", 1, 1⟩, constructMsg⟩, keyViolation,
          ⟨⟨"a.go", 2, 1⟩, rangeMsg⟩]).map (fun e => e.pos) ∧
    (errors.distinctPositions
        [keyViolation, ⟨⟨"a.go", 2, 1⟩, rangeMsg⟩, ⟨⟨"b.go", 1, 1⟩, constructMsg⟩] = true →
      sortErrors [keyViolation, ⟨⟨"a.go", 2, 1⟩, rangeMsg⟩, ⟨⟨"b.go", 1, 1⟩, constructMsg⟩]
        = sortErrors [⟨⟨"b.go", 1, 1⟩, constructMsg⟩, keyViolation, ⟨⟨"a.go", 2, 1⟩, rangeMsg⟩] ∧
      (sortErrors [keyViolation, ⟨⟨"a.go", 2, 1⟩, rangeMsg⟩,
          ⟨⟨"b.go", 1, 1⟩, constructMsg⟩]).map immErr.String
        = (sortErrors [⟨⟨"b.go", 1, 1⟩, constructMsg⟩, keyViolation,
          ⟨⟨"a.go", 2, 1⟩, rangeMsg⟩]).map immErr.String) ∧
    errors.SortOf [keyViolation, ⟨⟨"a.go", 2, 1⟩, rangeMsg⟩, ⟨⟨"b.go", 1, 1⟩, constructMsg⟩]
      (sortErrors [keyViolation, ⟨⟨"a.go", 2, 1⟩, rangeMsg⟩, ⟨⟨"b.go", 1, 1⟩, constructMsg⟩]) ∧
    errors.SortOf [⟨⟨"b.go", 1, 1⟩, constructMsg⟩, keyViolation, ⟨⟨"a.go", 2, 1⟩, rangeMsg⟩]
      (sortErrors [⟨⟨"b.go", 1, 1⟩, constructMsg⟩, keyViolation, ⟨⟨"a.go", 2, 1⟩, rangeMsg⟩]) :=
  sorted_report_deterministic _ _ _ _
    (show List.Perm ([keyViolation, ⟨⟨"a.go", 2, 1⟩, rangeMsg⟩] ++ [⟨⟨"b.go", 1, 1⟩, constructMsg⟩])
      ([⟨⟨"b.go", 1, 1⟩, constructMsg⟩] ++ [keyViolation, ⟨⟨"a.go", 2, 1⟩, rangeMsg⟩])
      from List.perm_append_comm)
    (sortErrors_sortOf _) (sortErrors_sortOf _)

/-! ### Unsupported shapes, pointers and containers (C17, C18, C19) -/

theorem isImmType_leaf (U : Universe) (st : State) (t : Ty) (hl : t.isLeaf = true)
    (h : st.typesCache.find (typeString U t) = none) :
    isImmType U st t = leafAnswer U st t := by
  unfold isImmType
  obtain ⟨k, hk⟩ := Nat.exists_eq_succ_of_ne_zero
    (Nat.pos_iff_ne_zero.mp (fuelFor_pos U st t))
  rw [hk]
  exact isImmTypeFuel_leaf U k st t hl h

/-- **C17.** Unsupported type shapes are a tool fault.  For a type that has
no cache entry and whose shape is none of named, basic, map, slice, pointer,
struct, interface and signature, `isImmType` ends in the fault
"unable to handle type ..." instead of a verdict and leaves the package-level
variables as they were; the loop over the fields of a template that meets such
a field type ends in the same fault, so it hands no violation list on. -/
theorem isImmType_unsupported_shape (E : Env) (st : State) (t : Ty)
    (hs : t.unsupportedShape = true)
    (hc : st.typesCache.find (typeString E.U t) = none) :
    isImmType E.U st t = (.fault (unableToHandle E.U t), st) ∧
    (∃ rest, unableToHandle E.U t = "unable to handle type " ++ rest) ∧
    (∀ b, (isImmType E.U st t).1 ≠ .ok b) ∧
    ∀ (info : Info) (n i : Nat) (name : String) (fs : List (String × Ty)) (iv : Vetter),
      checkTemplateFields E info n i ((name, t) :: fs) (st, iv)
        = .fault (unableToHandle E.U t) := by
  have hl : t.isLeaf = true := by cases t <;> simp_all [Ty.unsupportedShape, Ty.isLeaf]
  have h : isImmType E.U st t = (.fault (unableToHandle E.U t), st) := by
    rw [isImmType_leaf E.U st t hl hc]
    cases t <;> simp_all [Ty.unsupportedShape, leafAnswer]
  refine ⟨h, ⟨_, rfl⟩, ?_, ?_⟩
  · intro b hb
    rw [h] at hb
    cases hb
  · intro info n i name fs iv
    rw [checkTemplateFields, h]

/-- Witness of **C17**: the array type `[3]int` at program start. -/
theorem isImmType_unsupported_shape_witness :
    isImmType demoEnv.U State.init (.array 3 (.basic .int))
      = (.fault (unableToHandle demoEnv.U (.array 3 (.basic .int))), State.init) ∧
    (∃ rest, unableToHandle demoEnv.U (.array 3 (.basic .int))
      = "unable to handle type " ++ rest) ∧
    (∀ b, (isImmType demoEnv.U State.init (.array 3 (.basic .int))).1 ≠ .ok b) ∧
    ∀ (info : Info) (n i : Nat) (name : String) (fs : List (String × Ty)) (iv : Vetter),
      checkTemplateFields demoEnv info n i ((name, .array 3 (.basic .int)) :: fs)
          (State.init, iv)
        = .fault (unableToHandle demoEnv.U (.array 3 (.basic .int))) :=
  isImmType_unsupported_shape demoEnv State.init (.array 3 (.basic .int)) (by decide)
    (by decide)

/-- A key that is no qualified name of a named type keeps the entry it had. -/
theorem Cache.Logged.find_unassigned (U : Universe) (strict : Bool) (c c' : Cache) (k : String)
    (h : Cache.Logged U strict c c') (hk : ∀ i, k ≠ U.qualName i) :
    c'.find k = c.find k := by
  obtain ⟨w, rfl, hw⟩ := h
  rcases hw k with h0 | ⟨_, ⟨i, hi⟩, _⟩
  · exact Cache.find_eq_none_of_writesTo w c k h0
  · exact absurd hi (hk i)

/-- In every state a run can be in, a key that is no qualified name of a named
type has the entry of the pre-seeded cache, or none. -/
theorem Reachable.find_seed (U : Universe) (st : State) (hr : Reachable U st) (k : String)
    (hk : ∀ i, k ≠ U.qualName i) :
    st.typesCache.find k = typesCache.find k := by
  induction hr with
  | init => rfl
  | call st t b st' _ hcall ih =>
    have hl := isImmTypeFuel_logged U (fuelFor U st t) st t
    unfold isImmType at hcall
    rw [hcall] at hl
    rw [Cache.Logged.find_unassigned U _ _ _ k hl hk]
    exact ih

theorem find_seed_of_ne (k : String) (h1 : k ≠ "time.Time") (h2 : k ≠ "*time.Time") :
    typesCache.find k = none := by
  simp [typesCache, Cache.find, Ne.symm h1, Ne.symm h2]

theorem typeString_slice_ne (U : Universe) (e : Ty) :
    typeString U (.slice e) ≠ "time.Time" ∧ typeString U (.slice e) ≠ "*time.Time" := by
  constructor <;>
  · intro h
    have := congrArg String.data h
    simp [typeString, String.data_append] at this

theorem typeString_map_ne (U : Universe) (k e : Ty) :
    typeString U (.map k e) ≠ "time.Time" ∧ typeString U (.map k e) ≠ "*time.Time" := by
  constructor <;>
  · intro h
    have := congrArg String.data h
    simp [typeString, String.data_append] at this

theorem typeString_array_ne (U : Universe) (n : Nat) (e : Ty) :
    typeString U (.array n e) ≠ "time.Time" ∧ typeString U (.array n e) ≠ "*time.Time" := by
  constructor <;>
  · intro h
    have := congrArg String.data h
    simp [typeString, String.data_append] at this

theorem typeString_pointer_ne (U : Universe) (e : Ty) :
    typeString U (.pointer e) ≠ "time.Time" := by
  intro h
  have := congrArg String.data h
  simp [typeString, String.data_append] at this

/-- Counterexample to **C18** as stated: the pointer type `*time.Time` is
classified immutable at program start, from the pre-seeded cache entry,
although `immutable.IsImmType` does not accept it. -/
theorem isImmType_pointer_counterexample :
    (isImmType timeUniverse State.init (.pointer (.named 0))).1 = .ok true ∧
    timeUniverse.IsImmType (.pointer (.named 0)) = none ∧
    typeString timeUniverse (.pointer (.named 0)) = "*time.Time" := by
  decide

/-- **C18** (amended).  In every state a run can be in, `isImmType` of a
pointer type that does not print as `*time.Time` returns immutable exactly
when `immutable.IsImmType` accepts the pointer type, and leaves the
package-level variables as they were; a pointer type that prints as
`*time.Time` is immutable by the pre-seeded cache entry. -/
theorem isImmType_pointer_iff (U : Universe) (st : State) (e : Ty)
    (hg : U.goodNames = true) (hr : Reachable U st) :
    (typeString U (.pointer e) ≠ "*time.Time" →
      isImmType U st (.pointer e) = (.ok (U.IsImmType (.pointer e)).isSome, st) ∧
      ((isImmType U st (.pointer e)).1 = .ok true ↔
        (U.IsImmType (.pointer e)).isSome = true)) ∧
    (typeString U (.pointer e) = "*time.Time" →
      isImmType U st (.pointer e) = (.ok true, st)) := by
  have hk : ∀ i, typeString U (.pointer e) ≠ U.qualName i :=
    typeString_ne_qualName U hg (.pointer e) (fun i h => by cases h)
  have hf := Reachable.find_seed U st hr _ hk
  constructor
  · intro hne
    have hc : st.typesCache.find (typeString U (.pointer e)) = none := by
      rw [hf]
      exact find_seed_of_ne _ (typeString_pointer_ne U e) hne
    have h := isImmType_leaf U st (.pointer e) rfl hc
    refine ⟨h, ?_⟩
    rw [h]
    simp [leafAnswer]
  · intro heq
    apply isImmType_hit
    rw [hf, heq]
    rfl

/-- Witness of **C18** (amended): the pointer types `*MyStruct`, a template,
and `**MyStruct`, none, at program start. -/
theorem isImmType_pointer_iff_witness :
    ((typeString demoUniverse (.pointer (.named 1)) ≠ "*time.Time" →
      isImmType demoUniverse State.init (.pointer (.named 1))
        = (.ok (demoUniverse.IsImmType (.pointer (.named 1))).isSome, State.init) ∧
      ((isImmType demoUniverse State.init (.pointer (.named 1))).1 = .ok true ↔
        (demoUniverse.IsImmType (.pointer (.named 1))).isSome = true)) ∧
    (typeString demoUniverse (.pointer (.named 1)) = "*time.Time" →
      isImmType demoUniverse State.init (.pointer (.named 1)) = (.ok true, State.init))) ∧
    (isImmType demoUniverse State.init (.pointer (.named 1))).1 = .ok true ∧
    (isImmType demoUniverse State.init (.pointer (.pointer (.named 1)))).1 = .ok false :=
  ⟨isImmType_pointer_iff demoUniverse State.init (.named 1) (by decide) Reachable.init,
    by decide, by decide⟩

/-- Counterexample to **C19** as stated: for the array type `[3]int`, which is
no template, `isImmType` returns no verdict; it ends in the fault
"unable to handle type". -/
theorem isImmType_array_counterexample :
    isImmType demoUniverse State.init (.array 3 (.basic .int))
      = (.fault "unable to handle type *types.Array [3]int", State.init) ∧
    (isImmType demoUniverse State.init (.array 3 (.basic .int))).1 ≠ .ok false := by
  decide

/-- **C19** (amended).  In every state a run can be in, `isImmType` returns
false for every slice type and every map type, whatever the element, key and
value types are, and leaves the package-level variables as they were; for an
array type it returns no verdict and ends in the fault
"unable to handle type". -/
theorem isImmType_container (U : Universe) (st : State) (hg : U.goodNames = true)
    (hr : Reachable U st) :
    (∀ e, isImmType U st (.slice e) = (.ok false, st)) ∧
    (∀ k e, isImmType U st (.map k e) = (.ok false, st)) ∧
    (∀ n e, isImmType U st (.array n e) = (.fault (unableToHandle U (.array n e)), st)) := by
  have hc : ∀ t : Ty, (∀ i, t ≠ .named i) → typeString U t ≠ "time.Time" →
      typeString U t ≠ "*time.Time" → st.typesCache.find (typeString U t) = none := by
    intro t hn h1 h2
    rw [Reachable.find_seed U st hr _ (typeString_ne_qualName U hg t hn)]
    exact find_seed_of_ne _ h1 h2
  refine ⟨fun e => ?_, fun k e => ?_, fun n e => ?_⟩
  · exact isImmType_leaf U st (.slice e) rfl
      (hc _ (fun i h => by cases h) (typeString_slice_ne U e).1 (typeString_slice_ne U e).2)
  · exact isImmType_leaf U st (.map k e) rfl
      (hc _ (fun i h => by cases h) (typeString_map_ne U k e).1 (typeString_map_ne U k e).2)
  · exact isImmType_leaf U st (.array n e) rfl
      (hc _ (fun i h => by cases h) (typeString_array_ne U n e).1
        (typeString_array_ne U n e).2)

/-- Witness of **C19** (amended): the demo package at program start. -/
theorem isImmType_container_witness :
    (∀ e, isImmType demoUniverse State.init (.slice e) = (.ok false, State.init)) ∧
    (∀ k e, isImmType demoUniverse State.init (.map k e) = (.ok false, State.init)) ∧
    (∀ n e, isImmType demoUniverse State.init (.array n e)
      = (.fault (unableToHandle demoUniverse (.array n e)), State.init)) :=
  isImmType_container demoUniverse State.init (by decide) Reachable.init

/-! ### The skip-file comment (C20) and the faults of `Visit` (C16) -/

theorem hasSkipFileComment_of_mem (E : Env) (comments : List (List String))
    (cg : List String) (c : String) (hcg : cg ∈ comments) (hc : c ∈ cg)
    (h : c = skipFileComment E) : hasSkipFileComment E comments = true := by
  unfold hasSkipFileComment
  rw [List.any_eq_true]
  refine ⟨cg, hcg, ?_⟩
  rw [List.any_eq_true]
  exact ⟨c, hc, by simpa using h⟩

/-- **C20.** The skip-file comment.  When some comment of a file, in whatever
comment group, is the skip-file comment, the visit of the file adds the file
name to `skipFiles`, changes nothing else of the vetter (not the violation
list, the map of `Range` calls, the set of handled literals or the templates)
and returns no visitor; the walk of the file visits the file node alone and
ends in the same vetter. -/
theorem Visit_skip_file (E : Env) (info : Info) (iv : Vetter) (pos : Nat)
    (comments : List (List String)) (decls : List Node) (cg : List String) (c : String)
    (hcg : cg ∈ comments) (hc : c ∈ cg) (h : c = skipFileComment E) :
    Visit E info iv (.file pos comments decls)
      = .ok ({ iv with skipFiles := iv.skipFiles ++ [(E.Position pos).filename] }, false) ∧
    Walk E info iv (.file pos comments decls)
      = .ok { iv with skipFiles := iv.skipFiles ++ [(E.Position pos).filename] } ∧
    (Node.file pos comments decls).preorder E = [.file pos comments decls] ∧
    ∀ iv', Walk E info iv (.file pos comments decls) = .ok iv' →
      iv'.errlist = iv.errlist ∧ iv'.rngs = iv.rngs ∧ iv'.vcls = iv.vcls ∧
      iv'.immTmpls = iv.immTmpls := by
  have hs := hasSkipFileComment_of_mem E comments cg c hcg hc h
  have hv : Visit E info iv (.file pos comments decls)
      = .ok ({ iv with skipFiles := iv.skipFiles ++ [(E.Position pos).filename] }, false) := by
    simp only [Visit, hs, if_true]
  have hw : Walk E info iv (.file pos comments decls)
      = .ok { iv with skipFiles := iv.skipFiles ++ [(E.Position pos).filename] } := by
    rw [Walk, hv]
  refine ⟨hv, hw, ?_, ?_⟩
  · rw [Node.preorder]
    simp [hs]
  · intro iv' h'
    rw [hw] at h'
    cases h'
    exact ⟨rfl, rfl, rfl, rfl⟩

/-- Witness of **C20**: the file `skip.go` whose last comment is the skip-file
comment. -/
theorem Visit_skip_file_witness :
    Visit demoEnv demoInfo newImmutableVetter lateSkipFile
      = .ok ({ newImmutableVetter with skipFiles := ["skip.go"] }, false) ∧
    Walk demoEnv demoInfo newImmutableVetter lateSkipFile
      = .ok { newImmutableVetter with skipFiles := ["skip.go"] } ∧
    lateSkipFile.preorder demoEnv = [lateSkipFile] ∧
    ∀ iv', Walk demoEnv demoInfo newImmutableVetter lateSkipFile = .ok iv' →
      iv'.errlist = [] ∧ iv'.rngs = [] ∧ iv'.vcls = [] ∧ iv'.immTmpls = [] :=
  Visit_skip_file demoEnv demoInfo newImmutableVetter 1000
    [["// Package p", "// holds examples"], ["// trailing", "//immutableVet:skipFile"]]
    [.genDecl 1005 false [.valueSpec 1005 (some (myStructExpr 22 1011)) []],
     .other 6 1020 [addrOfLit 20 1030, rangeCall 50 1040]]
    ["// trailing", "//immutableVet:skipFile"] "//immutableVet:skipFile"
    (by decide) (by decide) (by decide)

/-- The visit of a node that is no range statement returns. -/
theorem Visit_ok_of_not_rangeStmt (E : Env) (info : Info) (iv : Vetter) (n : Node)
    (h : ∀ pos key value x body, n ≠ .rangeStmt pos key value x body) :
    ∃ r, Visit E info iv n = .ok r := by
  cases n with
  | rangeStmt pos key value x body => exact absurd rfl (h pos key value x body)
  | file pos comments decls =>
    simp only [Visit]
    split <;> exact ⟨_, rfl⟩
  | compositeLit id pos type elts =>
    simp only [Visit]
    split <;> exact ⟨_, rfl⟩
  | callExpr id fn args ellipsis rparen =>
    simp only [Visit]
    split <;> exact ⟨_, rfl⟩
  | _ => exact ⟨_, rfl⟩

/-- **C16** (the code departs from it).  The visit of the range statement
`for _, f := range strings.Fields(s) { _ = f }` ends in the fault
"unable to type selection", because `info.Selections` has no entry for the
qualified identifier `strings.Fields`, and with it the walk and the run of the
package; the visit of the same call outside a range statement returns, as the
comment in the call case says it should. -/
theorem Visit_rangeStmt_faults :
    Visit demoEnv rangeInfo newImmutableVetter rangeOverQualified
      = .fault "unable to type selection" ∧
    Walk demoEnv rangeInfo newImmutableVetter rangeOverQualified
      = .fault "unable to type selection" ∧
    vetPackage demoEnv (State.init, newImmutableVetter) qualifiedPkg
      = .fault "unable to type selection" ∧
    Visit demoEnv rangeInfo newImmutableVetter qualifiedCall
      = .ok (newImmutableVetter, true) := by
  decide

/-! ### The pointer-form rule (C12) -/

theorem ensurePointerTyp_eq (E : Env) (info : Info) (iv : Vetter) (n : Node)
    (typ : Option Node) :
    ensurePointerTyp E info iv n typ
      = { iv with errlist := iv.errlist ++ (pointerFormViolation E info n typ).toList } := by
  unfold ensurePointerTyp pointerFormViolation
  cases h : E.IsImmTypeOfPointerTo (info.typeOf typ) with
  | none => simp
  | some f => cases f <;> simp [Vetter.errorf]

/-- Counterexample to **C12** as stated: the struct type `MyStruct`, whose one
field is a string, is classified immutable, and the visit of the declaration
`var x MyStruct` still emits "type should be *p.MyStruct", because
`immutable.IsImmType` accepts the pointer form; the classifier is not asked. -/
theorem Visit_pointer_form_counterexample :
    (isImmType demoEnv.U State.init (.named 1)).1 = .ok true ∧
    demoInfo.typeOf (some (myStructExpr 12 11)) = some (.named 1) ∧
    Visit demoEnv demoInfo newImmutableVetter varOfStruct
      = .ok ({ newImmutableVetter with
                errlist := [⟨⟨"a.go", 10, 1⟩, "type should be *p.MyStruct"⟩] }, true) :=
  ⟨by decide, rfl, by decide⟩

/-- **C12** (amended).  The pointer-form rule.  The visit of a node that
declares or constrains a type (a variable declaration, an array or slice type,
a map type, a field, a type declaration) returns, goes on below the node, and
appends to the violation list one violation for each of the node's type
expressions, in order, whose pointer form `immutable.IsImmType` accepts,
whatever the classifier says of the type itself; the violation is positioned at
the node and reads "type should be *T".  Nothing else of the vetter
changes. -/
theorem Visit_pointer_form (E : Env) (info : Info) (iv : Vetter) (n : Node)
    (hn : n.typePositions.isEmpty = false) :
    Visit E info iv n
      = .ok ({ iv with
                errlist := iv.errlist
                  ++ n.typePositions.filterMap (pointerFormViolation E info n) }, true) ∧
    ∀ typ,
      ((pointerFormViolation E info n typ).isSome = true ↔
        ∃ flavour, E.IsImmTypeOfPointerTo (info.typeOf typ) = some flavour) ∧
      (∀ e, pointerFormViolation E info n typ = some e →
        e.pos = E.Position n.pos ∧
        e.msg = "type should be " ++ pointerString E.U (info.typeOf typ)) := by
  constructor
  · cases n with
    | valueSpec pos type values =>
      simp only [Visit, ensurePointerTyp_eq, Node.typePositions]
      cases h : pointerFormViolation E info (.valueSpec pos type values) type <;>
        simp [List.filterMap, h]
    | arrayType id pos len elt =>
      simp only [Visit, ensurePointerTyp_eq, Node.typePositions]
      cases h : pointerFormViolation E info (.arrayType id pos len elt) (some elt) <;>
        simp [List.filterMap, h]
    | mapType id pos key value =>
      simp only [Visit, ensurePointerTyp_eq, Node.typePositions]
      cases h : pointerFormViolation E info (.mapType id pos key value) (some key) <;>
        cases h' : pointerFormViolation E info (.mapType id pos key value) (some value) <;>
          simp [List.filterMap, h, h']
    | field pos type =>
      simp only [Visit, ensurePointerTyp_eq, Node.typePositions]
      cases h : pointerFormViolation E info (.field pos type) (some type) <;>
        simp [List.filterMap, h]
    | typeSpec pos name type =>
      simp only [Visit, ensurePointerTyp_eq, Node.typePositions]
      cases h : pointerFormViolation E info (.typeSpec pos name type) (some type) <;>
        simp [List.filterMap, h]
    | _ => simp [Node.typePositions] at hn
  · intro typ
    unfold pointerFormViolation
    cases h : E.IsImmTypeOfPointerTo (info.typeOf typ) with
    | none => simp
    | some f =>
      refine ⟨by simp, fun e he => ?_⟩
      simp only [Option.isSome_some, if_true, Option.some.injEq] at he
      subst he
      exact ⟨rfl, rfl⟩

/-- Witness of **C12** (amended): the declaration `var x MyStruct`. -/
theorem Visit_pointer_form_witness :
    Visit demoEnv demoInfo newImmutableVetter varOfStruct
      = .ok ({ newImmutableVetter with
                errlist := newImmutableVetter.errlist
                  ++ varOfStruct.typePositions.filterMap
                      (pointerFormViolation demoEnv demoInfo varOfStruct) }, true) ∧
    ∀ typ,
      ((pointerFormViolation demoEnv demoInfo varOfStruct typ).isSome = true ↔
        ∃ flavour, demoEnv.IsImmTypeOfPointerTo (demoInfo.typeOf typ) = some flavour) ∧
      (∀ e, pointerFormViolation demoEnv demoInfo varOfStruct typ = some e →
        e.pos = demoEnv.Position varOfStruct.pos ∧
        e.msg = "type should be " ++ pointerString demoEnv.U (demoInfo.typeOf typ)) :=
  Visit_pointer_form demoEnv demoInfo newImmutableVetter varOfStruct (by decide)

/-! ### The template-leakage rule (C13) -/

/-- The method `isImmTmpl` looks through every pointer layer for a member of
`immTmpls`. -/
theorem Vetter.isImmTmpl_eq (iv : Vetter) :
    ∀ t : Ty, iv.isImmTmpl t = isTrackedTemplate iv.immTmpls t
  | .pointer e => by
    rw [Vetter.isImmTmpl, Vetter.isImmTmpl_eq iv e]
    simp only [isTrackedTemplate, Ty.stripPointers]
  | .named _ => rfl
  | .basic _ => rfl
  | .map _ _ => rfl
  | .slice _ => rfl
  | .struct _ => rfl
  | .interface _ _ => rfl
  | .signature _ _ => rfl
  | .array _ _ => rfl
  | .chan _ => rfl
  | .tuple _ => rfl

theorem checkTemplateUse_eq (E : Env) (iv : Vetter) (en : TypesEntry) :
    checkTemplateUse E iv en
      = { iv with
          errlist := iv.errlist ++ (templateUseViolation E iv.immTmpls en).toList } := by
  unfold checkTemplateUse templateUseViolation
  rw [Vetter.isImmTmpl_eq]
  cases h1 : en.isType <;> cases h2 : isTrackedTemplate iv.immTmpls en.type <;>
    cases h3 : E.FileGeneratedBy (E.Position en.pos).filename <;>
    simp [Vetter.errorf]

theorem foldl_checkTemplateUse (E : Env) (l : List TypesEntry) :
    ∀ iv, l.foldl (checkTemplateUse E) iv
      = { iv with errlist := iv.errlist ++ l.filterMap (templateUseViolation E iv.immTmpls) } := by
  induction l with
  | nil => intro iv; simp
  | cons en l ih =>
    intro iv
    rw [List.foldl_cons, ih, checkTemplateUse_eq]
    cases h : templateUseViolation E iv.immTmpls en <;> simp [List.filterMap_cons, h]

/-- A visit leaves the set of templates as it was. -/
theorem Visit_immTmpls (E : Env) (info : Info) (iv : Vetter) (n : Node)
    (r : Vetter × Bool) (h : Visit E info iv n = .ok r) : r.1.immTmpls = iv.immTmpls := by
  cases n with
  | file pos comments decls =>
    simp only [Visit] at h
    split at h <;> (cases h; rfl)
  | rangeStmt pos key value x body =>
    simp only [Visit] at h
    cases hv : visitRangeStmt E info iv x with
    | ok iv' =>
      rw [hv] at h
      cases h
      exact (visitRangeStmt_frame E info iv iv' x hv).2.2.2
    | fault m => rw [hv] at h; cases h
    | outOfFuel => rw [hv] at h; cases h
  | compositeLit id pos type elts =>
    simp only [Visit] at h
    split at h
    · cases h; rfl
    · cases h; exact (ensurePointerTyp_frame E info iv _ type).2.2.2
  | callExpr id fn args ellipsis rparen =>
    simp only [Visit] at h
    split at h
    · cases h; exact (visitCallIdent_frame E info iv _ args ellipsis).2.2.2
    · cases h; exact (visitCallSelector_frame E info iv _ _ args ellipsis).2.2.2
    · cases h; rfl
  | mapType id pos key value =>
    simp only [Visit] at h
    cases h
    show (ensurePointerTyp E info _ _ _).immTmpls = _
    rw [(ensurePointerTyp_frame E info _ _ _).2.2.2, (ensurePointerTyp_frame E info _ _ _).2.2.2]
  | valueSpec pos type values =>
    simp only [Visit] at h
    cases h; exact (ensurePointerTyp_frame E info iv _ type).2.2.2
  | arrayType id pos len elt =>
    simp only [Visit] at h
    cases h; exact (ensurePointerTyp_frame E info iv _ (some elt)).2.2.2
  | field pos type =>
    simp only [Visit] at h
    cases h; exact (ensurePointerTyp_frame E info iv _ (some type)).2.2.2
  | typeSpec pos name type =>
    simp only [Visit] at h
    cases h; exact (ensurePointerTyp_frame E info iv _ (some type)).2.2.2
  | unaryExpr id pos op x =>
    simp only [Visit] at h
    cases h; exact (visitUnaryExpr_frame E info iv _ op x).2.2
  | selectorExpr id x sel =>
    simp only [Visit] at h
    cases h; exact (visitSelectorExpr_frame E info iv id sel).2.2.2
  | genDecl pos isType specs => simp only [Visit] at h; cases h; rfl
  | ident i => simp only [Visit] at h; cases h; rfl
  | other id pos children => simp only [Visit] at h; cases h; rfl

theorem visitAll_immTmpls (E : Env) (info : Info) (ns : List Node) :
    ∀ iv iv', visitAll E info iv ns = .ok iv' → iv'.immTmpls = iv.immTmpls := by
  induction ns with
  | nil => intro iv iv' h; cases h; rfl
  | cons m ms ih =>
    intro iv iv' h
    rw [visitAll_cons] at h
    cases hv : Visit E info iv m with
    | ok r =>
      rw [hv, Res.bind_ok] at h
      rw [ih r.1 iv' h]
      exact Visit_immTmpls E info iv m r hv
    | fault m => rw [hv] at h; cases h
    | outOfFuel => rw [hv] at h; cases h

/-- **C13.** The template-leakage rule.  When the body of `vetPackages` for a
package returns, the violations it appended after the syntax walk begin with
those of the loop over `info.Types`: for every entry in turn, exactly one
violation "template type T should never get used" at the position of the
expression when the expression denotes a type, the type is a tracked template
of the package (`isImmTmpl`, which looks through every pointer layer for a
member of the set the registry filled before the walk) and the file of the
expression is not generated; none for an expression in a generated file, for a
value expression and for a type that is no tracked template. -/
theorem vetPackage_template_use (E : Env) (s s' : State × Vetter) (pkg : Package)
    (info : Info) (hc : pkg.check = some info) (h : vetPackage E s pkg = .ok s') :
    ∃ (s₁ : State × Vetter) (iv₁ : Vetter),
      forM (registerFile E info) (s.1, { s.2 with rngs := [], immTmpls := [] }) pkg.files
        = .ok s₁ ∧
      WalkList E info s₁.2 pkg.files = .ok iv₁ ∧
      s'.2.errlist = iv₁.errlist
        ++ info.Types.filterMap (templateUseViolation E s₁.2.immTmpls)
        ++ info.Selections.filterMap (fieldAccessViolation E iv₁.skipFiles)
        ++ rangeViolations E iv₁.rngs ∧
      (∀ t, iv₁.isImmTmpl t = isTrackedTemplate s₁.2.immTmpls t) ∧
      (∀ (n k : Nat), isTrackedTemplate s₁.2.immTmpls (Nat.iterate Ty.pointer k (.named n))
        = decide (n ∈ s₁.2.immTmpls)) ∧
      ∀ en : TypesEntry,
        ((templateUseViolation E s₁.2.immTmpls en).isSome = true ↔
          en.isType = true ∧ isTrackedTemplate s₁.2.immTmpls en.type = true ∧
            E.FileGeneratedBy (E.Position en.pos).filename = false) ∧
        (∀ e, templateUseViolation E s₁.2.immTmpls en = some e →
          e = ⟨E.Position en.pos,
            "template type " ++ typeString E.U en.type ++ " should never get used"⟩) := by
  obtain ⟨s₁, iv₁, hreg, hw, _, _, _, herr⟩ := vetPackage_eq E s s' pkg info hc h
  have hT : iv₁.immTmpls = s₁.2.immTmpls := by
    rw [WalkList_eq_visitAll] at hw
    exact visitAll_immTmpls E info _ _ _ hw
  refine ⟨s₁, iv₁, hreg, hw, ?_, ?_, ?_, ?_⟩
  · rw [herr, foldl_checkTemplateUse, hT]
  · intro t
    rw [Vetter.isImmTmpl_eq, hT]
  · intro n k
    induction k with
    | zero => rfl
    | succ k ih =>
      rw [Function.iterate_succ_apply']
      simpa only [isTrackedTemplate, Ty.stripPointers] using ih
  · intro en
    unfold templateUseViolation
    by_cases hcond : en.isType = true ∧ isTrackedTemplate s₁.2.immTmpls en.type = true ∧
        E.FileGeneratedBy (E.Position en.pos).filename = false
    · rw [if_pos hcond]
      exact ⟨⟨fun _ => hcond, fun _ => rfl⟩, fun e he => by cases he; rfl⟩
    · rw [if_neg hcond]
      exact ⟨⟨fun h => (by cases h), fun h => absurd h hcond⟩, fun e he => (by cases he)⟩

/-- Witness of **C13**: the template package, in which `*_Imm_Pair` is used in
`p.go` (one violation) and in the generated file `gen_p.go` (none). -/
theorem vetPackage_template_use_witness :
    ∃ (s₁ : State × Vetter) (iv₁ : Vetter),
      forM (registerFile tmplEnv tmplInfo)
          ((State.init, newImmutableVetter).1,
            { (State.init, newImmutableVetter).2 with rngs := [], immTmpls := [] })
          tmplPkg.files
        = .ok s₁ ∧
      WalkList tmplEnv tmplInfo s₁.2 tmplPkg.files = .ok iv₁ ∧
      [(⟨⟨"p.go", 17, 1⟩, "immutable struct field must be immutable type; []int is not"⟩ :
          immErr),
        ⟨⟨"p.go", 34, 1⟩, "template type *p._Imm_Pair should never get used"⟩]
        = iv₁.errlist
        ++ tmplInfo.Types.filterMap (templateUseViolation tmplEnv s₁.2.immTmpls)
        ++ tmplInfo.Selections.filterMap (fieldAccessViolation tmplEnv iv₁.skipFiles)
        ++ rangeViolations tmplEnv iv₁.rngs ∧
      (∀ t, iv₁.isImmTmpl t = isTrackedTemplate s₁.2.immTmpls t) ∧
      (∀ (n k : Nat), isTrackedTemplate s₁.2.immTmpls (Nat.iterate Ty.pointer k (.named n))
        = decide (n ∈ s₁.2.immTmpls)) ∧
      ∀ en : TypesEntry,
        ((templateUseViolation tmplEnv s₁.2.immTmpls en).isSome = true ↔
          en.isType = true ∧ isTrackedTemplate s₁.2.immTmpls en.type = true ∧
            tmplEnv.FileGeneratedBy (tmplEnv.Position en.pos).filename = false) ∧
        (∀ e, templateUseViolation tmplEnv s₁.2.immTmpls en = some e →
          e = ⟨tmplEnv.Position en.pos,
            "template type " ++ typeString tmplEnv.U en.type ++ " should never get used"⟩) :=
  vetPackage_template_use tmplEnv (State.init, newImmutableVetter)
    (State.init,
      { skipFiles := [], immTmpls := [0], rngs := [], vcls := [],
        errlist :=
          [⟨⟨"p.go", 17, 1⟩, "immutable struct field must be immutable type; []int is not"⟩,
           ⟨⟨"p.go", 34, 1⟩, "template type *p._Imm_Pair should never get used"⟩] })
    tmplPkg tmplInfo rfl (by decide)

/-! ### The template registry (C11) -/

theorem Vetter.Grows.growRefl (iv : Vetter) : iv.Grows iv :=
  ⟨fun _ h => h, [], (List.append_nil _).symm⟩

theorem Vetter.Grows.growTrans {a b c : Vetter} (h1 : a.Grows b) (h2 : b.Grows c) :
    a.Grows c := by
  obtain ⟨s1, e1, h1⟩ := h1
  obtain ⟨s2, e2, h2⟩ := h2
  exact ⟨fun _ h => s2 (s1 h), e1 ++ e2, by rw [h2, h1, List.append_assoc]⟩

/-- The loop over the fields of a template appends the violations of the
fields and changes nothing else of the vetter. -/
theorem checkTemplateFields_eq (E : Env) (info : Info) (n : Nat) (fs : List (String × Ty)) :
    ∀ (i : Nat) (st : State) (iv : Vetter) (s' : State × Vetter),
      checkTemplateFields E info n i fs (st, iv) = .ok s' →
        s'.2 = { iv with errlist := iv.errlist ++ templateViolations E info n i fs st } := by
  induction fs with
  | nil =>
    intro i st iv s' h
    cases h
    simp [templateViolations]
  | cons f fs ih =>
    intro i st iv s' h
    rw [checkTemplateFields] at h
    rcases hr : isImmType E.U st f.2 with ⟨r, st'⟩
    rw [hr] at h
    cases r with
    | ok b =>
      cases b with
      | true =>
        have h2 := ih (i + 1) st' iv s' h
        rw [h2]
        simp [templateViolations, hr]
      | false =>
        have h2 := ih (i + 1) st' _ s' h
        rw [h2]
        simp [templateViolations, hr, Vetter.errorf, templateFieldMsg]
    | fault m => cases h
    | outOfFuel => cases h

/-- The registration of a type declaration with the template marker: the
declared type is a named type, it joins the templates, and the violations of
its fields are appended when its underlying type is a struct. -/
theorem registerSpec_marked (E : Env) (info : Info) (s s' : State × Vetter) (pos : Nat)
    (name : Ident) (type : Node) (hm : E.IsImmTmpl name = true)
    (h : registerSpec E info s (.typeSpec pos name type) = .ok s') :
    ∃ n, info.ObjectOf name = .named n ∧ n ∈ s'.2.immTmpls ∧
      s.2.immTmpls ⊆ s'.2.immTmpls ∧
      (∀ fs, E.U.underlying n = .struct fs →
        s'.2.errlist = s.2.errlist ++ templateViolations E info n 0 fs s.1) ∧
      ((∀ fs, E.U.underlying n ≠ .struct fs) → s'.2.errlist = s.2.errlist) := by
  simp only [registerSpec, hm, Bool.not_true, Bool.false_eq_true, if_false] at h
  cases ho : info.ObjectOf name with
  | named n =>
    rw [ho] at h
    simp only at h
    refine ⟨n, rfl, ?_⟩
    cases hu : E.U.underlying n with
    | struct fs =>
      rw [hu] at h
      simp only at h
      have h2 := checkTemplateFields_eq E info n fs 0 s.1 _ s' h
      rw [h2]
      refine ⟨mem_setInsert _ _, subset_setInsert _ _, fun fs' hfs => ?_, fun hne => ?_⟩
      · cases hfs
        rfl
      · exact absurd rfl (hne fs)
    | _ =>
      rw [hu] at h
      simp only at h
      cases h
      exact ⟨mem_setInsert _ _, subset_setInsert _ _, fun fs' hfs => (by cases hfs),
        fun _ => rfl⟩
  | _ =>
    rw [ho] at h
    simp only at h
    cases h

theorem registerSpec_grows (E : Env) (info : Info) (s s' : State × Vetter) (spec : Node)
    (h : registerSpec E info s spec = .ok s') : s.2.Grows s'.2 := by
  cases spec with
  | typeSpec pos name type =>
    by_cases hm : E.IsImmTmpl name = true
    · obtain ⟨n, _, _, hsub, hs, hns⟩ := registerSpec_marked E info s s' pos name type hm h
      refine ⟨hsub, ?_⟩
      cases hu : E.U.underlying n with
      | struct fs => exact ⟨_, hs fs hu⟩
      | _ =>
        refine ⟨[], ?_⟩
        rw [hns (fun fs hfs => by rw [hu] at hfs; cases hfs), List.append_nil]
    · have hm' : E.IsImmTmpl name = false := by simpa using hm
      simp only [registerSpec, hm', Bool.not_false, if_true] at h
      cases h
      exact Vetter.Grows.growRefl _
  | _ =>
    simp only [registerSpec] at h
    cases h

/-- In a loop that returns, the body ran on every element of the list, from a
state the loop had reached and to a state from which it went on. -/
theorem forM_mem {σ α : Type} (R : σ → σ → Prop) (hrefl : ∀ s, R s s)
    (htrans : ∀ a b c, R a b → R b c → R a c) (body : σ → α → Res σ)
    (hbody : ∀ s a s', body s a = .ok s' → R s s') :
    ∀ (l : List α) (s s' : σ), forM body s l = .ok s' →
      R s s' ∧ ∀ a, a ∈ l → ∃ sa sa', R s sa ∧ body sa a = .ok sa' ∧ R sa' s' := by
  intro l
  induction l with
  | nil =>
    intro s s' h
    cases h
    exact ⟨hrefl _, fun a ha => by cases ha⟩
  | cons x l ih =>
    intro s s' h
    rw [forM_cons] at h
    cases hb : body s x with
    | ok s₁ =>
      rw [hb, Res.bind_ok] at h
      obtain ⟨hR, hmem⟩ := ih s₁ s' h
      have h1 := hbody s x s₁ hb
      refine ⟨htrans _ _ _ h1 hR, fun a ha => ?_⟩
      rcases List.mem_cons.mp ha with rfl | ha
      · exact ⟨s, s₁, hrefl _, hb, hR⟩
      · obtain ⟨sa, sa', r1, r2, r3⟩ := hmem a ha
        exact ⟨sa, sa', htrans _ _ _ h1 r1, r2, r3⟩
    | fault m => rw [hb] at h; cases h
    | outOfFuel => rw [hb] at h; cases h

theorem registerDecl_grows (E : Env) (info : Info) (s s' : State × Vetter) (d : Node)
    (h : registerDecl E info s d = .ok s') : s.2.Grows s'.2 := by
  unfold registerDecl at h
  split at h
  · exact (forM_mem (fun a b : State × Vetter => a.2.Grows b.2)
      (fun _ => Vetter.Grows.growRefl _) (fun _ _ _ => Vetter.Grows.growTrans) _
      (fun a b c => registerSpec_grows E info a c b) _ s s' h).1
  · cases h
    exact Vetter.Grows.growRefl _

theorem registerFile_grows (E : Env) (info : Info) (s s' : State × Vetter) (f : Node)
    (h : registerFile E info s f = .ok s') : s.2.Grows s'.2 := by
  unfold registerFile at h
  split at h
  · exact (forM_mem (fun a b : State × Vetter => a.2.Grows b.2)
      (fun _ => Vetter.Grows.growRefl _) (fun _ _ _ => Vetter.Grows.growTrans) _
      (fun a b c => registerDecl_grows E info a c b) _ s s' h).1
  · cases h
    exact Vetter.Grows.growRefl _

theorem mem_topLevelTypeSpecs (spec : Node) :
    ∀ decls : List Node, spec ∈ topLevelTypeSpecs decls →
      ∃ pos specs, Node.genDecl pos true specs ∈ decls ∧ spec ∈ specs
  | [], h => by cases h
  | d :: ds, h => by
    have ih := mem_topLevelTypeSpecs spec ds
    cases d with
    | genDecl pos isType specs =>
      cases isType with
      | true =>
        simp only [topLevelTypeSpecs, List.mem_append] at h
        rcases h with h | h
        · exact ⟨pos, specs, List.mem_cons_self _ _, h⟩
        · obtain ⟨p, sp, h1, h2⟩ := ih h
          exact ⟨p, sp, List.mem_cons_of_mem _ h1, h2⟩
      | false =>
        simp only [topLevelTypeSpecs] at h
        obtain ⟨p, sp, h1, h2⟩ := ih h
        exact ⟨p, sp, List.mem_cons_of_mem _ h1, h2⟩
    | _ =>
      simp only [topLevelTypeSpecs] at h
      obtain ⟨p, sp, h1, h2⟩ := ih h
      exact ⟨p, sp, List.mem_cons_of_mem _ h1, h2⟩

/-- The registry reaches every spec of a top-level type declaration of every
file of the package. -/
theorem forM_registerFile_mem (E : Env) (info : Info) (files : List Node)
    (s s₁ : State × Vetter) (h : forM (registerFile E info) s files = .ok s₁)
    (f : Node) (hf : f ∈ files) (spec : Node) (hs : spec ∈ f.typeSpecs) :
    ∃ sa sa', s.2.Grows sa.2 ∧ registerSpec E info sa spec = .ok sa' ∧ sa'.2.Grows s₁.2 := by
  have R1 := forM_mem (fun a b : State × Vetter => a.2.Grows b.2)
    (fun _ => Vetter.Grows.growRefl _) (fun _ _ _ => Vetter.Grows.growTrans) _
    (fun a b c => registerFile_grows E info a c b) files s s₁ h
  obtain ⟨sf, sf', g1, hfile, g2⟩ := R1.2 f hf
  cases f with
  | file fpos comments decls =>
    simp only [Node.typeSpecs] at hs
    obtain ⟨dpos, specs, hd, hspec⟩ := mem_topLevelTypeSpecs spec decls hs
    simp only [registerFile] at hfile
    have R2 := forM_mem (fun a b : State × Vetter => a.2.Grows b.2)
      (fun _ => Vetter.Grows.growRefl _) (fun _ _ _ => Vetter.Grows.growTrans) _
      (fun a b c => registerDecl_grows E info a c b) decls sf sf' hfile
    obtain ⟨sd, sd', g3, hdecl, g4⟩ := R2.2 _ hd
    simp only [registerDecl] at hdecl
    have R3 := forM_mem (fun a b : State × Vetter => a.2.Grows b.2)
      (fun _ => Vetter.Grows.growRefl _) (fun _ _ _ => Vetter.Grows.growTrans) _
      (fun a b c => registerSpec_grows E info a c b) specs sd sd' hdecl
    obtain ⟨sa, sa', g5, hsp, g6⟩ := R3.2 spec hspec
    exact ⟨sa, sa', (g1.growTrans g3).growTrans g5, hsp, (g6.growTrans g4).growTrans g2⟩
  | _ => simp [Node.typeSpecs] at hs

/-- Counterexample to **C11** as stated: the type declaration
`type _Imm_Pair struct { a int; bs []int }` carries the template marker and has
a field of the type `[]int`, which `isImmType` classifies as not immutable; it
stands inside a function, and the registry, which goes over the top-level
declarations of a file alone, neither records the type nor emits a violation
for the field. -/
theorem registry_local_type_counterexample :
    tmplEnv.IsImmTmpl ⟨10, "_Imm_Pair", 35⟩ = true ∧
    (isImmType tmplEnv.U State.init (.slice (.basic .int))).1 = .ok false ∧
    vetPackage tmplEnv (State.init, newImmutableVetter) localTmplPkg
      = .ok (State.init,
          { skipFiles := [], immTmpls := [], rngs := [], vcls := [], errlist := [] }) := by
  decide

/-- The registry on the template package: the field `a int` gives no
violation, the field `bs []int` one, at the position of the field. -/
theorem templateViolations_pair :
    templateViolations tmplEnv tmplInfo 0 0
        [("a", .basic .int), ("bs", .slice (.basic .int))] State.init
      = [⟨⟨"p.go", 17, 1⟩, "immutable struct field must be immutable type; []int is not"⟩] := by
  decide

/-! ### The violation list of a package, segment by segment -/

theorem checkTemplateFields_exact (E : Env) (info : Info) (n : Nat)
    (fs : List (String × Ty)) :
    ∀ (i : Nat) (st : State) (iv : Vetter) (s' : State × Vetter),
      checkTemplateFields E info n i fs (st, iv) = .ok s' →
        s' = (templateState E fs st,
          { iv with errlist := iv.errlist ++ templateViolations E info n i fs st }) := by
  induction fs with
  | nil =>
    intro i st iv s' h
    cases h
    simp [templateViolations, templateState]
  | cons f fs ih =>
    intro i st iv s' h
    rw [checkTemplateFields] at h
    rcases hr : isImmType E.U st f.2 with ⟨r, st'⟩
    rw [hr] at h
    cases r with
    | ok b =>
      cases b with
      | true =>
        have h2 := ih (i + 1) st' iv s' h
        rw [h2]
        simp [templateViolations, templateState, hr]
      | false =>
        have h2 := ih (i + 1) st' _ s' h
        rw [h2]
        simp [templateViolations, templateState, hr, Vetter.errorf, templateFieldMsg]
    | fault m => cases h
    | outOfFuel => cases h

/-- The registry at one spec, when it returns. -/
theorem registerSpec_exact (E : Env) (info : Info) (st : State) (iv : Vetter)
    (s' : State × Vetter) (spec : Node) (h : registerSpec E info (st, iv) spec = .ok s') :
    s' = (registryState E info [spec] st,
      { iv with
        immTmpls := registryTemplates E info [spec] iv.immTmpls
        errlist := iv.errlist ++ registryViolations E info [spec] st }) := by
  cases spec with
  | typeSpec pos name type =>
    by_cases hm : E.IsImmTmpl name = true
    · simp only [registerSpec, hm, Bool.not_true, Bool.false_eq_true, if_false] at h
      cases ho : info.ObjectOf name with
      | named n =>
        rw [ho] at h
        simp only at h
        cases hu : E.U.underlying n with
        | struct fs =>
          rw [hu] at h
          simp only at h
          rw [checkTemplateFields_exact E info n fs 0 st _ s' h]
          simp [registryState, registryTemplates, registryViolations, specTemplate, hm, ho,
            templateFields, hu]
        | _ =>
          rw [hu] at h
          simp only at h
          cases h
          simp [registryState, registryTemplates, registryViolations, specTemplate, hm, ho,
            templateFields, hu, templateViolations, templateState]
      | _ =>
        rw [ho] at h
        simp only at h
        cases h
    · have hm' : E.IsImmTmpl name = false := by simpa using hm
      simp only [registerSpec, hm', Bool.not_false, if_true] at h
      cases h
      simp [registryState, registryTemplates, registryViolations, specTemplate, hm']
  | _ =>
    simp only [registerSpec] at h
    cases h

theorem registryViolations_cons (E : Env) (info : Info) (spec : Node) (specs : List Node)
    (st : State) :
    registryViolations E info (spec :: specs) st
      = registryViolations E info [spec] st
        ++ registryViolations E info specs (registryState E info [spec] st) := by
  simp only [registryViolations, registryState]
  cases specTemplate E info spec <;> simp

theorem registryState_cons (E : Env) (info : Info) (spec : Node) (specs : List Node)
    (st : State) :
    registryState E info (spec :: specs) st
      = registryState E info specs (registryState E info [spec] st) := by
  simp only [registryState]
  cases specTemplate E info spec <;> simp

theorem registryTemplates_cons (E : Env) (info : Info) (spec : Node) (specs : List Node)
    (tm : List Nat) :
    registryTemplates E info (spec :: specs) tm
      = registryTemplates E info specs (registryTemplates E info [spec] tm) := by
  simp only [registryTemplates]
  cases specTemplate E info spec <;> simp

/-- The registry over a list of specs, when it returns. -/
theorem forM_registerSpec_exact (E : Env) (info : Info) (specs : List Node) :
    ∀ (st : State) (iv : Vetter) (s' : State × Vetter),
      forM (registerSpec E info) (st, iv) specs = .ok s' →
        s' = (registryState E info specs st,
          { iv with
            immTmpls := registryTemplates E info specs iv.immTmpls
            errlist := iv.errlist ++ registryViolations E info specs st }) := by
  induction specs with
  | nil =>
    intro st iv s' h
    cases h
    simp [registryState, registryTemplates, registryViolations]
  | cons spec specs ih =>
    intro st iv s' h
    rw [forM_cons] at h
    cases hb : registerSpec E info (st, iv) spec with
    | ok s₁ =>
      rw [hb, Res.bind_ok] at h
      have h1 := registerSpec_exact E info st iv s₁ spec hb
      subst h1
      rw [ih _ _ s' h, registryViolations_cons E info spec specs st,
        registryState_cons E info spec specs st,
        registryTemplates_cons E info spec specs iv.immTmpls]
      simp [List.append_assoc]
    | fault m => rw [hb] at h; cases h
    | outOfFuel => rw [hb] at h; cases h

theorem forM_registerDecl (E : Env) (info : Info) :
    ∀ (decls : List Node) (s : State × Vetter),
      forM (registerDecl E info) s decls
        = forM (registerSpec E info) s (topLevelTypeSpecs decls)
  | [], s => rfl
  | d :: ds, s => by
    have ih := forM_registerDecl E info ds
    rw [forM_cons]
    cases d with
    | genDecl pos isType specs =>
      cases isType with
      | true =>
        simp only [registerDecl, topLevelTypeSpecs]
        rw [forM_append]
        congr 1
        funext s'
        exact ih s'
      | false =>
        simp only [registerDecl, topLevelTypeSpecs, Res.bind_ok]
        exact ih s
    | _ =>
      simp only [registerDecl, topLevelTypeSpecs, Res.bind_ok]
      exact ih s

theorem forM_registerFile (E : Env) (info : Info) :
    ∀ (files : List Node) (s : State × Vetter),
      forM (registerFile E info) s files
        = forM (registerSpec E info) s (pkgTypeSpecs files)
  | [], s => rfl
  | f :: fs, s => by
    have ih := forM_registerFile E info fs
    rw [forM_cons]
    cases f with
    | file pos comments decls =>
      simp only [registerFile, pkgTypeSpecs, Node.typeSpecs]
      rw [forM_append, forM_registerDecl]
      congr 1
      funext s'
      exact ih s'
    | _ =>
      simp only [registerFile, pkgTypeSpecs, Node.typeSpecs, Res.bind_ok, List.nil_append]
      exact ih s

/-! ### The messages of the rules -/

theorem Env.Sprintf_prefix (E : Env) (pre rest : String)
    (hpre : ∀ c ∈ pre.data, (c != '%') = true) :
    ∃ out, (E.Sprintf (pre ++ rest)).data = pre.data ++ out := by
  unfold Env.Sprintf
  split
  · exact ⟨rest.data, String.data_append _ _⟩
  · refine ⟨List.takeWhile (fun c => c != '%') rest.data
      ++ (E.FormatVerbs (String.mk (List.dropWhile (fun c => c != '%') (pre ++ rest).data))).data,
      ?_⟩
    rw [String.data_append, String.data_append, List.takeWhile_append_of_pos hpre,
      List.append_assoc]

/-- A format without the character `%` is printed as it is. -/
theorem Env.Sprintf_plain (E : Env) (format : String)
    (h : ∀ c ∈ format.data, (c != '%') = true) : E.Sprintf format = format := by
  unfold Env.Sprintf
  have : List.dropWhile (fun c => c != '%') format.data = [] := by
    rw [List.dropWhile_eq_nil_iff]
    exact h
  rw [this]

theorem templateFieldMsg_data (E : Env) (t : Ty) :
    ∃ out, (templateFieldMsg E t).data
      = "immutable struct field must be immutable type; ".data ++ out := by
  unfold templateFieldMsg
  rw [String.append_assoc]
  exact E.Sprintf_prefix _ _ (by decide)

theorem isRegistryMsg_templateFieldMsg (E : Env) (t : Ty) :
    isRegistryMsg (templateFieldMsg E t) = true := by
  obtain ⟨out, h⟩ := templateFieldMsg_data E t
  unfold isRegistryMsg
  rw [h, List.isPrefixOf_iff_prefix]
  exact List.prefix_append _ _

/-- The first character of a message. -/
theorem head_templateFieldMsg (E : Env) (t : Ty) :
    (templateFieldMsg E t).data.head? = some 'i' := by
  obtain ⟨out, h⟩ := templateFieldMsg_data E t
  rw [h]
  rfl

theorem head_of_isWalkMsg (m : String) (h : isWalkMsg m) :
    m.data.head? = some 't' ∨ m.data.head? = some 'c' := by
  rcases h with ⟨t, rfl⟩ | rfl
  · left
    rw [String.data_append]
    rfl
  · right
    rfl

theorem head_templateUseMsg (s : String) :
    ("template type " ++ s ++ " should never get used").data.head? = some 't' := by
  rw [String.data_append, String.data_append]
  rfl

theorem head_fieldAccessMsg (E : Env) (en : SelEntry) :
    (fieldAccessMsg E en).data.head? = some 's' := by
  unfold fieldAccessMsg
  simp only [String.data_append]
  rfl

theorem isFieldAccessMsg_fieldAccessMsg (E : Env) (en : SelEntry) :
    isFieldAccessMsg (fieldAccessMsg E en) = true := by
  unfold isFieldAccessMsg fieldAccessMsg
  rw [String.append_assoc, String.append_assoc, String.data_append,
    List.isPrefixOf_iff_prefix]
  exact List.prefix_append _ _

theorem head_of_isRegistryMsg (m : String) (h : isRegistryMsg m = true) :
    m.data.head? = some 'i' := by
  unfold isRegistryMsg at h
  rw [List.isPrefixOf_iff_prefix] at h
  obtain ⟨t, ht⟩ := h
  rw [← ht]
  rfl

theorem head_of_isFieldAccessMsg (m : String) (h : isFieldAccessMsg m = true) :
    m.data.head? = some 's' := by
  unfold isFieldAccessMsg at h
  rw [List.isPrefixOf_iff_prefix] at h
  obtain ⟨t, ht⟩ := h
  rw [← ht]
  rfl

theorem head_of_isRangeMsg (m : String) (h : isRangeMsg m = true) :
    m.data.head? = some 'R' := by
  unfold isRangeMsg at h
  rw [decide_eq_true_eq] at h
  rw [h]
  rfl

/-! ### The records of one rule in a list of violations -/

theorem recordsOf_append (P : String → Bool) (es fs : List immErr) :
    recordsOf P (es ++ fs) = recordsOf P es ++ recordsOf P fs :=
  List.filter_append _ _

/-- The test accepts no record of a list whose messages begin with other
characters than the messages it accepts. -/
theorem recordsOf_eq_nil (P : String → Bool) (c : Char)
    (hP : ∀ m, P m = true → m.data.head? = some c) (es : List immErr)
    (h : ∀ e, e ∈ es → e.msg.data.head? ≠ some c) : recordsOf P es = [] := by
  unfold recordsOf
  rw [List.filter_eq_nil_iff]
  intro e he hpe
  exact h e he (hP _ hpe)

theorem recordsOf_eq_self (P : String → Bool) (es : List immErr)
    (h : ∀ e, e ∈ es → P e.msg = true) : recordsOf P es = es := by
  unfold recordsOf
  rw [List.filter_eq_self]
  exact h

theorem msg_of_mem_templateViolations (E : Env) (info : Info) (n : Nat)
    (fs : List (String × Ty)) :
    ∀ (i : Nat) (st : State) (e : immErr), e ∈ templateViolations E info n i fs st →
      ∃ t, e.msg = templateFieldMsg E t := by
  induction fs with
  | nil => intro i st e he; cases he
  | cons f fs ih =>
    intro i st e he
    simp only [templateViolations, List.mem_append] at he
    rcases he with he | he
    · split at he
      · rw [List.mem_singleton] at he
        exact ⟨f.2, by rw [he]⟩
      · cases he
    · exact ih _ _ e he

theorem msg_of_mem_registryViolations (E : Env) (info : Info) (specs : List Node) :
    ∀ (st : State) (e : immErr), e ∈ registryViolations E info specs st →
      ∃ t, e.msg = templateFieldMsg E t := by
  induction specs with
  | nil => intro st e he; cases he
  | cons spec specs ih =>
    intro st e he
    simp only [registryViolations] at he
    split at he
    · rw [List.mem_append] at he
      rcases he with he | he
      · exact msg_of_mem_templateViolations E info _ _ _ _ e he
      · exact ih _ e he
    · exact ih _ e he

theorem msg_of_mem_templateUse (E : Env) (tm : List Nat) (l : List TypesEntry) (e : immErr)
    (he : e ∈ l.filterMap (templateUseViolation E tm)) :
    ∃ s, e.msg = "template type " ++ s ++ " should never get used" := by
  rw [List.mem_filterMap] at he
  obtain ⟨en, _, hen⟩ := he
  unfold templateUseViolation at hen
  split at hen
  · cases hen
    exact ⟨_, rfl⟩
  · cases hen

theorem msg_of_mem_fieldAccess (E : Env) (sk : List String) (l : List SelEntry) (e : immErr)
    (he : e ∈ l.filterMap (fieldAccessViolation E sk)) :
    ∃ en, e.msg = fieldAccessMsg E en := by
  rw [List.mem_filterMap] at he
  obtain ⟨en, _, hen⟩ := he
  unfold fieldAccessViolation at hen
  split at hen
  · cases hen
    exact ⟨en, rfl⟩
  · cases hen

theorem msg_of_mem_rangeViolations (E : Env) (rngs : List (Ident × Bool)) (e : immErr)
    (he : e ∈ rangeViolations E rngs) : e.msg = rangeMsg := by
  unfold rangeViolations at he
  rw [List.mem_map] at he
  obtain ⟨kv, _, rfl⟩ := he
  rfl

/-! ### What the syntax walk appends -/

theorem Vetter.Walked.walkRefl (iv iv' : Vetter) (h : iv'.errlist = iv.errlist) :
    iv.Walked iv' :=
  ⟨[], by rw [h, List.append_nil], fun e he => by cases he⟩

theorem Vetter.Walked.walkTrans {a b c : Vetter} (h1 : a.Walked b) (h2 : b.Walked c) :
    a.Walked c := by
  obtain ⟨W1, e1, m1⟩ := h1
  obtain ⟨W2, e2, m2⟩ := h2
  refine ⟨W1 ++ W2, by rw [e2, e1, List.append_assoc], fun e he => ?_⟩
  rcases List.mem_append.mp he with he | he
  · exact m1 e he
  · exact m2 e he

theorem ensurePointerTyp_walked (E : Env) (info : Info) (iv : Vetter) (n : Node)
    (typ : Option Node) : iv.Walked (ensurePointerTyp E info iv n typ) := by
  rw [ensurePointerTyp_eq]
  refine ⟨_, rfl, fun e he => ?_⟩
  unfold pointerFormViolation at he
  split at he
  · simp only [Option.toList, List.mem_singleton] at he
    rw [he]
    exact Or.inl ⟨_, rfl⟩
  · cases he

theorem visitUnaryExpr_walked (E : Env) (info : Info) (iv : Vetter) (node : Node)
    (op : Token) (x : Node) : iv.Walked (visitUnaryExpr E info iv node op x) := by
  have key : iv.Walked
      ({ iv.errorf E node.pos constructMsg with vcls := iv.vcls } : Vetter) :=
    ⟨[⟨E.Position node.pos, constructMsg⟩], rfl, fun e he => by
      rw [List.mem_singleton] at he
      rw [he]
      exact Or.inr rfl⟩
  unfold visitUnaryExpr
  split
  · exact Vetter.Walked.walkRefl _ _ rfl
  · split
    · split
      · exact key
      · exact key
      · exact key
      · exact Vetter.Walked.walkRefl _ _ rfl
    · exact Vetter.Walked.walkRefl _ _ rfl

theorem Visit_walked (E : Env) (info : Info) (iv : Vetter) (n : Node)
    (r : Vetter × Bool) (h : Visit E info iv n = .ok r) : iv.Walked r.1 := by
  cases n with
  | file pos comments decls =>
    simp only [Visit] at h
    split at h <;> (cases h; exact Vetter.Walked.walkRefl _ _ rfl)
  | rangeStmt pos key value x body =>
    simp only [Visit] at h
    cases hv : visitRangeStmt E info iv x with
    | ok iv' =>
      rw [hv] at h
      cases h
      exact Vetter.Walked.walkRefl _ _ (visitRangeStmt_frame E info iv iv' x hv).2.1
    | fault m => rw [hv] at h; cases h
    | outOfFuel => rw [hv] at h; cases h
  | compositeLit id pos type elts =>
    simp only [Visit] at h
    split at h
    · cases h; exact Vetter.Walked.walkRefl _ _ rfl
    · cases h; exact ensurePointerTyp_walked E info iv _ type
  | callExpr id fn args ellipsis rparen =>
    simp only [Visit] at h
    split at h
    · cases h
      exact Vetter.Walked.walkRefl _ _ (visitCallIdent_frame E info iv _ args ellipsis).2.1
    · cases h
      exact Vetter.Walked.walkRefl _ _
        (visitCallSelector_frame E info iv _ _ args ellipsis).2.1
    · cases h; exact Vetter.Walked.walkRefl _ _ rfl
  | mapType id pos key value =>
    simp only [Visit] at h
    cases h
    exact (ensurePointerTyp_walked E info iv _ (some key)).walkTrans
      (ensurePointerTyp_walked E info _ _ (some value))
  | valueSpec pos type values =>
    simp only [Visit] at h
    cases h; exact ensurePointerTyp_walked E info iv _ type
  | arrayType id pos len elt =>
    simp only [Visit] at h
    cases h; exact ensurePointerTyp_walked E info iv _ (some elt)
  | field pos type =>
    simp only [Visit] at h
    cases h; exact ensurePointerTyp_walked E info iv _ (some type)
  | typeSpec pos name type =>
    simp only [Visit] at h
    cases h; exact ensurePointerTyp_walked E info iv _ (some type)
  | unaryExpr id pos op x =>
    simp only [Visit] at h
    cases h; exact visitUnaryExpr_walked E info iv _ op x
  | selectorExpr id x sel =>
    simp only [Visit] at h
    cases h
    exact Vetter.Walked.walkRefl _ _ (visitSelectorExpr_frame E info iv id sel).2.1
  | genDecl pos isType specs =>
    simp only [Visit] at h; cases h; exact Vetter.Walked.walkRefl _ _ rfl
  | ident i => simp only [Visit] at h; cases h; exact Vetter.Walked.walkRefl _ _ rfl
  | other id pos children =>
    simp only [Visit] at h; cases h; exact Vetter.Walked.walkRefl _ _ rfl

theorem visitAll_walked (E : Env) (info : Info) (ns : List Node) :
    ∀ iv iv', visitAll E info iv ns = .ok iv' → iv.Walked iv' := by
  induction ns with
  | nil => intro iv iv' h; cases h; exact Vetter.Walked.walkRefl _ _ rfl
  | cons m ms ih =>
    intro iv iv' h
    rw [visitAll_cons] at h
    cases hv : Visit E info iv m with
    | ok r =>
      rw [hv, Res.bind_ok] at h
      exact (Visit_walked E info iv m r hv).walkTrans (ih r.1 iv' h)
    | fault m => rw [hv] at h; cases h
    | outOfFuel => rw [hv] at h; cases h

/-- The violation list of the body of `vetPackages` for a package, segment by
segment: the list it started from, the violations of the template registry,
those of the syntax walk (of the pointer-form rule and the construction rule),
those of the template-leakage rule, those of the field-access rule and those
of the once-only iteration rule. -/
theorem vetPackage_segments (E : Env) (s s' : State × Vetter) (pkg : Package)
    (info : Info) (hc : pkg.check = some info) (h : vetPackage E s pkg = .ok s') :
    ∃ (s₁ : State × Vetter) (iv₁ : Vetter) (W : List immErr),
      forM (registerFile E info) (s.1, { s.2 with rngs := [], immTmpls := [] }) pkg.files
        = .ok s₁ ∧
      WalkList E info s₁.2 pkg.files = .ok iv₁ ∧
      s₁ = (registryState E info (pkgTypeSpecs pkg.files) s.1,
        { s.2 with
          rngs := []
          immTmpls := registryTemplates E info (pkgTypeSpecs pkg.files) []
          errlist := s.2.errlist ++ registryViolations E info (pkgTypeSpecs pkg.files) s.1 }) ∧
      iv₁.immTmpls = s₁.2.immTmpls ∧
      iv₁.errlist
        = s.2.errlist ++ registryViolations E info (pkgTypeSpecs pkg.files) s.1 ++ W ∧
      (∀ e, e ∈ W → isWalkMsg e.msg) ∧
      s'.1 = s₁.1 ∧ s'.2.skipFiles = iv₁.skipFiles ∧ s'.2.rngs = iv₁.rngs ∧
      s'.2.errlist = iv₁.errlist
        ++ info.Types.filterMap (templateUseViolation E s₁.2.immTmpls)
        ++ info.Selections.filterMap (fieldAccessViolation E iv₁.skipFiles)
        ++ rangeViolations E iv₁.rngs := by
  obtain ⟨s₁, iv₁, hreg, hw, h1, h2, h3, herr⟩ := vetPackage_eq E s s' pkg info hc h
  have hreg' := hreg
  rw [forM_registerFile] at hreg'
  have hs₁ := forM_registerSpec_exact E info _ _ _ s₁ hreg'
  have hw' := hw
  rw [WalkList_eq_visitAll] at hw'
  have hT : iv₁.immTmpls = s₁.2.immTmpls := visitAll_immTmpls E info _ _ _ hw'
  obtain ⟨W, hW, hWm⟩ := visitAll_walked E info _ _ _ hw'
  refine ⟨s₁, iv₁, W, hreg, hw, hs₁, hT, ?_, hWm, h1, h2, h3, ?_⟩
  · rw [hW, hs₁]
  · rw [herr, foldl_checkTemplateUse, hT]

theorem recordsOf_registry_nil (P : String → Bool) (c : Char)
    (hP : ∀ m, P m = true → m.data.head? = some c) (hc : c ≠ 'i') (E : Env) (info : Info)
    (specs : List Node) (st : State) :
    recordsOf P (registryViolations E info specs st) = [] :=
  recordsOf_eq_nil P c hP _ (fun e he => by
    obtain ⟨t, ht⟩ := msg_of_mem_registryViolations E info specs st e he
    rw [ht, head_templateFieldMsg]
    exact fun h => hc (Option.some.inj h).symm)

theorem recordsOf_walk_nil (P : String → Bool) (c : Char)
    (hP : ∀ m, P m = true → m.data.head? = some c) (hc : c ≠ 't') (hc' : c ≠ 'c')
    (W : List immErr) (hW : ∀ e, e ∈ W → isWalkMsg e.msg) : recordsOf P W = [] :=
  recordsOf_eq_nil P c hP _ (fun e he => by
    rcases head_of_isWalkMsg _ (hW e he) with h | h
    · rw [h]; exact fun h => hc (Option.some.inj h).symm
    · rw [h]; exact fun h => hc' (Option.some.inj h).symm)

theorem recordsOf_templateUse_nil (P : String → Bool) (c : Char)
    (hP : ∀ m, P m = true → m.data.head? = some c) (hc : c ≠ 't') (E : Env)
    (tm : List Nat) (l : List TypesEntry) :
    recordsOf P (l.filterMap (templateUseViolation E tm)) = [] :=
  recordsOf_eq_nil P c hP _ (fun e he => by
    obtain ⟨t, ht⟩ := msg_of_mem_templateUse E tm l e he
    rw [ht, head_templateUseMsg]
    exact fun h => hc (Option.some.inj h).symm)

theorem recordsOf_fieldAccess_nil (P : String → Bool) (c : Char)
    (hP : ∀ m, P m = true → m.data.head? = some c) (hc : c ≠ 's') (E : Env)
    (sk : List String) (l : List SelEntry) :
    recordsOf P (l.filterMap (fieldAccessViolation E sk)) = [] :=
  recordsOf_eq_nil P c hP _ (fun e he => by
    obtain ⟨en, hen⟩ := msg_of_mem_fieldAccess E sk l e he
    rw [hen, head_fieldAccessMsg]
    exact fun h => hc (Option.some.inj h).symm)

theorem recordsOf_range_nil (P : String → Bool) (c : Char)
    (hP : ∀ m, P m = true → m.data.head? = some c) (hc : c ≠ 'R') (E : Env)
    (rngs : List (Ident × Bool)) : recordsOf P (rangeViolations E rngs) = [] :=
  recordsOf_eq_nil P c hP _ (fun e he => by
    rw [msg_of_mem_rangeViolations E rngs e he]
    exact fun h => hc (Option.some.inj h).symm)

/-- The records of the once-only iteration rule in the violation list of a
package: those the list started with, and those of the loop over `iv.rngs`. -/
theorem vetPackage_rangeRecords (E : Env) (s s' : State × Vetter) (pkg : Package)
    (info : Info) (hc : pkg.check = some info) (h : vetPackage E s pkg = .ok s') :
    recordsOf isRangeMsg s'.2.errlist
      = recordsOf isRangeMsg s.2.errlist ++ rangeViolations E s'.2.rngs := by
  obtain ⟨s₁, iv₁, W, _, _, _, _, hiv, hW, _, _, hr, herr⟩ :=
    vetPackage_segments E s s' pkg info hc h
  rw [herr, hiv, hr]
  simp only [recordsOf_append]
  rw [recordsOf_registry_nil _ 'R' head_of_isRangeMsg (by decide),
    recordsOf_walk_nil _ 'R' head_of_isRangeMsg (by decide) (by decide) W hW,
    recordsOf_templateUse_nil _ 'R' head_of_isRangeMsg (by decide),
    recordsOf_fieldAccess_nil _ 'R' head_of_isRangeMsg (by decide),
    recordsOf_eq_self isRangeMsg (rangeViolations E iv₁.rngs) (fun e he => by
      rw [msg_of_mem_rangeViolations E _ e he]; rfl)]
  simp

/-- The records of the field-access rule in the violation list of a package:
those the list started with, and those of the loop over `info.Selections`. -/
theorem vetPackage_fieldAccessRecords (E : Env) (s s' : State × Vetter) (pkg : Package)
    (info : Info) (hc : pkg.check = some info) (h : vetPackage E s pkg = .ok s') :
    recordsOf isFieldAccessMsg s'.2.errlist
      = recordsOf isFieldAccessMsg s.2.errlist
        ++ info.Selections.filterMap (fieldAccessViolation E s'.2.skipFiles) := by
  obtain ⟨s₁, iv₁, W, _, _, _, _, hiv, hW, _, hsk, _, herr⟩ :=
    vetPackage_segments E s s' pkg info hc h
  rw [herr, hiv, hsk]
  simp only [recordsOf_append]
  rw [recordsOf_registry_nil _ 's' head_of_isFieldAccessMsg (by decide),
    recordsOf_walk_nil _ 's' head_of_isFieldAccessMsg (by decide) (by decide) W hW,
    recordsOf_templateUse_nil _ 's' head_of_isFieldAccessMsg (by decide),
    recordsOf_range_nil _ 's' head_of_isFieldAccessMsg (by decide),
    recordsOf_eq_self isFieldAccessMsg
      (info.Selections.filterMap (fieldAccessViolation E iv₁.skipFiles)) (fun e he => by
        obtain ⟨en, hen⟩ := msg_of_mem_fieldAccess E _ _ e he
        rw [hen]
        exact isFieldAccessMsg_fieldAccessMsg E en)]
  simp

/-- The records of the template registry in the violation list of a package:
those the list started with, and those of the registry. -/
theorem vetPackage_registryRecords (E : Env) (s s' : State × Vetter) (pkg : Package)
    (info : Info) (hc : pkg.check = some info) (h : vetPackage E s pkg = .ok s') :
    recordsOf isRegistryMsg s'.2.errlist
      = recordsOf isRegistryMsg s.2.errlist
        ++ registryViolations E info (pkgTypeSpecs pkg.files) s.1 := by
  obtain ⟨s₁, iv₁, W, _, _, _, _, hiv, hW, _, _, _, herr⟩ :=
    vetPackage_segments E s s' pkg info hc h
  rw [herr, hiv]
  simp only [recordsOf_append]
  rw [recordsOf_walk_nil _ 'i' head_of_isRegistryMsg (by decide) (by decide) W hW,
    recordsOf_templateUse_nil _ 'i' head_of_isRegistryMsg (by decide),
    recordsOf_fieldAccess_nil _ 'i' head_of_isRegistryMsg (by decide),
    recordsOf_range_nil _ 'i' head_of_isRegistryMsg (by decide),
    recordsOf_eq_self isRegistryMsg
      (registryViolations E info (pkgTypeSpecs pkg.files) s.1) (fun e he => by
        obtain ⟨t, ht⟩ := msg_of_mem_registryViolations E info _ _ e he
        rw [ht]
        exact isRegistryMsg_templateFieldMsg E t)]
  simp

/-! ### The verdicts of the registry do not depend on the state -/

/-- With a declaration table in which no two named types print the same
`String()`, a call from a state the run can be in returns the verdict it
returns from the program start. -/
theorem Reachable.verdict_eq_init (U : Universe) (rk : Nat → Nat)
    (hg : U.goodNames = true) (hd : U.distinctNames = true) (ha : U.acyclic rk = true)
    (st : State) (hst : Reachable U st) (t : Ty) :
    (isImmType U st t).1 = (isImmType U State.init t).1 :=
  (isImmType_pureV U rk hg hd ha st hst t).unique
    (isImmType_pureV U rk hg hd ha State.init Reachable.init t)

theorem checkTemplateFields_init (E : Env) (info : Info) (n : Nat) (rk : Nat → Nat)
    (hg : E.U.goodNames = true) (hd : E.U.distinctNames = true)
    (ha : E.U.acyclic rk = true) (fs : List (String × Ty)) :
    ∀ (i : Nat) (st : State) (iv : Vetter) (s' : State × Vetter),
      checkTemplateFields E info n i fs (st, iv) = .ok s' → Reachable E.U st →
        templateViolations E info n i fs st = templateViolationsInit E info n i fs ∧
        Reachable E.U (templateState E fs st) := by
  induction fs with
  | nil => intro i st iv s' _ hr; exact ⟨rfl, hr⟩
  | cons f fs ih =>
    intro i st iv s' h hr
    rw [checkTemplateFields] at h
    have hv := Reachable.verdict_eq_init E.U rk hg hd ha st hr f.2
    rcases hcall : isImmType E.U st f.2 with ⟨r, st'⟩
    rw [hcall] at h hv
    cases r with
    | ok b =>
      have hr' : Reachable E.U st' := Reachable.call st f.2 b st' hr hcall
      have h2 : ∃ iv', checkTemplateFields E info n (i + 1) fs (st', iv') = .ok s' := by
        cases b
        · exact ⟨_, h⟩
        · exact ⟨_, h⟩
      obtain ⟨iv', h2⟩ := h2
      obtain ⟨e1, e2⟩ := ih (i + 1) st' iv' s' h2 hr'
      simp only [templateViolations, templateViolationsInit, templateState, hcall, ← hv, e1]
      exact ⟨trivial, e2⟩
    | fault m => cases h
    | outOfFuel => cases h

theorem forM_registerSpec_init (E : Env) (info : Info) (rk : Nat → Nat)
    (hg : E.U.goodNames = true) (hd : E.U.distinctNames = true)
    (ha : E.U.acyclic rk = true) (specs : List Node) :
    ∀ (st : State) (iv : Vetter) (s' : State × Vetter),
      forM (registerSpec E info) (st, iv) specs = .ok s' → Reachable E.U st →
        registryViolations E info specs st = registryViolationsInit E info specs ∧
        Reachable E.U (registryState E info specs st) := by
  induction specs with
  | nil => intro st iv s' _ hr; exact ⟨rfl, hr⟩
  | cons spec specs ih =>
    intro st iv s' h hr
    rw [forM_cons] at h
    cases hb : registerSpec E info (st, iv) spec with
    | ok s₁ =>
      rw [hb, Res.bind_ok] at h
      have hex := registerSpec_exact E info st iv s₁ spec hb
      have key : registryViolations E info [spec] st = registryViolationsInit E info [spec] ∧
          Reachable E.U (registryState E info [spec] st) := by
        cases spec with
        | typeSpec pos name type =>
          by_cases hm : E.IsImmTmpl name = true
          · simp only [registerSpec, hm, Bool.not_true, Bool.false_eq_true, if_false] at hb
            cases ho : info.ObjectOf name with
            | named n =>
              rw [ho] at hb
              simp only at hb
              cases hu : E.U.underlying n with
              | struct fs =>
                rw [hu] at hb
                simp only at hb
                obtain ⟨e1, e2⟩ :=
                  checkTemplateFields_init E info n rk hg hd ha fs 0 st _ s₁ hb hr
                simp only [registryViolations, registryViolationsInit, registryState,
                  specTemplate, hm, if_true, ho, templateFields, hu, e1, List.append_nil]
                exact ⟨trivial, e2⟩
              | _ =>
                simp [registryViolations, registryViolationsInit, registryState,
                  specTemplate, hm, ho, templateFields, hu, templateViolations,
                  templateViolationsInit, templateState, hr]
            | _ =>
              rw [ho] at hb
              simp only at hb
              cases hb
          · have hm' : E.IsImmTmpl name = false := by simpa using hm
            simp [registryViolations, registryViolationsInit, registryState, specTemplate,
              hm', hr]
        | _ =>
          simp only [registerSpec] at hb
          cases hb
      rw [hex] at h
      obtain ⟨e1, e2⟩ := ih _ _ s' h key.2
      rw [registryViolations_cons E info spec specs st,
        registryState_cons E info spec specs st, e1, key.1]
      refine ⟨?_, e2⟩
      simp only [registryViolationsInit]
      cases specTemplate E info spec <;> simp
    | fault m => rw [hb] at h; cases h
    | outOfFuel => rw [hb] at h; cases h

/-! ### The template registry (C11), the field-access rule (C9) and the once-only
iteration rule (C8) -/

theorem templateFieldMsg_plain (E : Env) (t : Ty)
    (ht : ∀ c ∈ (typeString E.U t).data, (c != '%') = true) :
    templateFieldMsg E t
      = "immutable struct field must be immutable type; " ++ typeString E.U t ++ " is not" := by
  unfold templateFieldMsg
  apply E.Sprintf_plain
  intro c hc
  rw [String.data_append, String.data_append, List.mem_append, List.mem_append] at hc
  rcases hc with (hc | hc) | hc
  · revert c
    decide
  · exact ht c hc
  · revert c
    decide

/-- **C11** (amended).  The template registry.  When the body of
`vetPackages` for a package returns, the loop that fills `immTmpls` has
returned before the syntax walk starts, and it went over the type specs at the
top level of the files of the package, in order.  The set `immTmpls` the walk
starts with holds the types these specs declare with the template marker, each
of which is a named type.  The violation list the walk starts with is the list
the body started with followed by the violations of the registry: for every
such template whose underlying type is a struct, in order, one violation for
every field, in order, whose type `isImmType` classifies as not immutable, at
the position of the field, and none for another field; and these are all the
records with the message of the registry that the body adds.  With a
declaration table of a type-checked program in which no two named types print
the same `String()`, and from a state the run can be in, a field is classified
as it is from the program start.  The message is
"immutable struct field must be immutable type; T is not", formatted once more
without operands, which changes nothing when the text of the type has no
`%`. -/
theorem vetPackage_template_registry (E : Env) (s s' : State × Vetter) (pkg : Package)
    (info : Info) (hc : pkg.check = some info) (h : vetPackage E s pkg = .ok s') :
    ∃ (s₁ : State × Vetter) (iv₁ : Vetter),
      forM (registerFile E info) (s.1, { s.2 with rngs := [], immTmpls := [] }) pkg.files
        = .ok s₁ ∧
      WalkList E info s₁.2 pkg.files = .ok iv₁ ∧
      s₁.2.immTmpls = registryTemplates E info (pkgTypeSpecs pkg.files) [] ∧
      (∀ (f : Node) (pos : Nat) (name : Ident) (type : Node), f ∈ pkg.files →
        Node.typeSpec pos name type ∈ f.typeSpecs → E.IsImmTmpl name = true →
          ∃ n, info.ObjectOf name = .named n ∧ n ∈ s₁.2.immTmpls) ∧
      s₁.2.errlist
        = s.2.errlist ++ registryViolations E info (pkgTypeSpecs pkg.files) s.1 ∧
      recordsOf isRegistryMsg s'.2.errlist
        = recordsOf isRegistryMsg s.2.errlist
          ++ registryViolations E info (pkgTypeSpecs pkg.files) s.1 ∧
      (∀ rk : Nat → Nat, E.U.goodNames = true → E.U.distinctNames = true →
        E.U.acyclic rk = true → Reachable E.U s.1 →
          registryViolations E info (pkgTypeSpecs pkg.files) s.1
            = registryViolationsInit E info (pkgTypeSpecs pkg.files)) ∧
      (∀ t : Ty, (∀ c ∈ (typeString E.U t).data, (c != '%') = true) →
        templateFieldMsg E t
          = "immutable struct field must be immutable type; " ++ typeString E.U t
            ++ " is not") := by
  obtain ⟨s₁, iv₁, W, hreg, hw, hs₁, _, _, _, _, _, _, _⟩ :=
    vetPackage_segments E s s' pkg info hc h
  refine ⟨s₁, iv₁, hreg, hw, by rw [hs₁], ?_, by rw [hs₁],
    vetPackage_registryRecords E s s' pkg info hc h, ?_, templateFieldMsg_plain E⟩
  · intro f pos name type hf hspec hm
    obtain ⟨sa, sa', _, hsp, g2⟩ :=
      forM_registerFile_mem E info pkg.files _ s₁ hreg f hf _ hspec
    obtain ⟨n, ho, hn, _⟩ := registerSpec_marked E info sa sa' pos name type hm hsp
    exact ⟨n, ho, g2.1 hn⟩
  · intro rk hg hd ha hr
    have hreg' := hreg
    rw [forM_registerFile] at hreg'
    exact (forM_registerSpec_init E info rk hg hd ha _ _ _ s₁ hreg' hr).1

/-- Witness of **C11** (amended): the template package, whose template
`_Imm_Pair` has the field `bs []int`. -/
theorem vetPackage_template_registry_witness :
    (∃ (s₁ : State × Vetter) (iv₁ : Vetter),
      forM (registerFile tmplEnv tmplInfo)
          ((State.init, newImmutableVetter).1,
            { (State.init, newImmutableVetter).2 with rngs := [], immTmpls := [] })
          tmplPkg.files
        = .ok s₁ ∧
      WalkList tmplEnv tmplInfo s₁.2 tmplPkg.files = .ok iv₁ ∧
      s₁.2.immTmpls = registryTemplates tmplEnv tmplInfo (pkgTypeSpecs tmplPkg.files) [] ∧
      (∀ (f : Node) (pos : Nat) (name : Ident) (type : Node), f ∈ tmplPkg.files →
        Node.typeSpec pos name type ∈ f.typeSpecs → tmplEnv.IsImmTmpl name = true →
          ∃ n, tmplInfo.ObjectOf name = .named n ∧ n ∈ s₁.2.immTmpls) ∧
      s₁.2.errlist
        = (State.init, newImmutableVetter).2.errlist
          ++ registryViolations tmplEnv tmplInfo (pkgTypeSpecs tmplPkg.files)
              (State.init, newImmutableVetter).1 ∧
      recordsOf isRegistryMsg
          [(⟨⟨"p.go", 17, 1⟩, "immutable struct field must be immutable type; []int is not"⟩ :
              immErr),
            ⟨⟨"p.go", 34, 1⟩, "template type *p._Imm_Pair should never get used"⟩]
        = recordsOf isRegistryMsg (State.init, newImmutableVetter).2.errlist
          ++ registryViolations tmplEnv tmplInfo (pkgTypeSpecs tmplPkg.files)
              (State.init, newImmutableVetter).1 ∧
      (∀ rk : Nat → Nat, tmplEnv.U.goodNames = true → tmplEnv.U.distinctNames = true →
        tmplEnv.U.acyclic rk = true →
        Reachable tmplEnv.U (State.init, newImmutableVetter).1 →
          registryViolations tmplEnv tmplInfo (pkgTypeSpecs tmplPkg.files)
              (State.init, newImmutableVetter).1
            = registryViolationsInit tmplEnv tmplInfo (pkgTypeSpecs tmplPkg.files)) ∧
      (∀ t : Ty, (∀ c ∈ (typeString tmplEnv.U t).data, (c != '%') = true) →
        templateFieldMsg tmplEnv t
          = "immutable struct field must be immutable type; " ++ typeString tmplEnv.U t
            ++ " is not")) ∧
    registryViolations tmplEnv tmplInfo (pkgTypeSpecs tmplPkg.files) State.init
      = [⟨⟨"p.go", 17, 1⟩, "immutable struct field must be immutable type; []int is not"⟩] ∧
    registryTemplates tmplEnv tmplInfo (pkgTypeSpecs tmplPkg.files) [] = [0] :=
  ⟨vetPackage_template_registry tmplEnv (State.init, newImmutableVetter)
    (State.init,
      { skipFiles := [], immTmpls := [0], rngs := [], vcls := [],
        errlist :=
          [⟨⟨"p.go", 17, 1⟩, "immutable struct field must be immutable type; []int is not"⟩,
           ⟨⟨"p.go", 34, 1⟩, "template type *p._Imm_Pair should never get used"⟩] })
    tmplPkg tmplInfo rfl (by decide), by decide, by decide⟩

/-- **C9.** Field-access rule with skip-file.  When the body of `vetPackages`
for a package returns, its violation list is the list the syntax walk left,
followed by the violations of the template-leakage rule, those of the loop over
`info.Selections` and those of the loop over `iv.rngs`; the records with the
message of the field-access rule that the body adds are exactly those of the
loop over the selections.  That loop appends, for every selection in turn,
exactly one violation "should not be using X of T immutable type" at the
position of the receiver when the selection is of a data field, the type of the
receiver is an immutable template and the file is not in `skipFiles`, and none
otherwise: none for a method selection, none for a receiver that is no
template, and none when the file is in `skipFiles`, as is every file of the
package that carries the skip-file comment. -/
theorem vetPackage_field_access (E : Env) (s s' : State × Vetter) (pkg : Package)
    (info : Info) (hc : pkg.check = some info) (h : vetPackage E s pkg = .ok s') :
    ∃ (s₁ : State × Vetter) (iv₁ : Vetter),
      forM (registerFile E info) (s.1, { s.2 with rngs := [], immTmpls := [] }) pkg.files
        = .ok s₁ ∧
      WalkList E info s₁.2 pkg.files = .ok iv₁ ∧
      s'.2.skipFiles = iv₁.skipFiles ∧
      s'.2.errlist = iv₁.errlist
        ++ info.Types.filterMap (templateUseViolation E s₁.2.immTmpls)
        ++ info.Selections.filterMap (fieldAccessViolation E s'.2.skipFiles)
        ++ rangeViolations E iv₁.rngs ∧
      recordsOf isFieldAccessMsg s'.2.errlist
        = recordsOf isFieldAccessMsg s.2.errlist
          ++ info.Selections.filterMap (fieldAccessViolation E s'.2.skipFiles) ∧
      (∀ pos comments decls, Node.file pos comments decls ∈ pkg.files →
        hasSkipFileComment E comments = true →
          (E.Position pos).filename ∈ s'.2.skipFiles) ∧
      ∀ en : SelEntry,
        (en.sel.kind = SelectionKind.FieldVal → (E.U.IsImmType en.sel.recv).isSome = true →
          (E.Position en.xPos).filename ∉ s'.2.skipFiles →
          fieldAccessViolation E s'.2.skipFiles en
            = some ⟨E.Position en.xPos,
                "should not be using " ++ en.sel.objName ++ " of "
                  ++ typeString E.U en.sel.recv ++ " immutable type"⟩) ∧
        ((E.Position en.xPos).filename ∈ s'.2.skipFiles →
          fieldAccessViolation E s'.2.skipFiles en = none) ∧
        (en.sel.kind ≠ SelectionKind.FieldVal →
          fieldAccessViolation E s'.2.skipFiles en = none) ∧
        (E.U.IsImmType en.sel.recv = none →
          fieldAccessViolation E s'.2.skipFiles en = none) := by
  obtain ⟨s₁, iv₁, W, hreg, hw, _, _, _, _, _, hskip, _, herr⟩ :=
    vetPackage_segments E s s' pkg info hc h
  refine ⟨s₁, iv₁, hreg, hw, hskip, by rw [herr, hskip],
    vetPackage_fieldAccessRecords E s s' pkg info hc h, ?_, ?_⟩
  · intro pos comments decls hmem hcomment
    rw [hskip]
    rw [WalkList_eq_visitAll] at hw
    exact (visitAll_skipFiles E info _ _ _ hw).2 (.file pos comments decls)
      (mem_preorderList_of_mem E _ _ hmem) hcomment
  · intro en
    refine ⟨fun h1 h2 h3 => ?_, fun h3 => ?_, fun h1 => ?_, fun h2 => ?_⟩
    · simp [fieldAccessViolation, fieldAccessMsg, h1, h2, h3]
    · simp [fieldAccessViolation, h3]
    · simp [fieldAccessViolation, h1]
    · simp [fieldAccessViolation, h2]

/-- Witness of **C9**: the package of `a.go` and `skip.go`. -/
theorem vetPackage_field_access_witness :
    ∃ (s₁ : State × Vetter) (iv₁ : Vetter),
      forM (registerFile demoEnv accessInfo)
          ((State.init, newImmutableVetter).1,
            { (State.init, newImmutableVetter).2 with rngs := [], immTmpls := [] })
          accessPkg.files
        = .ok s₁ ∧
      WalkList demoEnv accessInfo s₁.2 accessPkg.files = .ok iv₁ ∧
      ["skip.go"] = iv₁.skipFiles ∧
      [(⟨⟨"a.go", 10, 1⟩, constructMsg⟩ : immErr),
        ⟨⟨"a.go", 50, 1⟩, "should not be using name of *p.MyStruct immutable type"⟩]
        = iv₁.errlist
        ++ accessInfo.Types.filterMap (templateUseViolation demoEnv s₁.2.immTmpls)
        ++ accessInfo.Selections.filterMap (fieldAccessViolation demoEnv ["skip.go"])
        ++ rangeViolations demoEnv iv₁.rngs ∧
      recordsOf isFieldAccessMsg
          [(⟨⟨"a.go", 10, 1⟩, constructMsg⟩ : immErr),
            ⟨⟨"a.go", 50, 1⟩, "should not be using name of *p.MyStruct immutable type"⟩]
        = recordsOf isFieldAccessMsg (State.init, newImmutableVetter).2.errlist
          ++ accessInfo.Selections.filterMap (fieldAccessViolation demoEnv ["skip.go"]) ∧
      (∀ pos comments decls, Node.file pos comments decls ∈ accessPkg.files →
        hasSkipFileComment demoEnv comments = true →
          (demoEnv.Position pos).filename ∈ ["skip.go"]) ∧
      ∀ en : SelEntry,
        (en.sel.kind = SelectionKind.FieldVal →
          (demoEnv.U.IsImmType en.sel.recv).isSome = true →
          (demoEnv.Position en.xPos).filename ∉ ["skip.go"] →
          fieldAccessViolation demoEnv ["skip.go"] en
            = some ⟨demoEnv.Position en.xPos,
                "should not be using " ++ en.sel.objName ++ " of "
                  ++ typeString demoEnv.U en.sel.recv ++ " immutable type"⟩) ∧
        ((demoEnv.Position en.xPos).filename ∈ ["skip.go"] →
          fieldAccessViolation demoEnv ["skip.go"] en = none) ∧
        (en.sel.kind ≠ SelectionKind.FieldVal →
          fieldAccessViolation demoEnv ["skip.go"] en = none) ∧
        (demoEnv.U.IsImmType en.sel.recv = none →
          fieldAccessViolation demoEnv ["skip.go"] en = none) :=
  vetPackage_field_access demoEnv (State.init, newImmutableVetter)
    (State.init,
      { skipFiles := ["skip.go"], immTmpls := [], rngs := [], vcls := [11],
        errlist :=
          [⟨⟨"a.go", 10, 1⟩, constructMsg⟩,
           ⟨⟨"a.go", 50, 1⟩, "should not be using name of *p.MyStruct immutable type"⟩] })
    accessPkg accessInfo rfl (by decide)

/-- **C8 (amended).** Once-only iteration rule.  When the body of
`vetPackages` for a package returns, and in the package no call of `append`
has a gap between its second argument and the ellipsis, its violation list is
the list the syntax walk left, followed by the violations of the
template-leakage rule, those of the field-access rule, and one violation
"Range() of immutable type must appear in a range statement or used with an
ellipsis as the second argument to append" at the position of every identifier
of a list `ks` without repetition; these are exactly the records with that
message that the body adds.  An identifier is in `ks` exactly when a visited
node recorded it (a selection named `Range` on an immutable template list or
map) and no visited node consumed it, where a node consumes it when (a) its
call, the call of a method value, is the iterated subject of a range statement,
(b) its call, spread, is the second of two arguments to `append`, or (c) its
call, the call of a method value, spread, is the sole argument to an `Append`
method on an immutable list or map.  The order of the visits plays no part. -/
theorem vetPackage_range_rule (E : Env) (s s' : State × Vetter) (pkg : Package)
    (info : Info) (hc : pkg.check = some info) (h : vetPackage E s pkg = .ok s')
    (hadj : ∀ n, n ∈ preorderList E pkg.files → n.spreadAdjacent = true) :
    ∃ (s₁ : State × Vetter) (iv₁ : Vetter) (ks : List Ident),
      forM (registerFile E info) (s.1, { s.2 with rngs := [], immTmpls := [] }) pkg.files
        = .ok s₁ ∧
      WalkList E info s₁.2 pkg.files = .ok iv₁ ∧
      s'.2.errlist = iv₁.errlist
        ++ info.Types.filterMap (templateUseViolation E s₁.2.immTmpls)
        ++ info.Selections.filterMap (fieldAccessViolation E iv₁.skipFiles)
        ++ ks.map (rangeViolation E) ∧
      recordsOf isRangeMsg s'.2.errlist
        = recordsOf isRangeMsg s.2.errlist ++ ks.map (rangeViolation E) ∧
      (∀ k : Ident, rangeViolation E k
        = ⟨E.Position k.namePos,
            "Range() of immutable type must appear in a range statement or used with an ellipsis as the second argument to append"⟩) ∧
      ks.Nodup ∧
      ∀ k, k ∈ ks ↔
        (∃ n, n ∈ preorderList E pkg.files ∧ n.records E info = some k) ∧
        ¬ ∃ n, n ∈ preorderList E pkg.files ∧ n.consumes E info = some k := by
  obtain ⟨s₁, iv₁, W, hreg, hw, _, _, _, _, _, _, hrs, herr⟩ :=
    vetPackage_segments E s s' pkg info hc h
  have hrec := vetPackage_rangeRecords E s s' pkg info hc h
  have hr0 : s₁.2.rngs = [] := (forM_registerFile_rngs E info _ _ _ hreg).1
  have hw' := hw
  rw [WalkList_eq_visitAll] at hw'
  have hrngs : iv₁.rngs = (preorderList E pkg.files).foldl (rngsStep E info) [] := by
    rw [visitAll_rngs E info _ _ _ hadj hw', hr0]
  have hnd : (iv₁.rngs.map Prod.fst).Nodup := by
    rw [hrngs]
    exact foldl_rngsStep_nodup E info _ [] (by simp)
  refine ⟨s₁, iv₁, (iv₁.rngs.filter fun kv => kv.2 = false).map Prod.fst, hreg, hw, ?_, ?_,
    fun _ => rfl, ?_, ?_⟩
  · rw [herr, rangeViolations_eq_map]
  · rw [hrec, hrs, rangeViolations_eq_map]
  · exact (hnd.sublist (List.Sublist.map _ (List.filter_sublist _)))
  · intro k
    have hmem : k ∈ (iv₁.rngs.filter fun kv => kv.2 = false).map Prod.fst
        ↔ (k, false) ∈ iv₁.rngs := by
      simp only [List.mem_map, List.mem_filter, decide_eq_true_eq, Prod.exists]
      constructor
      · rintro ⟨a, b, ⟨hab, hb⟩, rfl⟩
        subst hb
        exact hab
      · intro hk
        exact ⟨k, false, ⟨hk, rfl⟩, rfl⟩
    rw [hmem, mem_iff_rngsFind _ hnd, hrngs, foldl_rngsStep_false]
    simp [rngsFind]

/-- Witness of **C8 (amended)**: the package of `rangeFile`. -/
theorem vetPackage_range_rule_witness :
    ∃ (s₁ : State × Vetter) (iv₁ : Vetter) (ks : List Ident),
      forM (registerFile demoEnv rangeInfo)
          ((State.init, newImmutableVetter).1,
            { (State.init, newImmutableVetter).2 with rngs := [], immTmpls := [] })
          rangePkg.files
        = .ok s₁ ∧
      WalkList demoEnv rangeInfo s₁.2 rangePkg.files = .ok iv₁ ∧
      [rangeViolation demoEnv (rangeIdent 51 212), rangeViolation demoEnv (rangeIdent 61 312)]
        = iv₁.errlist
        ++ rangeInfo.Types.filterMap (templateUseViolation demoEnv s₁.2.immTmpls)
        ++ rangeInfo.Selections.filterMap (fieldAccessViolation demoEnv iv₁.skipFiles)
        ++ ks.map (rangeViolation demoEnv) ∧
      recordsOf isRangeMsg
          [rangeViolation demoEnv (rangeIdent 51 212),
            rangeViolation demoEnv (rangeIdent 61 312)]
        = recordsOf isRangeMsg (State.init, newImmutableVetter).2.errlist
          ++ ks.map (rangeViolation demoEnv) ∧
      (∀ k : Ident, rangeViolation demoEnv k
        = ⟨demoEnv.Position k.namePos,
            "Range() of immutable type must appear in a range statement or used with an ellipsis as the second argument to append"⟩) ∧
      ks.Nodup ∧
      ∀ k, k ∈ ks ↔
        (∃ n, n ∈ preorderList demoEnv rangePkg.files ∧
          n.records demoEnv rangeInfo = some k) ∧
        ¬ ∃ n, n ∈ preorderList demoEnv rangePkg.files ∧
          n.consumes demoEnv rangeInfo = some k :=
  vetPackage_range_rule demoEnv (State.init, newImmutableVetter)
    (State.init,
      { skipFiles := [], immTmpls := [],
        rngs := [(rangeIdent 41 112, true), (rangeIdent 51 212, false),
          (rangeIdent 61 312, false)],
        vcls := [],
        errlist :=
          [rangeViolation demoEnv (rangeIdent 51 212),
           rangeViolation demoEnv (rangeIdent 61 312)] })
    rangePkg rangeInfo rfl (by decide) (by decide)

/-! ### The cross-package check (C10) -/

theorem setInsert_nodup (s : List Nat) (k : Nat) (h : s.Nodup) : (setInsert s k).Nodup := by
  unfold setInsert
  split
  · exact h
  · rename_i hk
    rw [List.nodup_append]
    refine ⟨h, List.nodup_singleton k, ?_⟩
    intro a ha hb
    rw [List.mem_singleton] at hb
    subst hb
    exact hk ha

theorem leafAnswer_nodupSets (U : Universe) (st : State) (t : Ty) (h : st.NodupSets) :
    (leafAnswer U st t).2.NodupSets := by
  cases t with
  | interface id ms => exact ⟨h.1, setInsert_nodup _ _ h.2⟩
  | _ => exact h

theorem namedResult_nodupSets (U : Universe) (i : Nat) (r : Res Bool × State)
    (h : r.2.NodupSets) : (namedResult U i r).2.NodupSets := by
  rcases r with ⟨r, s⟩
  cases r with
  | ok v => exact h
  | fault m => exact h
  | outOfFuel => exact h

theorem isImmTypeFuel_nodupSets (U : Universe) :
    ∀ fuel st t, st.NodupSets → (isImmTypeFuel U fuel st t).2.NodupSets := by
  intro fuel
  induction fuel with
  | zero => intro st t h; exact h
  | succ fuel ih =>
    intro st t hs
    rcases isImmTypeFuel_cases U fuel st t with
      ⟨v, _, h⟩ | ⟨_, _, h⟩ | ⟨i, rfl, _, h⟩ | ⟨fs, rfl, _, h⟩
    · rw [h]; exact hs
    · rw [h]; exact leafAnswer_nodupSets U st t hs
    · rw [h]
      exact namedResult_nodupSets U i _
        (ih _ _ ⟨setInsert_nodup _ _ hs.1, hs.2⟩)
    · rw [h]
      exact fieldLoop_inv (fun s => s.NodupSets) _ fs (fun s f _ hp => ih s f.2 hp) st hs

/-- In every state a run can be in, `seenTypes` and `ifaces` hold every key
once. -/
theorem Reachable.nodupSets (U : Universe) (st : State) (h : Reachable U st) :
    st.NodupSets := by
  induction h with
  | init => exact ⟨List.nodup_nil, List.nodup_nil⟩
  | call st t b st' _ hcall ih =>
    have := isImmTypeFuel_nodupSets U (fuelFor U st t) st t ih
    unfold isImmType at hcall
    rw [hcall] at this
    exact this

theorem crossViolations_eq_product (E : Env) (st : State) (is : List Nat) :
    crossViolations E st is
      = (List.product is st.seenTypes).filterMap fun p => crossViolation E st p.1 p.2 := by
  induction is with
  | nil => rfl
  | cons i is ih =>
    have hp : List.product (i :: is) st.seenTypes
        = st.seenTypes.map (fun n => (i, n)) ++ List.product is st.seenTypes :=
      List.product_cons i is st.seenTypes
    rw [crossViolations, ih, hp, List.filterMap_append, List.filterMap_map]
    rfl

/-- **C10.** Cross-package interface check.  From every state of the
package-level variables that the run can be in, the check returns, leaves the
package-level variables unchanged, and appends to `emsgs` the violations of the
pairs of a tracked interface and a seen named type, interface by interface.
Every pair `(i, n)` is met once, since `ifaces` and `seenTypes` hold every key
once, and gives at most one violation: one exactly when `n` satisfies `i` and
`isImmType(n)` is false, or the pointer form `*n` satisfies `i` and
`isImmType(*n)` is false.  The violation is positioned at the declaration of
`n` and reads "type T which implements I is not immutable", where `T` is `n`
in the first case and `*n` otherwise. -/
theorem crossCheck_violations (E : Env) (st : State) (hst : Reachable E.U st)
    (emsgs : List immErr) :
    crossCheck E st emsgs
      = .ok (st, emsgs
          ++ (List.product st.ifaces st.seenTypes).filterMap
              fun p => crossViolation E st p.1 p.2) ∧
    st.ifaces.Nodup ∧ st.seenTypes.Nodup ∧ (List.product st.ifaces st.seenTypes).Nodup ∧
    ∀ i n,
      ((crossViolation E st i n).isSome = true ↔
        (E.U.Implements (.named n) i = true ∧ (isImmType E.U st (.named n)).1 = .ok false) ∨
        (E.U.Implements (.pointer (.named n)) i = true ∧
          (isImmType E.U st (.pointer (.named n))).1 = .ok false)) ∧
      (E.U.Implements (.named n) i = true ∧ (isImmType E.U st (.named n)).1 = .ok false →
        crossViolation E st i n
          = some ⟨E.U.declPos n,
              "type " ++ E.U.qualName n ++ " which implements " ++ E.InterfaceString i
                ++ " is not immutable"⟩) ∧
      (¬ (E.U.Implements (.named n) i = true ∧
          (isImmType E.U st (.named n)).1 = .ok false) →
        E.U.Implements (.pointer (.named n)) i = true ∧
          (isImmType E.U st (.pointer (.named n))).1 = .ok false →
        crossViolation E st i n
          = some ⟨E.U.declPos n,
              "type " ++ ("*" ++ E.U.qualName n) ++ " which implements "
                ++ E.InterfaceString i ++ " is not immutable"⟩) := by
  have hnd := Reachable.nodupSets E.U st hst
  refine ⟨?_, hnd.2, hnd.1, List.Nodup.product hnd.2 hnd.1, ?_⟩
  · rw [← crossViolations_eq_product]
    exact forM_crossCheck E st (Reachable.seenCached E.U st hst) st.ifaces emsgs
  · intro i n
    unfold crossViolation
    by_cases h1 : E.U.Implements (.named n) i = true ∧
        (isImmType E.U st (.named n)).1 = .ok false
    · rw [if_pos h1]
      exact ⟨⟨fun _ => Or.inl h1, fun _ => rfl⟩, fun _ => rfl, fun hn => absurd h1 hn⟩
    · rw [if_neg h1]
      by_cases h2 : E.U.Implements (.pointer (.named n)) i = true ∧
          (isImmType E.U st (.pointer (.named n))).1 = .ok false
      · rw [if_pos h2]
        exact ⟨⟨fun _ => Or.inr h2, fun _ => rfl⟩, fun h => absurd h h1, fun _ _ => rfl⟩
      · rw [if_neg h2]
        refine ⟨⟨fun h => (by cases h), fun h => ?_⟩, fun h => absurd h h1,
          fun _ h => absurd h h2⟩
        exact h.elim (fun h => absurd h h1) (fun h => absurd h h2)

/-- Witness of **C10**: the package of shapes, after `Shape`, `Circle` and
`Poly` were classified. -/
theorem crossCheck_violations_witness :
    (crossCheck shapeEnv shapeState []
      = .ok (shapeState, []
          ++ (List.product shapeState.ifaces shapeState.seenTypes).filterMap
              fun p => crossViolation shapeEnv shapeState p.1 p.2) ∧
    shapeState.ifaces.Nodup ∧ shapeState.seenTypes.Nodup ∧
    (List.product shapeState.ifaces shapeState.seenTypes).Nodup ∧
    ∀ i n,
      ((crossViolation shapeEnv shapeState i n).isSome = true ↔
        (shapeEnv.U.Implements (.named n) i = true ∧
          (isImmType shapeEnv.U shapeState (.named n)).1 = .ok false) ∨
        (shapeEnv.U.Implements (.pointer (.named n)) i = true ∧
          (isImmType shapeEnv.U shapeState (.pointer (.named n))).1 = .ok false)) ∧
      (shapeEnv.U.Implements (.named n) i = true ∧
          (isImmType shapeEnv.U shapeState (.named n)).1 = .ok false →
        crossViolation shapeEnv shapeState i n
          = some ⟨shapeEnv.U.declPos n,
              "type " ++ shapeEnv.U.qualName n ++ " which implements "
                ++ shapeEnv.InterfaceString i ++ " is not immutable"⟩) ∧
      (¬ (shapeEnv.U.Implements (.named n) i = true ∧
          (isImmType shapeEnv.U shapeState (.named n)).1 = .ok false) →
        shapeEnv.U.Implements (.pointer (.named n)) i = true ∧
          (isImmType shapeEnv.U shapeState (.pointer (.named n))).1 = .ok false →
        crossViolation shapeEnv shapeState i n
          = some ⟨shapeEnv.U.declPos n,
              "type " ++ ("*" ++ shapeEnv.U.qualName n) ++ " which implements "
                ++ shapeEnv.InterfaceString i ++ " is not immutable"⟩)) ∧
    (List.product shapeState.ifaces shapeState.seenTypes).filterMap
        (fun p => crossViolation shapeEnv shapeState p.1 p.2)
      = [⟨⟨"p.go", 7, 6⟩,
            "type *p.Circle which implements interface\x7bArea() float64\x7d is not immutable"⟩,
          ⟨⟨"p.go", 11, 6⟩,
            "type p.Poly which implements interface\x7bArea() float64\x7d is not immutable"⟩] :=
  ⟨crossCheck_violations shapeEnv shapeState
    (Reachable.call
      (isImmType shapeUniverse (isImmType shapeUniverse State.init (.named 0)).2 (.named 1)).2
      (.named 2) false shapeState
      (Reachable.call (isImmType shapeUniverse State.init (.named 0)).2 (.named 1) true
        (isImmType shapeUniverse (isImmType shapeUniverse State.init (.named 0)).2
          (.named 1)).2
        (Reachable.call State.init (.named 0) true
          (isImmType shapeUniverse State.init (.named 0)).2 Reachable.init (by decide))
        (by decide))
      (by decide))
    [], by decide⟩

/-! ### The tentative entry of a pending named type (C6) -/

theorem isImmType_extends (U : Universe) (st : State) (t : Ty) :
    Cache.Extends st.typesCache (isImmType U st t).2.typesCache :=
  isImmTypeFuel_extends U _ st t

/-- Every state a run can be in keeps the pre-seeded entries. -/
theorem Reachable.extends_seed (U : Universe) (st : State) (h : Reachable U st) :
    Cache.Extends typesCache st.typesCache := by
  induction h with
  | init => exact Cache.Extends.extRefl _
  | call st t b st' _ hcall ih =>
    have := isImmType_extends U st t
    rw [hcall] at this
    exact Cache.Extends.extTrans ih this

/-- The classification of a named type without a cache entry: the
classification of its underlying type from the pending state, and then the
correction of the tentative entry. -/
theorem isImmType_named (U : Universe) (st : State) (i : Nat)
    (h : st.typesCache.find (U.qualName i) = none) :
    isImmType U st (.named i)
      = namedResult U i (isImmType U (st.pending U i) (U.underlying i)) := by
  have hne := isImmType_ne_outOfFuel U st (.named i)
  unfold isImmType at hne ⊢
  obtain ⟨k, hk⟩ := Nat.exists_eq_succ_of_ne_zero
    (Nat.pos_iff_ne_zero.mp (fuelFor_pos U st (.named i)))
  rw [hk] at hne ⊢
  rw [isImmTypeFuel_named U k st i h] at hne ⊢
  rw [namedResult_fst] at hne
  rw [isImmTypeFuel_eq_isImmType U k _ _ hne]
  rfl

/-- The classification of a struct without a cache entry: the loop over its
fields. -/
theorem isImmType_struct (U : Universe) (st : State) (fs : List (String × Ty))
    (h : st.typesCache.find (typeString U (.struct fs)) = none) :
    isImmType U st (.struct fs) = fieldLoop (isImmType U) st fs := by
  have hne := isImmType_ne_outOfFuel U st (.struct fs)
  unfold isImmType at hne
  obtain ⟨k, hk⟩ := Nat.exists_eq_succ_of_ne_zero
    (Nat.pos_iff_ne_zero.mp (fuelFor_pos U st (.struct fs)))
  rw [hk, isImmTypeFuel_struct U k st fs h] at hne
  have hc := fieldLoop_congr (isImmTypeFuel U k) (isImmType U) fs
    (fun st' f _ hf => (isImmTypeFuel_eq_isImmType U k st' f.2 hf).symm) st hne
  rw [hc]
  show isImmTypeFuel U (fuelFor U st (.struct fs)) st (.struct fs) = _
  rw [hk, isImmTypeFuel_struct U k st fs h]

theorem Ty.eq_named_of_isNamed (i : Nat) (t : Ty) (h : t.isNamed i = true) : t = .named i := by
  cases t with
  | named j =>
    simp only [Ty.isNamed, beq_iff_eq] at h
    rw [h]
  | _ => simp [Ty.isNamed] at h

/-- A field loop in which every reference to the named type `i` is answered
immutable without a change gives what it gives without the fields of the type
`i`. -/
theorem fieldLoop_skip_self (classify : State → Ty → Res Bool × State) (i : Nat)
    (Inv : State → Prop)
    (hself : ∀ st, Inv st → classify st (.named i) = (.ok true, st))
    (hinv : ∀ st t, Inv st → Inv (classify st t).2) (fs : List (String × Ty)) :
    ∀ st, Inv st →
      fieldLoop classify st fs
        = fieldLoop classify st (fs.filter fun f => !f.2.isNamed i) := by
  induction fs with
  | nil => intro st _; rfl
  | cons f fs ih =>
    intro st hst
    by_cases hf : f.2.isNamed i = true
    · have hfe := Ty.eq_named_of_isNamed i f.2 hf
      rw [List.filter_cons, hf, fieldLoop_cons, hfe, hself st hst]
      simp only [if_true, Bool.not_true, Bool.false_eq_true, if_false]
      exact ih st hst
    · have hf' : f.2.isNamed i = false := by simpa using hf
      rw [List.filter_cons, hf', fieldLoop_cons]
      simp only [Bool.not_false, if_true]
      rw [fieldLoop_cons]
      by_cases hok : (classify st f.2).1 = .ok true
      · rw [if_pos hok, if_pos hok]
        exact ih _ (hinv st f.2 hst)
      · rw [if_neg hok, if_neg hok]

theorem find_pending (U : Universe) (hg : U.goodNames = true) (st : State)
    (hr : Reachable U st) (i : Nat) (t : Ty) (hn : ∀ j, t ≠ .named j) :
    (st.pending U i).typesCache.find (typeString U t) = typesCache.find (typeString U t) := by
  show (st.typesCache.store (U.qualName i) true).find (typeString U t) = _
  rw [Cache.find_store, if_neg (fun h => typeString_ne_qualName U hg t hn i h.symm)]
  exact Reachable.find_seed U st hr _ (typeString_ne_qualName U hg t hn)

/-- **C6 (amended).** The cycle-breaking tie-break.  Let `N` be a named type
without a cache entry, in a state the run can be in, whose underlying type is a
struct.  `isImmType(N)` classifies the struct from the pending state, in which
the entry of `N` is the tentative `true`; in that state and in every state the
classification of the struct can reach from it, a reference to `N` itself is
answered immutable from the cache, without a change; so the struct is
classified as it is without its fields of the type `N`, and the verdict of `N`
is decided by its other fields alone.  A pointer `*N` is no such reference: in
the pending state it is classified by the template recogniser
`immutable.IsImmType` alone, so a named struct whose other fields are of basic
types but for a last field that is a pointer to the struct itself is classified
immutable exactly when `*N` is an immutable template. -/
theorem isImmType_self_pointer (U : Universe) (hg : U.goodNames = true) (st : State)
    (hr : Reachable U st) (i : Nat) (fs : List (String × Ty))
    (hu : U.underlying i = .struct fs) (hn : st.typesCache.find (U.qualName i) = none) :
    isImmType U st (.named i)
      = namedResult U i (isImmType U (st.pending U i) (.struct fs)) ∧
    (st.pending U i).typesCache.find (U.qualName i) = some true ∧
    (∀ st' : State, Cache.Extends (st.pending U i).typesCache st'.typesCache →
      isImmType U st' (.named i) = (.ok true, st')) ∧
    isImmType U (st.pending U i) (.struct fs)
      = isImmType U (st.pending U i) (.struct (fs.filter fun f => !f.2.isNamed i)) ∧
    (isImmType U st (.named i)).1
      = (isImmType U (st.pending U i) (.struct (fs.filter fun f => !f.2.isNamed i))).1 ∧
    isImmType U (st.pending U i) (.pointer (.named i))
      = (.ok (U.IsImmType (.pointer (.named i))).isSome, st.pending U i) ∧
    (∀ (bs : List (String × BasicKind)) (x : String),
      fs = bs.map (fun b => (b.1, Ty.basic b.2)) ++ [(x, .pointer (.named i))] →
        (isImmType U st (.named i)).1 = .ok (U.IsImmType (.pointer (.named i))).isSome) ∧
    (∀ (bs : List (String × BasicKind)) (x : String),
      (fs.filter fun f => !f.2.isNamed i)
          = bs.map (fun b => (b.1, Ty.basic b.2)) ++ [(x, .pointer (.named i))] →
        (isImmType U st (.named i)).1 = .ok (U.IsImmType (.pointer (.named i))).isSome) := by
  have hpend : (st.pending U i).typesCache.find (U.qualName i) = some true := by
    show (st.typesCache.store (U.qualName i) true).find (U.qualName i) = some true
    rw [Cache.find_store, if_pos rfl]
  have hnamed : isImmType U st (.named i)
      = namedResult U i (isImmType U (st.pending U i) (.struct fs)) := by
    rw [isImmType_named U st i hn, hu]
  have hself : ∀ st' : State, st'.typesCache.find (U.qualName i) = some true →
      isImmType U st' (.named i) = (.ok true, st') :=
    fun st' h => isImmType_hit U st' (.named i) true h
  have hstruct : ∀ gs : List (String × Ty),
      isImmType U (st.pending U i) (.struct gs) = fieldLoop (isImmType U) (st.pending U i) gs :=
    fun gs => isImmType_struct U _ gs (by
      rw [find_pending U hg st hr i _ (fun j hj => by cases hj)]
      exact find_seed_struct U gs)
  have hskip : isImmType U (st.pending U i) (.struct fs)
      = isImmType U (st.pending U i) (.struct (fs.filter fun f => !f.2.isNamed i)) := by
    rw [hstruct, hstruct]
    exact fieldLoop_skip_self (isImmType U) i
      (fun s => s.typesCache.find (U.qualName i) = some true) hself
      (fun s t hs => isImmType_extends U s t _ _ hs) fs _ hpend
  have hseed : typesCache.find (U.qualName i) = none := by
    cases hs : typesCache.find (U.qualName i) with
    | none => rfl
    | some v => rw [Reachable.extends_seed U st hr _ _ hs] at hn; cases hn
  have hptr : isImmType U (st.pending U i) (.pointer (.named i))
      = (.ok (U.IsImmType (.pointer (.named i))).isSome, st.pending U i) :=
    isImmType_leaf U _ (.pointer (.named i)) rfl (by
      rw [find_pending U hg st hr i _ (fun j hj => by cases hj)]
      exact find_seed_pointer U (.named i) hseed)
  have hb : ∀ k, isImmType U (st.pending U i) (.basic k) = (.ok true, st.pending U i) :=
    fun k => isImmType_leaf U _ (.basic k) rfl (by
      rw [find_pending U hg st hr i _ (fun j hj => by cases hj)]
      exact find_seed_basic k)
  refine ⟨hnamed, hpend, fun st' hext => hself st' (hext _ _ hpend), hskip, ?_, hptr, ?_, ?_⟩
  · rw [hnamed, namedResult_fst, hskip]
  · intro bs x hfs
    have hloop := fieldLoop_basics_then (isImmType U) (st.pending U i) bs
      (x, .pointer (.named i)) (U.IsImmType (.pointer (.named i))).isSome hb hptr
    rw [hnamed, namedResult_fst, hstruct, hfs, hloop]
  · intro bs x hfs
    have hloop := fieldLoop_basics_then (isImmType U) (st.pending U i) bs
      (x, .pointer (.named i)) (U.IsImmType (.pointer (.named i))).isSome hb hptr
    rw [hnamed, namedResult_fst, hskip, hstruct, hfs, hloop]

/-- Witness of **C6 (amended)**: the named type
`type T struct { a int; t T; p *T }` at program start, whose pointer form is a
template; the reference to `T` in its own struct is met while `T` is pending
and answered immutable, the pointer is classified by the recogniser, and `T` is
classified immutable. -/
theorem isImmType_self_pointer_witness :
    (isImmType selfField State.init (.named 0)
      = namedResult selfField 0
          (isImmType selfField (State.init.pending selfField 0)
            (.struct [("a", .basic .int), ("t", .named 0), ("p", .pointer (.named 0))])) ∧
    (State.init.pending selfField 0).typesCache.find (selfField.qualName 0) = some true ∧
    (∀ st' : State,
      Cache.Extends (State.init.pending selfField 0).typesCache st'.typesCache →
        isImmType selfField st' (.named 0) = (.ok true, st')) ∧
    isImmType selfField (State.init.pending selfField 0)
        (.struct [("a", .basic .int), ("t", .named 0), ("p", .pointer (.named 0))])
      = isImmType selfField (State.init.pending selfField 0)
          (.struct ([("a", Ty.basic .int), ("t", Ty.named 0),
            ("p", Ty.pointer (.named 0))].filter fun f => !f.2.isNamed 0)) ∧
    (isImmType selfField State.init (.named 0)).1
      = (isImmType selfField (State.init.pending selfField 0)
          (.struct ([("a", Ty.basic .int), ("t", Ty.named 0),
            ("p", Ty.pointer (.named 0))].filter fun f => !f.2.isNamed 0))).1 ∧
    isImmType selfField (State.init.pending selfField 0) (.pointer (.named 0))
      = (.ok (selfField.IsImmType (.pointer (.named 0))).isSome,
          State.init.pending selfField 0) ∧
    (∀ (bs : List (String × BasicKind)) (x : String),
      [("a", Ty.basic .int), ("t", Ty.named 0), ("p", Ty.pointer (.named 0))]
          = bs.map (fun b => (b.1, Ty.basic b.2)) ++ [(x, .pointer (.named 0))] →
        (isImmType selfField State.init (.named 0)).1
          = .ok (selfField.IsImmType (.pointer (.named 0))).isSome) ∧
    (∀ (bs : List (String × BasicKind)) (x : String),
      ([("a", Ty.basic .int), ("t", Ty.named 0),
          ("p", Ty.pointer (.named 0))].filter fun f => !f.2.isNamed 0)
          = bs.map (fun b => (b.1, Ty.basic b.2)) ++ [(x, .pointer (.named 0))] →
        (isImmType selfField State.init (.named 0)).1
          = .ok (selfField.IsImmType (.pointer (.named 0))).isSome)) ∧
    (isImmType selfField State.init (.named 0)).1 = .ok true ∧
    (isImmType selfField (State.init.pending selfField 0) (.named 0)).1 = .ok true ∧
    (isImmType listNode State.init (.named 0)).1
      = .ok (listNode.IsImmType (.pointer (.named 0))).isSome :=
  ⟨isImmType_self_pointer selfField (by decide) State.init Reachable.init 0
    [("a", .basic .int), ("t", .named 0), ("p", .pointer (.named 0))] rfl (by decide),
    by decide, by decide, by decide⟩

end ImmutableVet
